import Mathlib

/-!
MiniballSort: calibration store and FEBEX pulse processor

A shallow embedding of `src/src/Calibration.cc` (classes `MiniballCalibration`
and `FebexMWD`).

Conventions of the embedding

* `float` and `double` quantities are exact rationals (`ℚ`): the rounding of
  arithmetic results is not represented, and a quotient with divisor 0 is 0 where
  the source stores an infinity or NaN; statements about such quotients carry the
  hypothesis that the divisor is not 0.  The conversion of an `unsigned int` to the
  `float` a function returns is rounded to 24 significant bits (`roundToFloat`).
* `unsigned int` quantities are natural numbers, `int` and `long` quantities are
  integers.  Where the source converts a signed value to an unsigned one
  (`return -1` from a function returning `unsigned int`, a signed configuration
  value stored in an unsigned table) the conversion is written out modulo `2^32`.
  Sums of sample counts and of loop indices are sums of natural numbers; they are
  the 32-bit sums of the source as long as none of them reaches `2^32`, which is
  what `FebexMWD.InRange` says of a processor.
* `std::vector<T>` is `List T`; the three-level parameter tables are lists of
  lists of lists, sized by `ReadCalibration` exactly as the source resizes them.
* Member functions that change the object return the changed object.
-/

/-! ## Three-level parameter tables -/

/-- A table `std::vector<std::vector<std::vector<T>>>`. -/
abbrev Table (α : Type) := List (List (List α))

/-- The element `t[i][j][k]`.  Every access in the source is guarded by the bounds
check against the configured dimensions; outside the allocated vectors the
embedding yields the default value of the element type. -/
def Table.read {α : Type} [Inhabited α] (t : Table α) (i j k : Nat) : α :=
  ((t.getD i []).getD j []).getD k default

/-- The assignment `t[i][j][k] = v`. -/
def Table.write {α : Type} (t : Table α) (i j k : Nat) (v : α) : Table α :=
  t.set i ((t.getD i []).set j (((t.getD i []).getD j []).set k v))

/-- The nested `resize` calls followed by the assignment of every element:
`a` outer vectors of `b` vectors of `c` elements, element `(i, j, k)` being `f i j k`. -/
def Table.build {α : Type} (a b c : Nat) (f : Nat → Nat → Nat → α) : Table α :=
  (List.range a).map fun i => (List.range b).map fun j => (List.range c).map fun k => f i j k

/-- The table has exactly the dimensions `a × b × c`. -/
def Table.Sized {α : Type} (t : Table α) (a b c : Nat) : Prop :=
  t.length = a ∧ ∀ x ∈ t, x.length = b ∧ ∀ y ∈ x, y.length = c

/-! ## External collaborators (ROOT and the settings object) -/

/-- Modelled from the spec: the settings object (`Settings.hh` is not part of the
sources at hand) provides the fixed dimension counts of the tables: number of
modules (SFPs), boards per module and channels per board. -/
structure MiniballSettings where
  n_febex_sfp : Nat
  n_febex_bd : Nat
  n_febex_ch : Nat

/-- Number of SFPs (modules). -/
def MiniballSettings.GetNumberOfFebexSfps (s : MiniballSettings) : Nat := s.n_febex_sfp

/-- Number of boards per SFP. -/
def MiniballSettings.GetNumberOfFebexBoards (s : MiniballSettings) : Nat := s.n_febex_bd

/-- Number of channels per board. -/
def MiniballSettings.GetNumberOfFebexChannels (s : MiniballSettings) : Nat := s.n_febex_ch

/-- The key-value configuration source (ROOT `TEnv`): for each key, the value it
holds at each of the three types the source asks for, if the key is present. -/
structure TEnv where
  doubles : String → Option ℚ
  ints : String → Option Int
  strings : String → Option String

/-- The call `GetValue( key, (double) dflt )`. -/
def TEnv.GetValueDouble (e : TEnv) (key : String) (dflt : ℚ) : ℚ := (e.doubles key).getD dflt

/-- The call `GetValue( key, (int) dflt )`. -/
def TEnv.GetValueInt (e : TEnv) (key : String) (dflt : Int) : Int := (e.ints key).getD dflt

/-- The call `GetValue( key, (const char*) dflt )`. -/
def TEnv.GetValueString (e : TEnv) (key : String) (dflt : String) : String :=
  (e.strings key).getD dflt

/-- The random generator (ROOT `TRandom`) as the stream of its draws and the
position of the next one. -/
structure TRandom where
  draws : Nat → ℚ
  pos : Nat

/-- The call `Uniform()`: the next draw, and the advanced generator. -/
def TRandom.Uniform (r : TRandom) : ℚ × TRandom := (r.draws r.pos, { r with pos := r.pos + 1 })

/-- Conversion of an `int` to `unsigned int`. -/
def toUInt32 (v : Int) : Nat := (v % 2 ^ 32).toNat

/-- Conversion of a `double` to `long`: truncation towards zero. -/
def toLong (q : ℚ) : Int := if 0 ≤ q then ⌊q⌋ else ⌈q⌉

/-- The number of low-order bits of an `unsigned int` value that do not fit into the
24-bit significand of a `float`: 0 below `2^24`, and one more than for half the value
otherwise.  The first argument bounds the recursion; 8 steps suffice for 32 bits. -/
def droppedBits : Nat → Nat → Nat
  | 0, _ => 0
  | fuel + 1, n => if n < 2 ^ 24 then 0 else droppedBits fuel (n / 2) + 1

/-- The value of an `unsigned int` after its conversion to `float` (IEEE binary32, round
to nearest, ties to even): the low-order bits that do not fit into the 24-bit significand
are rounded off. -/
def roundToFloat (n : Nat) : Nat :=
  let e := droppedBits 8 n
  let q := n / 2 ^ e
  let r := n % 2 ^ e
  if 2 * r < 2 ^ e ∨ (2 * r = 2 ^ e ∧ q % 2 = 0) then q * 2 ^ e else (q + 1) * 2 ^ e

/-- The key `Form( "febex_%d_%d_%d.<name>", i, j, k )`. -/
def febexKey (i j k : Nat) (name : String) : String :=
  "febex_" ++ toString i ++ "_" ++ toString j ++ "_" ++ toString k ++ "." ++ name

/-! ## The calibration store -/

/-- The class `MiniballCalibration`.  Modelled from the spec: `Calibration.hh` is not
part of the sources at hand; the element type of each table is the type of its
accessor in `Calibration.cc`. -/
structure MiniballCalibration where
  set : MiniballSettings
  fRand : TRandom
  fFebexOffset : Table ℚ
  fFebexGain : Table ℚ
  fFebexGainQuadr : Table ℚ
  fFebexThreshold : Table Nat
  fFebexType : Table String
  fFebexTime : Table Int
  fFebexMWD_Decay : Table Nat
  fFebexMWD_Rise : Table Nat
  fFebexMWD_Top : Table Nat
  fFebexMWD_Baseline : Table Nat
  fFebexMWD_Window : Table Nat
  fFebexCFD_Delay : Table Nat
  fFebexCFD_Threshold : Table Int
  fFebexCFD_Fraction : Table ℚ

namespace MiniballCalibration

/-- The bounds check that opens every accessor. -/
def valid (c : MiniballCalibration) (sfp board ch : Nat) : Prop :=
  sfp < c.set.GetNumberOfFebexSfps ∧ board < c.set.GetNumberOfFebexBoards ∧
    ch < c.set.GetNumberOfFebexChannels

instance (c : MiniballCalibration) (sfp board ch : Nat) : Decidable (c.valid sfp board ch) := by
  unfold valid; infer_instance

/-- Every table has the configured dimensions. -/
def Sized (c : MiniballCalibration) : Prop :=
  c.fFebexOffset.Sized c.set.n_febex_sfp c.set.n_febex_bd c.set.n_febex_ch ∧
  c.fFebexGain.Sized c.set.n_febex_sfp c.set.n_febex_bd c.set.n_febex_ch ∧
  c.fFebexGainQuadr.Sized c.set.n_febex_sfp c.set.n_febex_bd c.set.n_febex_ch ∧
  c.fFebexThreshold.Sized c.set.n_febex_sfp c.set.n_febex_bd c.set.n_febex_ch ∧
  c.fFebexType.Sized c.set.n_febex_sfp c.set.n_febex_bd c.set.n_febex_ch ∧
  c.fFebexTime.Sized c.set.n_febex_sfp c.set.n_febex_bd c.set.n_febex_ch ∧
  c.fFebexMWD_Decay.Sized c.set.n_febex_sfp c.set.n_febex_bd c.set.n_febex_ch ∧
  c.fFebexMWD_Rise.Sized c.set.n_febex_sfp c.set.n_febex_bd c.set.n_febex_ch ∧
  c.fFebexMWD_Top.Sized c.set.n_febex_sfp c.set.n_febex_bd c.set.n_febex_ch ∧
  c.fFebexMWD_Baseline.Sized c.set.n_febex_sfp c.set.n_febex_bd c.set.n_febex_ch ∧
  c.fFebexMWD_Window.Sized c.set.n_febex_sfp c.set.n_febex_bd c.set.n_febex_ch ∧
  c.fFebexCFD_Delay.Sized c.set.n_febex_sfp c.set.n_febex_bd c.set.n_febex_ch ∧
  c.fFebexCFD_Threshold.Sized c.set.n_febex_sfp c.set.n_febex_bd c.set.n_febex_ch ∧
  c.fFebexCFD_Fraction.Sized c.set.n_febex_sfp c.set.n_febex_bd c.set.n_febex_ch

/-- Default of `MWD.DecayTime`. -/
def default_MWD_Decay : Nat := 50000
/-- Default of `MWD.RiseTime`. -/
def default_MWD_Rise : Nat := 100
/-- Default of `MWD.FlatTop`. -/
def default_MWD_Top : Nat := 150
/-- Default of `MWD.Baseline`. -/
def default_MWD_Baseline : Nat := 30
/-- Default of `MWD.Window`. -/
def default_MWD_Window : Nat := 200
/-- Default of `CFD.DelayTime`. -/
def default_CFD_Delay : Nat := 16
/-- Default of `CFD.Threshold`. -/
def default_CFD_Threshold : Nat := 200
/-- Default of `CFD.Fraction`. -/
def default_CFD_Fraction : ℚ := 1 / 4

/-- The function `ReadCalibration` as the constructor runs it (on empty tables):
every table is resized to the configured dimensions and every element is read
from the configuration source, with the default of its parameter.  The dimension counts
are within the range of the `unsigned char` loop counters of the source. -/
def ReadCalibration (config : TEnv) (set : MiniballSettings) (fRand : TRandom) :
    MiniballCalibration :=
  let a := set.GetNumberOfFebexSfps
  let b := set.GetNumberOfFebexBoards
  let n := set.GetNumberOfFebexChannels
  { set := set
    fRand := fRand
    fFebexOffset := Table.build a b n fun i j k =>
      config.GetValueDouble (febexKey i j k "Offset") 0
    fFebexGain := Table.build a b n fun i j k =>
      config.GetValueDouble (febexKey i j k "Gain") (15 / 10000)
    fFebexGainQuadr := Table.build a b n fun i j k =>
      config.GetValueDouble (febexKey i j k "GainQuadr") 0
    fFebexThreshold := Table.build a b n fun i j k =>
      toUInt32 (config.GetValueInt (febexKey i j k "Threshold") 15000)
    fFebexType := Table.build a b n fun i j k =>
      config.GetValueString (febexKey i j k "Type") "Qshort"
    fFebexTime := Table.build a b n fun i j k =>
      toLong (config.GetValueDouble (febexKey i j k "Time") 0)
    fFebexMWD_Decay := Table.build a b n fun i j k =>
      toUInt32 (config.GetValueInt (febexKey i j k "MWD.DecayTime") default_MWD_Decay)
    fFebexMWD_Rise := Table.build a b n fun i j k =>
      toUInt32 (config.GetValueInt (febexKey i j k "MWD.RiseTime") default_MWD_Rise)
    fFebexMWD_Top := Table.build a b n fun i j k =>
      toUInt32 (config.GetValueInt (febexKey i j k "MWD.FlatTop") default_MWD_Top)
    fFebexMWD_Baseline := Table.build a b n fun i j k =>
      toUInt32 (config.GetValueInt (febexKey i j k "MWD.Baseline") default_MWD_Baseline)
    fFebexMWD_Window := Table.build a b n fun i j k =>
      toUInt32 (config.GetValueInt (febexKey i j k "MWD.Window") default_MWD_Window)
    fFebexCFD_Delay := Table.build a b n fun i j k =>
      toUInt32 (config.GetValueInt (febexKey i j k "CFD.DelayTime") default_CFD_Delay)
    fFebexCFD_Threshold := Table.build a b n fun i j k =>
      config.GetValueInt (febexKey i j k "CFD.Threshold") default_CFD_Threshold
    fFebexCFD_Fraction := Table.build a b n fun i j k =>
      config.GetValueDouble (febexKey i j k "CFD.Fraction") default_CFD_Fraction }

/-- The "do we have defaults" test of `FebexEnergy`. -/
def isDefault (c : MiniballCalibration) (sfp board ch : Nat) : Prop :=
  |c.fFebexGainQuadr.read sfp board ch| < 1 / 1000000 ∧
  |c.fFebexGain.read sfp board ch - 1| < 1 / 1000000 ∧
  |c.fFebexOffset.read sfp board ch| < 1 / 1000000

instance (c : MiniballCalibration) (sfp board ch : Nat) :
    Decidable (c.isDefault sfp board ch) := by
  unfold isDefault; infer_instance

/-- The function `FebexEnergy`: the calibrated energy and the store afterwards
(the generator has advanced when the address is valid).  In the "defaults" branch the
source executes `return raw;` in a function returning `float`: the `unsigned int` is
converted to `float`. -/
def FebexEnergy (c : MiniballCalibration) (sfp board ch raw : Nat) : ℚ × MiniballCalibration :=
  if c.valid sfp board ch then
    let u := c.fRand.Uniform
    let raw_rand : ℚ := (raw : ℚ) + 1 / 2 - u.1
    let energy : ℚ := c.fFebexGainQuadr.read sfp board ch * raw_rand * raw_rand
    let energy : ℚ := energy + c.fFebexGain.read sfp board ch * raw_rand
    let energy : ℚ := energy + c.fFebexOffset.read sfp board ch
    if c.isDefault sfp board ch then (((roundToFloat raw : Nat) : ℚ), { c with fRand := u.2 })
    else (energy, { c with fRand := u.2 })
  else (-1, c)

/-- The function `FebexThreshold`; `return -1` is converted to `unsigned int`. -/
def FebexThreshold (c : MiniballCalibration) (sfp board ch : Nat) : Nat :=
  if c.valid sfp board ch then c.fFebexThreshold.read sfp board ch else toUInt32 (-1)

/-- The function `FebexTime`. -/
def FebexTime (c : MiniballCalibration) (sfp board ch : Nat) : Int :=
  if c.valid sfp board ch then c.fFebexTime.read sfp board ch else 0

/-- The function `FebexType`.  On an out-of-range address the source executes
`return 0;` in a function returning `std::string`: the string is constructed from a
null `const char*`, which is not a valid argument of that constructor: the standard
library throws `std::logic_error` (or the read through the null pointer faults), and no
string is returned. -/
def FebexType (c : MiniballCalibration) (sfp board ch : Nat) : Except String String :=
  if c.valid sfp board ch then Except.ok (c.fFebexType.read sfp board ch)
  else Except.error "std::string constructed from a null pointer"

/-- The function `SetMWDDecay`. -/
def SetMWDDecay (c : MiniballCalibration) (sfp board ch decay : Nat) : MiniballCalibration :=
  if c.valid sfp board ch then
    { c with fFebexMWD_Decay := c.fFebexMWD_Decay.write sfp board ch decay }
  else c

/-- The function `SetMWDRise`. -/
def SetMWDRise (c : MiniballCalibration) (sfp board ch rise : Nat) : MiniballCalibration :=
  if c.valid sfp board ch then
    { c with fFebexMWD_Rise := c.fFebexMWD_Rise.write sfp board ch rise }
  else c

/-- The function `SetMWDTop`. -/
def SetMWDTop (c : MiniballCalibration) (sfp board ch top : Nat) : MiniballCalibration :=
  if c.valid sfp board ch then
    { c with fFebexMWD_Top := c.fFebexMWD_Top.write sfp board ch top }
  else c

/-- The function `SetMWDBaseline`. -/
def SetMWDBaseline (c : MiniballCalibration) (sfp board ch baseline_length : Nat) :
    MiniballCalibration :=
  if c.valid sfp board ch then
    { c with fFebexMWD_Baseline := c.fFebexMWD_Baseline.write sfp board ch baseline_length }
  else c

/-- The function `SetMWDWindow`. -/
def SetMWDWindow (c : MiniballCalibration) (sfp board ch window : Nat) : MiniballCalibration :=
  if c.valid sfp board ch then
    { c with fFebexMWD_Window := c.fFebexMWD_Window.write sfp board ch window }
  else c

/-- The function `SetCFDFraction`. -/
def SetCFDFraction (c : MiniballCalibration) (sfp board ch : Nat) (fraction : ℚ) :
    MiniballCalibration :=
  if c.valid sfp board ch then
    { c with fFebexCFD_Fraction := c.fFebexCFD_Fraction.write sfp board ch fraction }
  else c

/-- The function `SetCFDDelay`. -/
def SetCFDDelay (c : MiniballCalibration) (sfp board ch delay : Nat) : MiniballCalibration :=
  if c.valid sfp board ch then
    { c with fFebexCFD_Delay := c.fFebexCFD_Delay.write sfp board ch delay }
  else c

/-- The function `SetCFDThreshold`. -/
def SetCFDThreshold (c : MiniballCalibration) (sfp board ch : Nat) (threshold : Int) :
    MiniballCalibration :=
  if c.valid sfp board ch then
    { c with fFebexCFD_Threshold := c.fFebexCFD_Threshold.write sfp board ch threshold }
  else c

/-- The function `GetMWDDecay`. -/
def GetMWDDecay (c : MiniballCalibration) (sfp board ch : Nat) : Nat :=
  if c.valid sfp board ch then c.fFebexMWD_Decay.read sfp board ch else 0

/-- The function `GetMWDRise`. -/
def GetMWDRise (c : MiniballCalibration) (sfp board ch : Nat) : Nat :=
  if c.valid sfp board ch then c.fFebexMWD_Rise.read sfp board ch else 0

/-- The function `GetMWDTop`. -/
def GetMWDTop (c : MiniballCalibration) (sfp board ch : Nat) : Nat :=
  if c.valid sfp board ch then c.fFebexMWD_Top.read sfp board ch else 0

/-- The function `GetMWDBaseline`. -/
def GetMWDBaseline (c : MiniballCalibration) (sfp board ch : Nat) : Nat :=
  if c.valid sfp board ch then c.fFebexMWD_Baseline.read sfp board ch else 0

/-- The function `GetMWDWindow`. -/
def GetMWDWindow (c : MiniballCalibration) (sfp board ch : Nat) : Nat :=
  if c.valid sfp board ch then c.fFebexMWD_Window.read sfp board ch else 0

/-- The function `GetCFDFraction`. -/
def GetCFDFraction (c : MiniballCalibration) (sfp board ch : Nat) : ℚ :=
  if c.valid sfp board ch then c.fFebexCFD_Fraction.read sfp board ch else 0

/-- The function `GetCFDDelay`. -/
def GetCFDDelay (c : MiniballCalibration) (sfp board ch : Nat) : Nat :=
  if c.valid sfp board ch then c.fFebexCFD_Delay.read sfp board ch else 0

/-- The function `GetCFDThreshold`. -/
def GetCFDThreshold (c : MiniballCalibration) (sfp board ch : Nat) : Int :=
  if c.valid sfp board ch then c.fFebexCFD_Threshold.read sfp board ch else 0

end MiniballCalibration

/-! ## The pulse processor -/

/-- The class `FebexMWD`.  Modelled from the spec: `Calibration.hh` is not part of the
sources at hand; the members are the ones `FebexMWD::DoMWD` uses, the counts in
samples being `unsigned int`, the trace `std::vector<unsigned short>`, the signed
`threshold` an `int`, `fraction` and all filter buffers `float`. -/
structure FebexMWD where
  trace : List Nat
  rise_time : Nat
  decay_time : Nat
  flat_top : Nat
  baseline_length : Nat
  window : Nat
  delay_time : Nat
  threshold : Int
  fraction : ℚ
  stage1 : List ℚ
  stage2 : List ℚ
  stage3 : List ℚ
  stage4 : List ℚ
  shaper : List ℚ
  cfd : List ℚ
  energy_list : List ℚ
  cfd_list : List ℚ

/-- What the memory behind the end of the buffers `cfd` and `stage4` holds: the
value that `cfd[i]`, respectively `stage4[i]`, yields for an index `i` at or above
the buffer's size.  The trigger scan can read there. -/
structure Overread where
  cfd : Nat → ℚ
  stage4 : Nat → ℚ

/-- The call `v.resize( n, x )`. -/
def resize (v : List ℚ) (n : Nat) (x : ℚ) : List ℚ := v.take n ++ List.replicate (n - v.length) x

namespace FebexMWD

/-- The default constructor `FebexMWD()`: empty vectors; the scalar members, which
the source leaves uninitialised, are zero here. -/
def new : FebexMWD :=
  { trace := [], rise_time := 0, decay_time := 0, flat_top := 0, baseline_length := 0,
    window := 0, delay_time := 0, threshold := 0, fraction := 0,
    stage1 := [], stage2 := [], stage3 := [], stage4 := [], shaper := [], cfd := [],
    energy_list := [], cfd_list := [] }

/-- Modelled from the spec: the inline setter `SetTrace` of `Calibration.hh`. -/
def SetTrace (m : FebexMWD) (input : List Nat) : FebexMWD := { m with trace := input }
/-- Modelled from the spec: the inline setter `SetRiseTime` of `Calibration.hh`. -/
def SetRiseTime (m : FebexMWD) (rise : Nat) : FebexMWD := { m with rise_time := rise }
/-- Modelled from the spec: the inline setter `SetDecayTime` of `Calibration.hh`. -/
def SetDecayTime (m : FebexMWD) (decay : Nat) : FebexMWD := { m with decay_time := decay }
/-- Modelled from the spec: the inline setter `SetFlatTop` of `Calibration.hh`. -/
def SetFlatTop (m : FebexMWD) (top : Nat) : FebexMWD := { m with flat_top := top }
/-- Modelled from the spec: the inline setter `SetBaseline` of `Calibration.hh`. -/
def SetBaseline (m : FebexMWD) (baseline : Nat) : FebexMWD :=
  { m with baseline_length := baseline }
/-- Modelled from the spec: the inline setter `SetWindow` of `Calibration.hh`. -/
def SetWindow (m : FebexMWD) (win : Nat) : FebexMWD := { m with window := win }
/-- Modelled from the spec: the inline setter `SetDelayTime` of `Calibration.hh`. -/
def SetDelayTime (m : FebexMWD) (delay : Nat) : FebexMWD := { m with delay_time := delay }
/-- Modelled from the spec: the inline setter `SetThreshold` of `Calibration.hh`. -/
def SetThreshold (m : FebexMWD) (thres : Int) : FebexMWD := { m with threshold := thres }
/-- Modelled from the spec: the inline setter `SetFraction` of `Calibration.hh`. -/
def SetFraction (m : FebexMWD) (frac : ℚ) : FebexMWD := { m with fraction := frac }

/-- The fixed number of leading samples that `DoMWD` skips. -/
def skip : Nat := 5

/-- The CFD part of the body of the first loop of `DoMWD`, at index `i`.  The sum
`cfd_delay + skip` is the 32-bit sum of the source when `delay_time + 5 < 2^32`. -/
def cfdStep (m : FebexMWD) (i : Nat) : FebexMWD :=
  if i > m.delay_time + skip then
    let shaper := m.shaper.set i
      (((m.trace.getD i 0 : Int) - (m.trace.getD (i - m.delay_time) 0 : Int) : Int) : ℚ)
    let c : ℚ := m.fraction * shaper.getD i 0
    let c : ℚ := c - shaper.getD (i - m.delay_time) 0
    { m with shaper := shaper, cfd := m.cfd.set i c }
  else m

/-- Stages 1 to 3 of the body of the first loop of `DoMWD`, at index `i`.  The sum
`M + skip` is the 32-bit sum of the source when `rise_time + 5 < 2^32`; the quotient by
`torr` is the one of the source when `decay_time` is not 0. -/
def mwdStep (m : FebexMWD) (i : Nat) : FebexMWD :=
  if i ≥ m.rise_time + skip then
    let s1 : ℚ := ((m.trace.getD i 0 : Int) : ℚ)
    let s1 : ℚ := s1 - ((m.trace.getD (i - m.rise_time) 0 : Int) : ℚ)
    let s2 : ℚ := (List.range m.rise_time).foldl
      (fun acc j => acc + ((m.trace.getD (i - j) 0 : Int) : ℚ)) 0
    let s2 : ℚ := s2 / (m.decay_time : ℚ)
    { m with stage1 := m.stage1.set i s1, stage2 := m.stage2.set i s2,
             stage3 := m.stage3.set i (s1 + s2) }
  else m

/-- Stage 4 of the body of the first loop of `DoMWD`, at index `i`.  The sum `L + skip`
is the 32-bit sum of the source when `window + 5 < 2^32`; the quotient by `L` is the one of
the source when `window` is not 0. -/
def avgStep (m : FebexMWD) (i : Nat) : FebexMWD :=
  if i ≥ m.window + skip then
    let s4 : ℚ := (List.range m.window).foldl
      (fun acc j => acc + m.stage3.getD (i - j) 0) (m.stage4.getD i 0)
    { m with stage4 := m.stage4.set i (s4 / (m.window : ℚ)) }
  else m

/-- The body of the first loop of `DoMWD`, at index `i`. -/
def filterStep (m : FebexMWD) (i : Nat) : FebexMWD := avgStep (mwdStep (cfdStep m i) i) i

/-- The six `resize` calls at the head of `DoMWD`. -/
def resizeAll (m : FebexMWD) : FebexMWD :=
  let trace_length := m.trace.length
  { m with stage1 := resize m.stage1 trace_length 0, stage2 := resize m.stage2 trace_length 0,
           stage3 := resize m.stage3 trace_length 0, stage4 := resize m.stage4 trace_length 0,
           shaper := resize m.shaper trace_length 0, cfd := resize m.cfd trace_length 0 }

/-- The first loop of `DoMWD`: `for( i = skip; i < trace_length; ++i )`. -/
def filter (m : FebexMWD) : FebexMWD :=
  (List.range' skip (m.trace.length - skip)).foldl filterStep m

/-- The read `cfd[i]` of the trigger scan. -/
def cfdAt (m : FebexMWD) (o : Overread) (i : Nat) : ℚ := m.cfd.getD i (o.cfd i)

/-- The read `stage4[i]` of the trigger scan. -/
def stage4At (m : FebexMWD) (o : Overread) (i : Nat) : ℚ := m.stage4.getD i (o.stage4 i)

/-- The loop `while( cfd[i] * cfd[i-1] > 0 && i < trace_length ) i++;` started at `i`; the
first argument bounds the number of iterations and is `trace_length - i` at the call. -/
def zeroCrossing (m : FebexMWD) (o : Overread) (trace_length : Nat) : Nat → Nat → Nat
  | 0, i => i
  | fuel + 1, i =>
    if m.cfdAt o i * m.cfdAt o (i - 1) > 0 ∧ i < trace_length then
      zeroCrossing m o trace_length fuel (i + 1)
    else i

/-- The trigger condition of the scan at index `i`. -/
def triggers (m : FebexMWD) (o : Overread) (i : Nat) : Prop :=
  i ≥ m.delay_time ∧
    ((m.cfdAt o i > (m.threshold : ℚ) ∧ m.threshold > 0) ∨
     (m.cfdAt o i < (m.threshold : ℚ) ∧ m.threshold < 0))

instance (m : FebexMWD) (o : Overread) (i : Nat) : Decidable (m.triggers o i) := by
  unfold triggers; infer_instance

/-- The interpolated crossing time computed at crossing index `i`.  The quotients are
the ones of the source when neither `cfd[i]` nor `cfd[i-1]` is 0. -/
def cfdTime (m : FebexMWD) (o : Overread) (i : Nat) : ℚ :=
  let cfd_time : ℚ := (i : ℚ) / |m.cfdAt o i|
  let cfd_time : ℚ := cfd_time + ((i - 1 : Nat) : ℚ) / |m.cfdAt o (i - 1)|
  cfd_time / (1 / |m.cfdAt o i| + 1 / |m.cfdAt o (i - 1)|)

/-- The second loop of `DoMWD` (the trigger scan) from index `i` on, with the lists
`(cfd_list, energy_list)` collected so far.  The index advances by sums of natural
numbers, which are the 32-bit sums of the source for a processor that is `InRange`; then
every iteration moves the index up by at least one.  The first argument bounds the
number of iterations and is `trace_length - skip` at the call. -/
def scan (m : FebexMWD) (o : Overread) (trace_length : Nat) :
    Nat → Nat → List ℚ × List ℚ → List ℚ × List ℚ
  | 0, _, lists => lists
  | fuel + 1, i, lists =>
    if i < trace_length then
      let baseline_energy : ℚ :=
        if i ≥ m.baseline_length then m.stage4At o (i - m.baseline_length) else m.stage4At o 0
      if m.triggers o i then
        let i1 := zeroCrossing m o trace_length (trace_length - i) i
        if m.threshold < 0 ∧ m.cfdAt o (i1 - 1) > 0 then scan m o trace_length fuel (i1 + 1) lists
        else if m.threshold > 0 ∧ m.cfdAt o (i1 - 1) < 0 then
          scan m o trace_length fuel (i1 + 1) lists
        else if trace_length - i1 < m.rise_time then lists
        else
          let i2 := i1 + (m.rise_time + m.delay_time)
          let energy : ℚ := m.stage4At o i2 - baseline_energy
          let i3 := i2 + (m.window + m.baseline_length)
          scan m o trace_length fuel (i3 + 1)
            (lists.1 ++ [m.cfdTime o i1], lists.2 ++ [energy])
      else scan m o trace_length fuel (i + 1) lists
    else lists

/-- The function `FebexMWD::DoMWD`. -/
def DoMWD (o : Overread) (m : FebexMWD) : FebexMWD :=
  let m1 := filter (resizeAll m)
  let r := scan m1 o m1.trace.length (m1.trace.length - skip) skip (m1.cfd_list, m1.energy_list)
  { m1 with cfd_list := r.1, energy_list := r.2 }

/-- A pulse processor constructed for one trace and configured with the given
filter parameters, before it is run. -/
def configured (trace : List Nat) (riseTime decayTime flatTop baselineLength window
    cfdDelay : Nat) (threshold : Int) (fraction : ℚ) : FebexMWD :=
  { FebexMWD.new with
    trace := trace, rise_time := riseTime, decay_time := decayTime, flat_top := flatTop,
    baseline_length := baselineLength, window := window, delay_time := cfdDelay,
    threshold := threshold, fraction := fraction }

end FebexMWD

/-- The function `MiniballCalibration::DoMWD`. -/
def MiniballCalibration.DoMWD (c : MiniballCalibration) (o : Overread) (sfp board ch : Nat)
    (trace : List Nat) : FebexMWD :=
  let mwd : FebexMWD := FebexMWD.new
  if c.valid sfp board ch then
    let mwd := mwd.SetTrace trace
    let mwd := mwd.SetRiseTime (c.fFebexMWD_Rise.read sfp board ch)
    let mwd := mwd.SetDecayTime (c.fFebexMWD_Decay.read sfp board ch)
    let mwd := mwd.SetFlatTop (c.fFebexMWD_Top.read sfp board ch)
    let mwd := mwd.SetBaseline (c.fFebexMWD_Baseline.read sfp board ch)
    let mwd := mwd.SetWindow (c.fFebexMWD_Window.read sfp board ch)
    let mwd := mwd.SetDelayTime (c.fFebexCFD_Delay.read sfp board ch)
    let mwd := mwd.SetThreshold (c.fFebexCFD_Threshold.read sfp board ch)
    let mwd := mwd.SetFraction (c.fFebexCFD_Fraction.read sfp board ch)
    mwd.DoMWD o
  else mwd

/-- The data flow of the spec for one trace: ask the store for the channel's filter
parameters through its getters, configure a pulse processor with them and the trace,
run the filter. -/
def specDoMWD (c : MiniballCalibration) (o : Overread) (sfp board ch : Nat)
    (trace : List Nat) : FebexMWD :=
  FebexMWD.DoMWD o
    (FebexMWD.configured trace (c.GetMWDRise sfp board ch) (c.GetMWDDecay sfp board ch)
      (c.GetMWDTop sfp board ch) (c.GetMWDBaseline sfp board ch) (c.GetMWDWindow sfp board ch)
      (c.GetCFDDelay sfp board ch) (c.GetCFDThreshold sfp board ch)
      (c.GetCFDFraction sfp board ch))

/-! ## Predicates on processor states -/

/-- The parameters, the trace and the two result lists of two processor states agree. -/
def FebexMWD.SameSetup (a b : FebexMWD) : Prop :=
  a.trace = b.trace ∧ a.rise_time = b.rise_time ∧ a.decay_time = b.decay_time ∧
  a.flat_top = b.flat_top ∧ a.baseline_length = b.baseline_length ∧ a.window = b.window ∧
  a.delay_time = b.delay_time ∧ a.threshold = b.threshold ∧ a.fraction = b.fraction ∧
  a.energy_list = b.energy_list ∧ a.cfd_list = b.cfd_list

/-- The trace and the filter parameters are small enough for every index that `DoMWD`
forms to stay below `2^32`: the guards `cfd_delay + skip`, `M + skip` and `L + skip` of the
filter loop, and the index of the trigger scan, which from a crossing inside the trace
advances by `M + cfd_delay`, by `L + baseline_length` and by 1.  For such a processor the
32-bit unsigned arithmetic of the source does not wrap around. -/
def FebexMWD.InRange (m : FebexMWD) : Prop :=
  m.trace.length + m.rise_time + m.delay_time + m.window + m.baseline_length + 5 < 2 ^ 32

instance (m : FebexMWD) : Decidable m.InRange := by
  unfold FebexMWD.InRange; infer_instance

/-- Trace, shaper and cfd buffer hold zeros only, and the cfd buffer has the length of
the trace. -/
def FebexMWD.AllZero (m : FebexMWD) : Prop :=
  (∀ x ∈ m.trace, x = 0) ∧ (∀ x ∈ m.shaper, x = 0) ∧ (∀ x ∈ m.cfd, x = 0) ∧
  m.cfd.length = m.trace.length

/-! ## What the filter loop computes, in closed form -/

namespace FebexMWD

/-- The sample `trace[i]` as a number (0 outside the trace). -/
def sample (m : FebexMWD) (i : Nat) : ℚ := ((m.trace.getD i 0 : Int) : ℚ)

/-- The delay-line difference `shaped[k] = trace[k] - trace[k - cfdDelay]` (a signed
difference of the unsigned samples) for `k > cfdDelay + 5`, and 0 otherwise. -/
def specShaped (m : FebexMWD) (k : Nat) : ℚ :=
  if k > m.delay_time + 5 then
    (((m.trace.getD k 0 : Int) - (m.trace.getD (k - m.delay_time) 0 : Int) : Int) : ℚ)
  else 0

/-- The discriminator trace `cfd[i] = cfdFraction * shaped[i] - shaped[i - cfdDelay]` for
`i > cfdDelay + 5`, and 0 otherwise. -/
def specCfd (m : FebexMWD) (i : Nat) : ℚ :=
  if i > m.delay_time + 5 then
    m.fraction * m.specShaped i - m.specShaped (i - m.delay_time)
  else 0

/-- The difference stage `trace[i] - trace[i - riseTime]` for `i >= riseTime + 5`, and 0
otherwise. -/
def specStage1 (m : FebexMWD) (i : Nat) : ℚ :=
  if i ≥ m.rise_time + 5 then m.sample i - m.sample (i - m.rise_time) else 0

/-- The moving-sum stage `(sum of trace[i - j] for j = 0 .. riseTime-1) / decayTime` for
`i >= riseTime + 5`, and 0 otherwise. -/
def specStage2 (m : FebexMWD) (i : Nat) : ℚ :=
  if i ≥ m.rise_time + 5 then
    ((List.range m.rise_time).map fun j => m.sample (i - j)).sum / (m.decay_time : ℚ)
  else 0

/-- The combined stage `stage1[i] + stage2[i]`. -/
def specStage3 (m : FebexMWD) (i : Nat) : ℚ := m.specStage1 i + m.specStage2 i

/-- The arithmetic mean of the `window` values `stage3[i - window + 1 .. i]` for
`i >= window + 5`, and 0 otherwise. -/
def specStage4 (m : FebexMWD) (i : Nat) : ℚ :=
  if i ≥ m.window + 5 then
    ((List.range m.window).map fun j => m.specStage3 (i - j)).sum / (m.window : ℚ)
  else 0

/-- The state of the six buffers after the first `n` iterations of the filter loop
(indices `5 .. 5 + n - 1`) of a run that started from `m0` with zeroed buffers: every
buffer has the length of the trace, holds its closed form below index `5 + n` and is
still zero from there on. -/
def FilterInv (m0 m : FebexMWD) (n : Nat) : Prop :=
  m.SameSetup m0 ∧
  (m.shaper.length = m0.trace.length ∧ m.cfd.length = m0.trace.length ∧
    m.stage1.length = m0.trace.length ∧ m.stage2.length = m0.trace.length ∧
    m.stage3.length = m0.trace.length ∧ m.stage4.length = m0.trace.length) ∧
  ∀ j : Nat,
    m.shaper.getD j 0 = (if j < 5 + n then m0.specShaped j else 0) ∧
    m.cfd.getD j 0 = (if j < 5 + n then m0.specCfd j else 0) ∧
    m.stage1.getD j 0 = (if j < 5 + n then m0.specStage1 j else 0) ∧
    m.stage2.getD j 0 = (if j < 5 + n then m0.specStage2 j else 0) ∧
    m.stage3.getD j 0 = (if j < 5 + n then m0.specStage3 j else 0) ∧
    m.stage4.getD j 0 = (if j < 5 + n then m0.specStage4 j else 0)

end FebexMWD

/-- A freshly constructed processor: the six filter buffers and the two result lists are
still empty. -/
def FebexMWD.Fresh (m : FebexMWD) : Prop :=
  m.stage1 = [] ∧ m.stage2 = [] ∧ m.stage3 = [] ∧ m.stage4 = [] ∧ m.shaper = [] ∧ m.cfd = [] ∧
  m.energy_list = [] ∧ m.cfd_list = []

/-! ## The trigger scan, with the indices it uses -/

/-- One pulse record of the trigger scan together with the indices the scan used for it:
the index at which the threshold condition held, the index at which the zero-crossing
search stopped, the index at which `stage4` was read for the amplitude, and the baseline
estimate that was subtracted. -/
structure Pulse where
  trigger : Nat
  crossing : Nat
  readout : Nat
  baseline : ℚ
  deriving DecidableEq

namespace FebexMWD

/-- The indices `i` at which the zero-crossing search started at `i` evaluates its
condition `cfd[i] * cfd[i-1] > 0 && i < trace_length`, in order: the product is
computed, and `cfd[i]` read, before the index is compared with the trace length.  The
first argument bounds the iterations as in `zeroCrossing`; when it is used up the index has
reached the trace length and the condition is evaluated (and fails) once more. -/
def zeroCrossingReads (m : FebexMWD) (o : Overread) (trace_length : Nat) : Nat → Nat → List Nat
  | 0, i => [i]
  | fuel + 1, i =>
    if m.cfdAt o i * m.cfdAt o (i - 1) > 0 ∧ i < trace_length then
      i :: zeroCrossingReads m o trace_length fuel (i + 1)
    else [i]

/-- The trigger scan of `DoMWD` from index `i` on, as the list of the pulses it emits
(the same control flow as `scan`, which collects their times and amplitudes). -/
def scanPulses (m : FebexMWD) (o : Overread) (trace_length : Nat) : Nat → Nat → List Pulse
  | 0, _ => []
  | fuel + 1, i =>
    if i < trace_length then
      let baseline_energy : ℚ :=
        if i ≥ m.baseline_length then m.stage4At o (i - m.baseline_length) else m.stage4At o 0
      if m.triggers o i then
        let i1 := zeroCrossing m o trace_length (trace_length - i) i
        if m.threshold < 0 ∧ m.cfdAt o (i1 - 1) > 0 then scanPulses m o trace_length fuel (i1 + 1)
        else if m.threshold > 0 ∧ m.cfdAt o (i1 - 1) < 0 then
          scanPulses m o trace_length fuel (i1 + 1)
        else if trace_length - i1 < m.rise_time then []
        else
          let i2 := i1 + (m.rise_time + m.delay_time)
          let i3 := i2 + (m.window + m.baseline_length)
          { trigger := i, crossing := i1, readout := i2, baseline := baseline_energy }
            :: scanPulses m o trace_length fuel (i3 + 1)
      else scanPulses m o trace_length fuel (i + 1)
    else []

/-- The pulses that the trigger scan emits when it is started at index `i`. -/
def pulsesFrom (m : FebexMWD) (o : Overread) (i : Nat) : List Pulse :=
  scanPulses m o m.trace.length (m.trace.length - i) i

/-- The pulses that `DoMWD` emits, with the indices used for each. -/
def pulses (o : Overread) (m : FebexMWD) : List Pulse :=
  pulsesFrom (filter (resizeAll m)) o skip

end FebexMWD

/-! ## The trigger scan, iteration by iteration -/

/-- One iteration of the trigger scan: the index at which the threshold condition was
evaluated, and the pulse record that the iteration emitted, if it emitted one. -/
structure ScanStep where
  examined : Nat
  emitted : Option Pulse
  deriving DecidableEq

namespace FebexMWD

/-- The trigger scan of `DoMWD` from index `i` on, as the list of its iterations (the same
control flow as `scan` and `scanPulses`): every pass through the loop body evaluates the
threshold condition at the current index, and either emits a pulse record or does not. -/
def scanLog (m : FebexMWD) (o : Overread) (trace_length : Nat) : Nat → Nat → List ScanStep
  | 0, _ => []
  | fuel + 1, i =>
    if i < trace_length then
      let baseline_energy : ℚ :=
        if i ≥ m.baseline_length then m.stage4At o (i - m.baseline_length) else m.stage4At o 0
      if m.triggers o i then
        let i1 := zeroCrossing m o trace_length (trace_length - i) i
        if m.threshold < 0 ∧ m.cfdAt o (i1 - 1) > 0 then
          { examined := i, emitted := none } :: scanLog m o trace_length fuel (i1 + 1)
        else if m.threshold > 0 ∧ m.cfdAt o (i1 - 1) < 0 then
          { examined := i, emitted := none } :: scanLog m o trace_length fuel (i1 + 1)
        else if trace_length - i1 < m.rise_time then [{ examined := i, emitted := none }]
        else
          let i2 := i1 + (m.rise_time + m.delay_time)
          let i3 := i2 + (m.window + m.baseline_length)
          { examined := i,
            emitted := some { trigger := i, crossing := i1, readout := i2,
                              baseline := baseline_energy } }
            :: scanLog m o trace_length fuel (i3 + 1)
      else { examined := i, emitted := none } :: scanLog m o trace_length fuel (i + 1)
    else []

/-- The iterations of the trigger scan when it is started at index `i`. -/
def logFrom (m : FebexMWD) (o : Overread) (i : Nat) : List ScanStep :=
  scanLog m o m.trace.length (m.trace.length - i) i

/-- The iterations of the trigger scan of `DoMWD`. -/
def log (o : Overread) (m : FebexMWD) : List ScanStep :=
  logFrom (filter (resizeAll m)) o skip

end FebexMWD

/-! ## Coincidence windows of the reaction -/

/-- The coincidence-window members of the class `Reaction` (`Reaction.hh`): the prompt and
random windows `int x[2]` (index 0 the lower, index 1 the upper limit) for
particle-gamma, gamma-gamma and particle-particle coincidences, and the fill ratios. -/
structure Reaction where
  pg_prompt : Fin 2 → Int
  pg_random : Fin 2 → Int
  gg_prompt : Fin 2 → Int
  gg_random : Fin 2 → Int
  pp_prompt : Fin 2 → Int
  pp_random : Fin 2 → Int
  pg_ratio : ℚ
  gg_ratio : ℚ
  pp_ratio : ℚ

/-- The quotient `a / b` of two `int` values: the truncated quotient, and no value at all
for the divisor 0 (the behaviour is undefined, commonly a trap). -/
def intDiv (a b : Int) : Except String Int :=
  if b = 0 then Except.error "integer division by zero" else Except.ok (Int.tdiv a b)

/-- The conversion of an `int` result to the `double` that is returned. -/
def toDouble (x : Except String Int) : Except String ℚ := x.map fun v => (v : ℚ)

namespace Reaction

/-- The function `GetParticleGammaPromptTime`. -/
def GetParticleGammaPromptTime (r : Reaction) (i : Nat) : ℚ :=
  if h : i < 2 then ((r.pg_prompt ⟨i, h⟩ : Int) : ℚ) else 0

/-- The function `GetParticleGammaRandomTime`. -/
def GetParticleGammaRandomTime (r : Reaction) (i : Nat) : ℚ :=
  if h : i < 2 then ((r.pg_random ⟨i, h⟩ : Int) : ℚ) else 0

/-- The function `GetParticleGammaTimeRatio`. -/
def GetParticleGammaTimeRatio (r : Reaction) : Except String ℚ :=
  toDouble (intDiv (r.pg_prompt 1 - r.pg_prompt 1) (r.pg_random 1 - r.pg_random 1))

/-- The function `GetParticleGammaFillRatio`. -/
def GetParticleGammaFillRatio (r : Reaction) : ℚ := r.pg_ratio

/-- The function `GetGammaGammaPromptTime`. -/
def GetGammaGammaPromptTime (r : Reaction) (i : Nat) : ℚ :=
  if h : i < 2 then ((r.gg_prompt ⟨i, h⟩ : Int) : ℚ) else 0

/-- The function `GetGammaGammaRandomTime`. -/
def GetGammaGammaRandomTime (r : Reaction) (i : Nat) : ℚ :=
  if h : i < 2 then ((r.gg_random ⟨i, h⟩ : Int) : ℚ) else 0

/-- The function `GetGammaGammaTimeRatio`. -/
def GetGammaGammaTimeRatio (r : Reaction) : Except String ℚ :=
  toDouble (intDiv (r.gg_prompt 1 - r.gg_prompt 1) (r.gg_random 1 - r.gg_random 1))

/-- The function `GetGammaGammaFillRatio`. -/
def GetGammaGammaFillRatio (r : Reaction) : ℚ := r.gg_ratio

/-- The function `GetParticleParticlePromptTime`; the source returns `pg_prompt[i]`. -/
def GetParticleParticlePromptTime (r : Reaction) (i : Nat) : ℚ :=
  if h : i < 2 then ((r.pg_prompt ⟨i, h⟩ : Int) : ℚ) else 0

/-- The function `GetParticleParticleRandomTime`. -/
def GetParticleParticleRandomTime (r : Reaction) (i : Nat) : ℚ :=
  if h : i < 2 then ((r.pp_random ⟨i, h⟩ : Int) : ℚ) else 0

/-- The function `GetParticleParticleTimeRatio`. -/
def GetParticleParticleTimeRatio (r : Reaction) : Except String ℚ :=
  toDouble (intDiv (r.pp_prompt 1 - r.pp_prompt 1) (r.pp_random 1 - r.pp_random 1))

/-- The function `GetParticleParticleFillRatio`. -/
def GetParticleParticleFillRatio (r : Reaction) : ℚ := r.pp_ratio

end Reaction

/-! ## Sample data -/

/-- A small set of table dimensions: one SFP, two boards, two channels per board. -/
def sampleSettings : MiniballSettings := { n_febex_sfp := 1, n_febex_bd := 2, n_febex_ch := 2 }

/-- A configuration source that holds no key at all. -/
def emptyConfig : TEnv :=
  { doubles := fun _ => none, ints := fun _ => none, strings := fun _ => none }

/-- A generator whose draws are all one half. -/
def halfRand : TRandom := { draws := fun _ => 1 / 2, pos := 0 }

/-- The store the constructor builds from the empty configuration source: every
parameter of every channel is at its default. -/
def defaultStore : MiniballCalibration :=
  MiniballCalibration.ReadCalibration emptyConfig sampleSettings halfRand

/-- A store whose channels all have gain 1, offset 0 and no quadratic term. -/
def unitGainStore : MiniballCalibration :=
  { defaultStore with fFebexGain := Table.build 1 2 2 fun _ _ _ => 1 }

/-- Nothing but zeros behind the end of the buffers. -/
def zeroOverread : Overread := { cfd := fun _ => 0, stage4 := fun _ => 0 }

/-- A processor configured for a step of height 10 at sample 8 on a zero baseline, with
riseTime 1, decayTime 1, flatTop 0, baselineLength 2, window 1, cfdDelay 1, threshold 1
and fraction one half. -/
def stepMWD : FebexMWD :=
  FebexMWD.configured [0, 0, 0, 0, 0, 0, 0, 0, 10, 10, 10, 10, 10, 10] 1 1 0 2 1 1 1 (1 / 2)

/-- A processor with riseTime 1, decayTime 1, window 2 and cfdDelay 1 on the trace
1, 2, ..., 8. -/
def countMWD : FebexMWD :=
  FebexMWD.configured [1, 2, 3, 4, 5, 6, 7, 8] 1 1 0 1 2 1 1 (1 / 2)

/-- A processor for a negative-going step (20 before sample 10, 10 from there on) with
riseTime 1, decayTime 1, flatTop 0, baselineLength 1, window 1, cfdDelay 2, the positive
threshold 1 and fraction one half. -/
def negStepMWD : FebexMWD :=
  FebexMWD.configured
    [20, 20, 20, 20, 20, 20, 20, 20, 20, 20, 10, 10, 10, 10, 10, 10, 10, 10, 10, 10]
    1 1 0 1 1 2 1 (1 / 2)

/-- A processor for two steps of height 10 on a zero baseline, at samples 8 and 11, with
riseTime 2, decayTime 1, flatTop 0, baselineLength 0, window 1, cfdDelay 1, threshold 1 and
fraction one half: the steps are 3 samples apart, window + baselineLength is 1. -/
def twoStepMWD : FebexMWD :=
  FebexMWD.configured [0, 0, 0, 0, 0, 0, 0, 0, 10, 10, 10, 20, 20, 20, 20, 20, 20, 20, 20, 20]
    2 1 0 0 1 1 1 (1 / 2)

/-- Two steps of height 10 on a zero baseline, at samples 8 and 14, with the parameters of
`twoStepMWD`: the steps are 6 samples apart. -/
def twoStepApartMWD : FebexMWD :=
  FebexMWD.configured [0, 0, 0, 0, 0, 0, 0, 0, 10, 10, 10, 10, 10, 10, 20, 20, 20, 20, 20, 20]
    2 1 0 0 1 1 1 (1 / 2)

/-- A noiseless step of height 100 at sample 14 in a trace of 40 samples. -/
def stepTrace : List Nat := List.replicate 14 0 ++ List.replicate 26 100

/-- A processor for `stepTrace` with riseTime 2, decayTime 100, flatTop 0, baselineLength 1,
cfdDelay 1, threshold 1, fraction one half and the given averaging window. -/
def stepWindowMWD (window : Nat) : FebexMWD :=
  FebexMWD.configured stepTrace 2 100 0 1 window 1 1 (1 / 2)

/-- A processor for a step that rises over two samples (2 at sample 8, 10 from sample 9
on), with riseTime 1, decayTime 1, flatTop 0, baselineLength 1, window 1, cfdDelay 1,
threshold 1 and fraction one half. -/
def rampMWD : FebexMWD :=
  FebexMWD.configured [0, 0, 0, 0, 0, 0, 0, 0, 2, 10, 10, 10, 10, 10, 10, 10] 1 1 0 1 1 1 1 (1 / 2)

/-- A processor for a step of height 10 two samples before the end of a trace of ten
samples, with riseTime 1, decayTime 1, flatTop 0, baselineLength 1, window 1, cfdDelay 1,
threshold 1 and fraction one half. -/
def lateStepMWD : FebexMWD :=
  FebexMWD.configured [0, 0, 0, 0, 0, 0, 0, 0, 10, 10] 1 1 0 1 1 1 1 (1 / 2)

/-- Something other than zeros behind the end of the buffers. -/
def sevenOverread : Overread := { cfd := fun _ => 7, stage4 := fun _ => 7 }

/-- A processor for a trace that keeps rising faster and faster up to its last sample, with
riseTime 1, decayTime 1, flatTop 0, baselineLength 1, window 1, cfdDelay 1, threshold 1 and
fraction 1. -/
def growingMWD : FebexMWD :=
  FebexMWD.configured [0, 0, 0, 0, 0, 0, 0, 0, 1, 4, 11, 26] 1 1 0 1 1 1 1 1

/-- A processor for a 20-sample trace with a step that rises over two samples (2 at
sample 8, 10 from sample 9 on) and a second step of height 10 at sample 14, with
riseTime 1, decayTime 1, flatTop 0, baselineLength 1, window 1, cfdDelay 1, threshold 1 and
fraction one half. -/
def resumeMWD : FebexMWD :=
  FebexMWD.configured [0, 0, 0, 0, 0, 0, 0, 0, 2, 10, 10, 10, 10, 10, 20, 20, 20, 20, 20, 20]
    1 1 0 1 1 1 1 (1 / 2)

/-- The pulse record that the scan of `resumeMWD` emits: triggered at index 9, crossing
at index 10, amplitude read out at index 12. -/
def resumePulse : Pulse := { trigger := 9, crossing := 10, readout := 12, baseline := 4 }

/-- A processor that is used a second time: it has run on the trace 1, 2, ..., 8 with
cfdDelay 1 (`countMWD`), and its cfdDelay was then set to 2. -/
def reusedMWD : FebexMWD := (FebexMWD.DoMWD zeroOverread countMWD).SetDelayTime 2

/-- A processor for `stepTrace` with riseTime 2, decayTime 2, flatTop 0, baselineLength 1,
cfdDelay 1, threshold 1, fraction one half and the given averaging window. -/
def stepOvershootMWD (window : Nat) : FebexMWD :=
  FebexMWD.configured stepTrace 2 2 0 1 window 1 1 (1 / 2)

/-- A reaction with the particle-gamma prompt window [-300, 300], the gamma-gamma prompt
window [-250, 250], the particle-particle prompt window [-200, 200] and random windows
from 600 to 1200, 500 to 1000 and 400 to 800. -/
def sampleReaction : Reaction :=
  { pg_prompt := fun i => if i = 0 then -300 else 300
    pg_random := fun i => if i = 0 then 600 else 1200
    gg_prompt := fun i => if i = 0 then -250 else 250
    gg_random := fun i => if i = 0 then 500 else 1000
    pp_prompt := fun i => if i = 0 then -200 else 200
    pp_random := fun i => if i = 0 then 400 else 800
    pg_ratio := 1, gg_ratio := 1, pp_ratio := 1 }

/-! ## Lemmas on lists and tables -/

theorem getD_set_self {β : Type} (l : List β) (i : Nat) (v d : β) (h : i < l.length) :
    (l.set i v).getD i d = v := by
  simp [List.getD_eq_getElem?_getD, List.getElem?_set_self h]

theorem getD_set_other {β : Type} (l : List β) (i j : Nat) (v d : β) (h : i ≠ j) :
    (l.set i v).getD j d = l.getD j d := by
  simp [List.getD_eq_getElem?_getD, List.getElem?_set_ne h]

theorem getD_set_short {β : Type} (l : List β) (i j : Nat) (v d : β) (h : l.length ≤ i) :
    (l.set i v).getD j d = l.getD j d := by
  rw [List.set_eq_of_length_le h]

theorem Table.read_write_other {α : Type} [Inhabited α] (t : Table α) (i j k i' j' k' : Nat)
    (v : α) (h : ¬ (i' = i ∧ j' = j ∧ k' = k)) :
    (t.write i j k v).read i' j' k' = t.read i' j' k' := by
  unfold Table.read Table.write
  by_cases hi : i = i'
  · subst hi
    by_cases hlen : i < t.length
    · rw [getD_set_self _ _ _ _ hlen]
      by_cases hj : j = j'
      · subst hj
        by_cases hlen2 : j < (t.getD i []).length
        · rw [getD_set_self _ _ _ _ hlen2]
          have hk : k ≠ k' := fun e => h ⟨rfl, rfl, e.symm⟩
          rw [getD_set_other _ _ _ _ _ hk]
        · rw [getD_set_short _ _ _ _ _ (Nat.le_of_not_lt hlen2)]
      · rw [getD_set_other _ _ _ _ _ hj]
    · rw [getD_set_short _ _ _ _ _ (Nat.le_of_not_lt hlen)]
  · rw [getD_set_other _ _ _ _ _ hi]

theorem Table.Sized.row {α : Type} {t : Table α} {a b c : Nat} (h : t.Sized a b c) {i : Nat}
    (hi : i < a) : (t.getD i []).length = b ∧ ∀ y ∈ t.getD i [], y.length = c := by
  have hl : i < t.length := by rw [h.1]; exact hi
  have : t.getD i [] = t[i] := by simp [List.getD_eq_getElem?_getD, List.getElem?_eq_getElem hl]
  rw [this]
  exact h.2 _ (List.getElem_mem hl)

theorem Table.Sized.cell {α : Type} {t : Table α} {a b c : Nat} (h : t.Sized a b c) {i j : Nat}
    (hi : i < a) (hj : j < b) : ((t.getD i []).getD j []).length = c := by
  obtain ⟨h1, h2⟩ := h.row hi
  have hl : j < (t.getD i []).length := by rw [h1]; exact hj
  have : (t.getD i []).getD j [] = (t.getD i [])[j] := by
    rw [List.getD_eq_getElem?_getD, List.getElem?_eq_getElem hl]; rfl
  rw [this]
  exact h2 _ (List.getElem_mem hl)

theorem Table.read_write_same {α : Type} [Inhabited α] (t : Table α) (a b c i j k : Nat) (v : α)
    (h : t.Sized a b c) (hi : i < a) (hj : j < b) (hk : k < c) :
    (t.write i j k v).read i j k = v := by
  unfold Table.read Table.write
  have h1 : i < t.length := by rw [h.1]; exact hi
  have h2 : j < (t.getD i []).length := by rw [(h.row hi).1]; exact hj
  have h3 : k < ((t.getD i []).getD j []).length := by rw [h.cell hi hj]; exact hk
  rw [getD_set_self _ _ _ _ h1, getD_set_self _ _ _ _ h2, getD_set_self _ _ _ _ h3]

theorem Table.write_sized {α : Type} (t : Table α) (a b c i j k : Nat) (v : α)
    (h : t.Sized a b c) : (t.write i j k v).Sized a b c := by
  unfold Table.write
  by_cases hi : i < a
  · obtain ⟨r1, r2⟩ := h.row hi
    refine ⟨by rw [List.length_set]; exact h.1, ?_⟩
    intro x hx
    rcases List.mem_or_eq_of_mem_set hx with hx | hx
    · exact h.2 x hx
    · subst hx
      refine ⟨by rw [List.length_set]; exact r1, ?_⟩
      by_cases hj : j < b
      · intro y hy
        rcases List.mem_or_eq_of_mem_set hy with hy | hy
        · exact r2 y hy
        · subst hy
          rw [List.length_set]
          exact h.cell hi hj
      · have hl : (t.getD i []).length ≤ j := by rw [r1]; exact Nat.le_of_not_lt hj
        rw [List.set_eq_of_length_le hl]
        exact r2
  · have hl : t.length ≤ i := by rw [h.1]; exact Nat.le_of_not_lt hi
    rw [List.set_eq_of_length_le hl]
    exact h

theorem Table.build_sized {α : Type} (a b c : Nat) (f : Nat → Nat → Nat → α) :
    (Table.build a b c f).Sized a b c := by
  unfold Table.build Table.Sized
  refine ⟨by simp, ?_⟩
  intro x hx
  simp only [List.mem_map] at hx
  obtain ⟨i, -, rfl⟩ := hx
  refine ⟨by simp, ?_⟩
  intro y hy
  simp only [List.mem_map] at hy
  obtain ⟨j, -, rfl⟩ := hy
  simp

theorem Table.read_build {α : Type} [Inhabited α] (a b c : Nat) (f : Nat → Nat → Nat → α)
    (i j k : Nat) (hi : i < a) (hj : j < b) (hk : k < c) :
    (Table.build a b c f).read i j k = f i j k := by
  unfold Table.build Table.read
  simp [List.getD_eq_getElem?_getD, List.getElem?_map, List.getElem?_range, hi, hj, hk]

/-! ## The store that `ReadCalibration` builds -/

/-- Every table that `ReadCalibration` builds has the configured dimensions. -/
theorem ReadCalibration_sized (config : TEnv) (set : MiniballSettings) (fRand : TRandom) :
    (MiniballCalibration.ReadCalibration config set fRand).Sized := by
  unfold MiniballCalibration.Sized MiniballCalibration.ReadCalibration
  simp only [MiniballSettings.GetNumberOfFebexSfps, MiniballSettings.GetNumberOfFebexBoards,
    MiniballSettings.GetNumberOfFebexChannels]
  refine ⟨?_, ?_, ?_, ?_, ?_, ?_, ?_, ?_, ?_, ?_, ?_, ?_, ?_, ?_⟩ <;> exact Table.build_sized _ _ _ _

/-- Without any key in the configuration source the coefficients of a valid channel
are offset 0, gain 0.0015 and quadratic gain 0. -/
theorem ReadCalibration_defaults (set : MiniballSettings) (fRand : TRandom)
    (sfp board ch : Nat)
    (hv : (MiniballCalibration.ReadCalibration emptyConfig set fRand).valid sfp board ch) :
    (MiniballCalibration.ReadCalibration emptyConfig set fRand).fFebexOffset.read sfp board ch = 0 ∧
    (MiniballCalibration.ReadCalibration emptyConfig set fRand).fFebexGain.read sfp board ch
      = 15 / 10000 ∧
    (MiniballCalibration.ReadCalibration emptyConfig set fRand).fFebexGainQuadr.read sfp board ch
      = 0 := by
  obtain ⟨h1, h2, h3⟩ := hv
  simp only [MiniballCalibration.ReadCalibration] at h1 h2 h3 ⊢
  refine ⟨?_, ?_, ?_⟩ <;> rw [Table.read_build _ _ _ _ _ _ _ h1 h2 h3] <;>
    simp [TEnv.GetValueDouble, emptyConfig]

theorem defaultStore_valid : defaultStore.valid 0 0 0 := by
  unfold MiniballCalibration.valid; decide

theorem defaultStore_invalid : ¬ defaultStore.valid 1 0 0 := by
  unfold MiniballCalibration.valid; decide

/-! ## Energy calibration -/

/-- C1. For every valid channel address, every raw value and every dither draw `d`
(the next draw of the generator, whatever its value, so in particular in [0,1)): if the
coefficients of the channel are not all within 1e-6 of (gainQuadratic 0, gain 1,
offset 0), `FebexEnergy` returns `gainQuadratic*x^2 + gain*x + offset` with
`x = raw + 0.5 - d`. -/
theorem FebexEnergy_calibrated (c : MiniballCalibration) (sfp board ch raw : Nat) (d : ℚ)
    (hd : c.fRand.Uniform.1 = d) (hv : c.valid sfp board ch)
    (hn : ¬ c.isDefault sfp board ch) :
    (c.FebexEnergy sfp board ch raw).1 =
      c.fFebexGainQuadr.read sfp board ch * ((raw : ℚ) + 1 / 2 - d) ^ 2
        + c.fFebexGain.read sfp board ch * ((raw : ℚ) + 1 / 2 - d)
        + c.fFebexOffset.read sfp board ch := by
  subst hd
  simp only [MiniballCalibration.FebexEnergy, if_pos hv, if_neg hn]
  ring

theorem defaultStore_not_isDefault : ¬ defaultStore.isDefault 0 0 0 := by
  have h := ReadCalibration_defaults sampleSettings halfRand 0 0 0 defaultStore_valid
  unfold MiniballCalibration.isDefault
  unfold defaultStore
  rw [h.1, h.2.1, h.2.2]
  norm_num [abs_lt]

/-- C1, at a concrete input: channel (0,0,0) of the default store (gain 0.0015), raw
value 1000, draw one half. -/
theorem FebexEnergy_calibrated_witness :
    defaultStore.fRand.Uniform.1 = 1 / 2 ∧ defaultStore.valid 0 0 0 ∧
    ¬ defaultStore.isDefault 0 0 0 ∧
    (defaultStore.FebexEnergy 0 0 0 1000).1 =
      defaultStore.fFebexGainQuadr.read 0 0 0 * (((1000 : Nat) : ℚ) + 1 / 2 - 1 / 2) ^ 2
        + defaultStore.fFebexGain.read 0 0 0 * (((1000 : Nat) : ℚ) + 1 / 2 - 1 / 2)
        + defaultStore.fFebexOffset.read 0 0 0 :=
  ⟨rfl, defaultStore_valid, defaultStore_not_isDefault,
    FebexEnergy_calibrated defaultStore 0 0 0 1000 (1 / 2) rfl defaultStore_valid
      defaultStore_not_isDefault⟩

theorem unitGainStore_valid : unitGainStore.valid 0 0 0 := by
  unfold MiniballCalibration.valid; decide

theorem unitGainStore_coefficients :
    unitGainStore.fFebexGainQuadr.read 0 0 0 = 0 ∧ unitGainStore.fFebexGain.read 0 0 0 = 1 ∧
    unitGainStore.fFebexOffset.read 0 0 0 = 0 := by
  have h := ReadCalibration_defaults sampleSettings halfRand 0 0 0 defaultStore_valid
  refine ⟨h.2.2, ?_, h.1⟩
  exact @Table.read_build ℚ _ 1 2 2 (fun _ _ _ => 1) 0 0 0 (by decide) (by decide) (by decide)

theorem unitGainStore_isDefault : unitGainStore.isDefault 0 0 0 := by
  obtain ⟨h1, h2, h3⟩ := unitGainStore_coefficients
  unfold MiniballCalibration.isDefault
  rw [h1, h2, h3]
  norm_num

theorem droppedBits_spec (n : Nat) (h : n < 2 ^ 32) :
    (droppedBits 8 n = 0 ∧ n < 2 ^ 24) ∨
    (droppedBits 8 n = 1 ∧ 2 ^ 24 ≤ n ∧ n < 2 ^ 25) ∨
    (droppedBits 8 n = 2 ∧ 2 ^ 25 ≤ n ∧ n < 2 ^ 26) ∨
    (droppedBits 8 n = 3 ∧ 2 ^ 26 ≤ n ∧ n < 2 ^ 27) ∨
    (droppedBits 8 n = 4 ∧ 2 ^ 27 ≤ n ∧ n < 2 ^ 28) ∨
    (droppedBits 8 n = 5 ∧ 2 ^ 28 ≤ n ∧ n < 2 ^ 29) ∨
    (droppedBits 8 n = 6 ∧ 2 ^ 29 ≤ n ∧ n < 2 ^ 30) ∨
    (droppedBits 8 n = 7 ∧ 2 ^ 30 ≤ n ∧ n < 2 ^ 31) ∨
    (droppedBits 8 n = 8 ∧ 2 ^ 31 ≤ n ∧ n < 2 ^ 32) := by
  simp only [droppedBits]
  norm_num at h ⊢
  split_ifs <;> omega

/-- The conversion to `float` keeps every value up to `2^24`. -/
theorem roundToFloat_exact (n : Nat) (h : n ≤ 2 ^ 24) : roundToFloat n = n := by
  have h32 : n < 2 ^ 32 := by norm_num at h ⊢; omega
  unfold roundToFloat
  rcases droppedBits_spec n h32 with ⟨e, hb⟩ | ⟨e, hb⟩ | ⟨e, hb⟩ | ⟨e, hb⟩ | ⟨e, hb⟩ |
    ⟨e, hb⟩ | ⟨e, hb⟩ | ⟨e, hb⟩ | ⟨e, hb⟩ <;>
    simp only [e] <;> norm_num at h hb ⊢ <;> first | omega | (split_ifs <;> omega)

/-- The conversion to `float` moves a 32-bit value `n` by at most `n / 2^24`. -/
theorem roundToFloat_near (n : Nat) (h : n < 2 ^ 32) :
    roundToFloat n * 2 ^ 24 ≤ n * 2 ^ 24 + n ∧ n * 2 ^ 24 ≤ roundToFloat n * 2 ^ 24 + n := by
  unfold roundToFloat
  rcases droppedBits_spec n h with ⟨e, hb⟩ | ⟨e, hb⟩ | ⟨e, hb⟩ | ⟨e, hb⟩ | ⟨e, hb⟩ |
    ⟨e, hb⟩ | ⟨e, hb⟩ | ⟨e, hb⟩ | ⟨e, hb⟩ <;>
    simp only [e] <;> norm_num at h hb ⊢ <;> first | omega | (split_ifs <;> omega)

/-- C2 fails as stated. Channel (0,0,0) of a store with gain 1, offset 0 and no quadratic
term passes the three tolerance tests, but for the raw value 16777217 = 2^24 + 1
`FebexEnergy` returns 16777216: the function returns `float`, and `return raw;` rounds
the `unsigned int` to 24 significant bits. -/
theorem FebexEnergy_default_is_raw_counterexample :
    unitGainStore.valid 0 0 0 ∧
    |unitGainStore.fFebexGainQuadr.read 0 0 0| < 1 / 1000000 ∧
    |unitGainStore.fFebexGain.read 0 0 0 - 1| < 1 / 1000000 ∧
    |unitGainStore.fFebexOffset.read 0 0 0| < 1 / 1000000 ∧
    (unitGainStore.FebexEnergy 0 0 0 16777217).1 = 16777216 ∧
    (unitGainStore.FebexEnergy 0 0 0 16777217).1 ≠ ((16777217 : Nat) : ℚ) := by
  have he : (unitGainStore.FebexEnergy 0 0 0 16777217).1 = 16777216 := by
    simp only [MiniballCalibration.FebexEnergy, if_pos unitGainStore_valid,
      if_pos unitGainStore_isDefault]
    have hr : roundToFloat 16777217 = 16777216 := by decide
    rw [hr]
    norm_num
  refine ⟨unitGainStore_valid, unitGainStore_isDefault.1, unitGainStore_isDefault.2.1,
    unitGainStore_isDefault.2.2, he, ?_⟩
  rw [he]
  norm_num

/-- C2, amended. For every valid channel address whose coefficients satisfy
`|gainQuadratic| < 1e-6`, `|gain - 1| < 1e-6` and `|offset| < 1e-6`, and every 32-bit raw
value, `FebexEnergy` returns the raw value converted to `float`, whatever the generator
draws: exactly the raw value when it is at most `2^24 = 16777216`, and in every case a
value that differs from the raw value by at most `raw / 2^24`. -/
theorem FebexEnergy_default_is_float_of_raw (c : MiniballCalibration)
    (sfp board ch raw : Nat) (hv : c.valid sfp board ch)
    (hq : |c.fFebexGainQuadr.read sfp board ch| < 1 / 1000000)
    (hg : |c.fFebexGain.read sfp board ch - 1| < 1 / 1000000)
    (ho : |c.fFebexOffset.read sfp board ch| < 1 / 1000000) (hraw : raw < 2 ^ 32) :
    (∀ r : TRandom, (MiniballCalibration.FebexEnergy { c with fRand := r } sfp board ch raw).1
      = ((roundToFloat raw : Nat) : ℚ)) ∧
    (c.FebexEnergy sfp board ch raw).1 = ((roundToFloat raw : Nat) : ℚ) ∧
    (raw ≤ 2 ^ 24 → (c.FebexEnergy sfp board ch raw).1 = (raw : ℚ)) ∧
    |(c.FebexEnergy sfp board ch raw).1 - (raw : ℚ)| ≤ (raw : ℚ) / 2 ^ 24 := by
  have hdef : c.isDefault sfp board ch := ⟨hq, hg, ho⟩
  have he : (c.FebexEnergy sfp board ch raw).1 = ((roundToFloat raw : Nat) : ℚ) := by
    simp only [MiniballCalibration.FebexEnergy, if_pos hv, if_pos hdef]
  refine ⟨?_, he, ?_, ?_⟩
  · intro r
    have hv2 : MiniballCalibration.valid { c with fRand := r } sfp board ch := hv
    have hdef2 : MiniballCalibration.isDefault { c with fRand := r } sfp board ch := hdef
    simp only [MiniballCalibration.FebexEnergy, if_pos hv2, if_pos hdef2]
  · intro hle
    rw [he, roundToFloat_exact raw hle]
  · obtain ⟨h1, h2⟩ := roundToFloat_near raw hraw
    have q1 : ((roundToFloat raw : Nat) : ℚ) * 2 ^ 24 ≤ (raw : ℚ) * 2 ^ 24 + (raw : ℚ) := by
      exact_mod_cast h1
    have q2 : (raw : ℚ) * 2 ^ 24 ≤ ((roundToFloat raw : Nat) : ℚ) * 2 ^ 24 + (raw : ℚ) := by
      exact_mod_cast h2
    rw [he, abs_le, le_div_iff₀ (by norm_num), neg_le_iff_add_nonneg]
    constructor
    · linarith
    · linarith

/-- C2 amended, at a concrete input: channel (0,0,0) of a store with gain 1, raw value
1000, which is returned unchanged. -/
theorem FebexEnergy_default_is_float_of_raw_witness :
    unitGainStore.valid 0 0 0 ∧ (1000 : Nat) < 2 ^ 32 ∧ (1000 : Nat) ≤ 2 ^ 24 ∧
    (unitGainStore.FebexEnergy 0 0 0 1000).1 = ((1000 : Nat) : ℚ) :=
  ⟨unitGainStore_valid, by decide, by decide,
    (FebexEnergy_default_is_float_of_raw unitGainStore 0 0 0 1000 unitGainStore_valid
      unitGainStore_isDefault.1 unitGainStore_isDefault.2.1 unitGainStore_isDefault.2.2
      (by decide)).2.2.1 (by decide)⟩

/-- C3 (what the code does). Channel (0,0,0) of the store built from a configuration
source without any key has the default gain 0.0015, which the "defaults" test of
`FebexEnergy` (gain within 1e-6 of 1) does not recognise: for the raw value 1000 and the
draw one half, `FebexEnergy` returns 1.5 and not the raw value 1000. -/
theorem FebexEnergy_unconfigured_channel :
    defaultStore = MiniballCalibration.ReadCalibration emptyConfig sampleSettings halfRand ∧
    defaultStore.valid 0 0 0 ∧
    (defaultStore.FebexEnergy 0 0 0 1000).1 = 3 / 2 ∧
    (defaultStore.FebexEnergy 0 0 0 1000).1 ≠ ((1000 : Nat) : ℚ) := by
  have h := ReadCalibration_defaults sampleSettings halfRand 0 0 0 defaultStore_valid
  have he : (defaultStore.FebexEnergy 0 0 0 1000).1 = 3 / 2 := by
    simp only [MiniballCalibration.FebexEnergy, if_pos defaultStore_valid,
      if_neg defaultStore_not_isDefault]
    have hu : defaultStore.fRand.Uniform.1 = 1 / 2 := rfl
    rw [hu]
    unfold defaultStore
    rw [h.1, h.2.1, h.2.2]
    norm_num
  refine ⟨rfl, defaultStore_valid, he, ?_⟩
  rw [he]
  norm_num

theorem toUInt32_neg_one : toUInt32 (-1) = 4294967295 := by
  unfold toUInt32; decide

theorem SetMWDDecay_invalid (c : MiniballCalibration) (sfp board ch : Nat) (v : Nat)
    (hv : ¬ c.valid sfp board ch) : c.SetMWDDecay sfp board ch v = c := by
  unfold MiniballCalibration.SetMWDDecay; rw [if_neg hv]

theorem SetMWDDecay_valid (c : MiniballCalibration) (sfp board ch : Nat) (v : Nat)
    (hv : c.valid sfp board ch) :
    c.SetMWDDecay sfp board ch v = { c with fFebexMWD_Decay := c.fFebexMWD_Decay.write sfp board ch v } := by
  unfold MiniballCalibration.SetMWDDecay; rw [if_pos hv]

theorem SetMWDDecay_frame (c : MiniballCalibration) (sfp board ch : Nat) (v : Nat) :
    c.SetMWDDecay sfp board ch v = { c with fFebexMWD_Decay := (c.SetMWDDecay sfp board ch v).fFebexMWD_Decay } := by
  by_cases hv : c.valid sfp board ch
  · rw [SetMWDDecay_valid c sfp board ch v hv]
  · rw [SetMWDDecay_invalid c sfp board ch v hv]

theorem SetMWDDecay_other (c : MiniballCalibration) (sfp board ch : Nat) (v : Nat) (i j k : Nat)
    (h : ¬ (i = sfp ∧ j = board ∧ k = ch)) :
    (c.SetMWDDecay sfp board ch v).fFebexMWD_Decay.read i j k = c.fFebexMWD_Decay.read i j k := by
  by_cases hv : c.valid sfp board ch
  · rw [SetMWDDecay_valid c sfp board ch v hv]
    exact Table.read_write_other _ _ _ _ _ _ _ _ h
  · rw [SetMWDDecay_invalid c sfp board ch v hv]

theorem SetMWDDecay_sized (c : MiniballCalibration) (sfp board ch : Nat) (v : Nat)
    (hs : c.Sized) : (c.SetMWDDecay sfp board ch v).Sized := by
  by_cases hv : c.valid sfp board ch
  · rw [SetMWDDecay_valid c sfp board ch v hv]
    have hw := Table.write_sized c.fFebexMWD_Decay _ _ _ sfp board ch v (hs.2.2.2.2.2.2.1)
    unfold MiniballCalibration.Sized at hs ⊢
    obtain ⟨h1, h2, h3, h4, h5, h6, h7, h8, h9, h10, h11, h12, h13, h14⟩ := hs
    refine ⟨?_, ?_, ?_, ?_, ?_, ?_, ?_, ?_, ?_, ?_, ?_, ?_, ?_, ?_⟩ <;> assumption
  · rw [SetMWDDecay_invalid c sfp board ch v hv]; exact hs

theorem GetMWDDecay_SetMWDDecay (c : MiniballCalibration) (sfp board ch : Nat) (v : Nat)
    (hs : c.Sized) (hv : c.valid sfp board ch) :
    (c.SetMWDDecay sfp board ch v).GetMWDDecay sfp board ch = v := by
  rw [SetMWDDecay_valid c sfp board ch v hv]
  have hv1 : MiniballCalibration.valid
      { c with fFebexMWD_Decay := c.fFebexMWD_Decay.write sfp board ch v } sfp board ch := hv
  unfold MiniballCalibration.GetMWDDecay
  rw [if_pos hv1]
  exact Table.read_write_same c.fFebexMWD_Decay _ _ _ sfp board ch v (hs.2.2.2.2.2.2.1) hv.1 hv.2.1 hv.2.2

theorem SetMWDRise_invalid (c : MiniballCalibration) (sfp board ch : Nat) (v : Nat)
    (hv : ¬ c.valid sfp board ch) : c.SetMWDRise sfp board ch v = c := by
  unfold MiniballCalibration.SetMWDRise; rw [if_neg hv]

theorem SetMWDRise_valid (c : MiniballCalibration) (sfp board ch : Nat) (v : Nat)
    (hv : c.valid sfp board ch) :
    c.SetMWDRise sfp board ch v = { c with fFebexMWD_Rise := c.fFebexMWD_Rise.write sfp board ch v } := by
  unfold MiniballCalibration.SetMWDRise; rw [if_pos hv]

theorem SetMWDRise_frame (c : MiniballCalibration) (sfp board ch : Nat) (v : Nat) :
    c.SetMWDRise sfp board ch v = { c with fFebexMWD_Rise := (c.SetMWDRise sfp board ch v).fFebexMWD_Rise } := by
  by_cases hv : c.valid sfp board ch
  · rw [SetMWDRise_valid c sfp board ch v hv]
  · rw [SetMWDRise_invalid c sfp board ch v hv]

theorem SetMWDRise_other (c : MiniballCalibration) (sfp board ch : Nat) (v : Nat) (i j k : Nat)
    (h : ¬ (i = sfp ∧ j = board ∧ k = ch)) :
    (c.SetMWDRise sfp board ch v).fFebexMWD_Rise.read i j k = c.fFebexMWD_Rise.read i j k := by
  by_cases hv : c.valid sfp board ch
  · rw [SetMWDRise_valid c sfp board ch v hv]
    exact Table.read_write_other _ _ _ _ _ _ _ _ h
  · rw [SetMWDRise_invalid c sfp board ch v hv]

theorem SetMWDRise_sized (c : MiniballCalibration) (sfp board ch : Nat) (v : Nat)
    (hs : c.Sized) : (c.SetMWDRise sfp board ch v).Sized := by
  by_cases hv : c.valid sfp board ch
  · rw [SetMWDRise_valid c sfp board ch v hv]
    have hw := Table.write_sized c.fFebexMWD_Rise _ _ _ sfp board ch v (hs.2.2.2.2.2.2.2.1)
    unfold MiniballCalibration.Sized at hs ⊢
    obtain ⟨h1, h2, h3, h4, h5, h6, h7, h8, h9, h10, h11, h12, h13, h14⟩ := hs
    refine ⟨?_, ?_, ?_, ?_, ?_, ?_, ?_, ?_, ?_, ?_, ?_, ?_, ?_, ?_⟩ <;> assumption
  · rw [SetMWDRise_invalid c sfp board ch v hv]; exact hs

theorem GetMWDRise_SetMWDRise (c : MiniballCalibration) (sfp board ch : Nat) (v : Nat)
    (hs : c.Sized) (hv : c.valid sfp board ch) :
    (c.SetMWDRise sfp board ch v).GetMWDRise sfp board ch = v := by
  rw [SetMWDRise_valid c sfp board ch v hv]
  have hv1 : MiniballCalibration.valid
      { c with fFebexMWD_Rise := c.fFebexMWD_Rise.write sfp board ch v } sfp board ch := hv
  unfold MiniballCalibration.GetMWDRise
  rw [if_pos hv1]
  exact Table.read_write_same c.fFebexMWD_Rise _ _ _ sfp board ch v (hs.2.2.2.2.2.2.2.1) hv.1 hv.2.1 hv.2.2

theorem SetMWDTop_invalid (c : MiniballCalibration) (sfp board ch : Nat) (v : Nat)
    (hv : ¬ c.valid sfp board ch) : c.SetMWDTop sfp board ch v = c := by
  unfold MiniballCalibration.SetMWDTop; rw [if_neg hv]

theorem SetMWDTop_valid (c : MiniballCalibration) (sfp board ch : Nat) (v : Nat)
    (hv : c.valid sfp board ch) :
    c.SetMWDTop sfp board ch v = { c with fFebexMWD_Top := c.fFebexMWD_Top.write sfp board ch v } := by
  unfold MiniballCalibration.SetMWDTop; rw [if_pos hv]

theorem SetMWDTop_frame (c : MiniballCalibration) (sfp board ch : Nat) (v : Nat) :
    c.SetMWDTop sfp board ch v = { c with fFebexMWD_Top := (c.SetMWDTop sfp board ch v).fFebexMWD_Top } := by
  by_cases hv : c.valid sfp board ch
  · rw [SetMWDTop_valid c sfp board ch v hv]
  · rw [SetMWDTop_invalid c sfp board ch v hv]

theorem SetMWDTop_other (c : MiniballCalibration) (sfp board ch : Nat) (v : Nat) (i j k : Nat)
    (h : ¬ (i = sfp ∧ j = board ∧ k = ch)) :
    (c.SetMWDTop sfp board ch v).fFebexMWD_Top.read i j k = c.fFebexMWD_Top.read i j k := by
  by_cases hv : c.valid sfp board ch
  · rw [SetMWDTop_valid c sfp board ch v hv]
    exact Table.read_write_other _ _ _ _ _ _ _ _ h
  · rw [SetMWDTop_invalid c sfp board ch v hv]

theorem SetMWDTop_sized (c : MiniballCalibration) (sfp board ch : Nat) (v : Nat)
    (hs : c.Sized) : (c.SetMWDTop sfp board ch v).Sized := by
  by_cases hv : c.valid sfp board ch
  · rw [SetMWDTop_valid c sfp board ch v hv]
    have hw := Table.write_sized c.fFebexMWD_Top _ _ _ sfp board ch v (hs.2.2.2.2.2.2.2.2.1)
    unfold MiniballCalibration.Sized at hs ⊢
    obtain ⟨h1, h2, h3, h4, h5, h6, h7, h8, h9, h10, h11, h12, h13, h14⟩ := hs
    refine ⟨?_, ?_, ?_, ?_, ?_, ?_, ?_, ?_, ?_, ?_, ?_, ?_, ?_, ?_⟩ <;> assumption
  · rw [SetMWDTop_invalid c sfp board ch v hv]; exact hs

theorem GetMWDTop_SetMWDTop (c : MiniballCalibration) (sfp board ch : Nat) (v : Nat)
    (hs : c.Sized) (hv : c.valid sfp board ch) :
    (c.SetMWDTop sfp board ch v).GetMWDTop sfp board ch = v := by
  rw [SetMWDTop_valid c sfp board ch v hv]
  have hv1 : MiniballCalibration.valid
      { c with fFebexMWD_Top := c.fFebexMWD_Top.write sfp board ch v } sfp board ch := hv
  unfold MiniballCalibration.GetMWDTop
  rw [if_pos hv1]
  exact Table.read_write_same c.fFebexMWD_Top _ _ _ sfp board ch v (hs.2.2.2.2.2.2.2.2.1) hv.1 hv.2.1 hv.2.2

theorem SetMWDBaseline_invalid (c : MiniballCalibration) (sfp board ch : Nat) (v : Nat)
    (hv : ¬ c.valid sfp board ch) : c.SetMWDBaseline sfp board ch v = c := by
  unfold MiniballCalibration.SetMWDBaseline; rw [if_neg hv]

theorem SetMWDBaseline_valid (c : MiniballCalibration) (sfp board ch : Nat) (v : Nat)
    (hv : c.valid sfp board ch) :
    c.SetMWDBaseline sfp board ch v = { c with fFebexMWD_Baseline := c.fFebexMWD_Baseline.write sfp board ch v } := by
  unfold MiniballCalibration.SetMWDBaseline; rw [if_pos hv]

theorem SetMWDBaseline_frame (c : MiniballCalibration) (sfp board ch : Nat) (v : Nat) :
    c.SetMWDBaseline sfp board ch v = { c with fFebexMWD_Baseline := (c.SetMWDBaseline sfp board ch v).fFebexMWD_Baseline } := by
  by_cases hv : c.valid sfp board ch
  · rw [SetMWDBaseline_valid c sfp board ch v hv]
  · rw [SetMWDBaseline_invalid c sfp board ch v hv]

theorem SetMWDBaseline_other (c : MiniballCalibration) (sfp board ch : Nat) (v : Nat) (i j k : Nat)
    (h : ¬ (i = sfp ∧ j = board ∧ k = ch)) :
    (c.SetMWDBaseline sfp board ch v).fFebexMWD_Baseline.read i j k = c.fFebexMWD_Baseline.read i j k := by
  by_cases hv : c.valid sfp board ch
  · rw [SetMWDBaseline_valid c sfp board ch v hv]
    exact Table.read_write_other _ _ _ _ _ _ _ _ h
  · rw [SetMWDBaseline_invalid c sfp board ch v hv]

theorem SetMWDBaseline_sized (c : MiniballCalibration) (sfp board ch : Nat) (v : Nat)
    (hs : c.Sized) : (c.SetMWDBaseline sfp board ch v).Sized := by
  by_cases hv : c.valid sfp board ch
  · rw [SetMWDBaseline_valid c sfp board ch v hv]
    have hw := Table.write_sized c.fFebexMWD_Baseline _ _ _ sfp board ch v (hs.2.2.2.2.2.2.2.2.2.1)
    unfold MiniballCalibration.Sized at hs ⊢
    obtain ⟨h1, h2, h3, h4, h5, h6, h7, h8, h9, h10, h11, h12, h13, h14⟩ := hs
    refine ⟨?_, ?_, ?_, ?_, ?_, ?_, ?_, ?_, ?_, ?_, ?_, ?_, ?_, ?_⟩ <;> assumption
  · rw [SetMWDBaseline_invalid c sfp board ch v hv]; exact hs

theorem GetMWDBaseline_SetMWDBaseline (c : MiniballCalibration) (sfp board ch : Nat) (v : Nat)
    (hs : c.Sized) (hv : c.valid sfp board ch) :
    (c.SetMWDBaseline sfp board ch v).GetMWDBaseline sfp board ch = v := by
  rw [SetMWDBaseline_valid c sfp board ch v hv]
  have hv1 : MiniballCalibration.valid
      { c with fFebexMWD_Baseline := c.fFebexMWD_Baseline.write sfp board ch v } sfp board ch := hv
  unfold MiniballCalibration.GetMWDBaseline
  rw [if_pos hv1]
  exact Table.read_write_same c.fFebexMWD_Baseline _ _ _ sfp board ch v (hs.2.2.2.2.2.2.2.2.2.1) hv.1 hv.2.1 hv.2.2

theorem SetMWDWindow_invalid (c : MiniballCalibration) (sfp board ch : Nat) (v : Nat)
    (hv : ¬ c.valid sfp board ch) : c.SetMWDWindow sfp board ch v = c := by
  unfold MiniballCalibration.SetMWDWindow; rw [if_neg hv]

theorem SetMWDWindow_valid (c : MiniballCalibration) (sfp board ch : Nat) (v : Nat)
    (hv : c.valid sfp board ch) :
    c.SetMWDWindow sfp board ch v = { c with fFebexMWD_Window := c.fFebexMWD_Window.write sfp board ch v } := by
  unfold MiniballCalibration.SetMWDWindow; rw [if_pos hv]

theorem SetMWDWindow_frame (c : MiniballCalibration) (sfp board ch : Nat) (v : Nat) :
    c.SetMWDWindow sfp board ch v = { c with fFebexMWD_Window := (c.SetMWDWindow sfp board ch v).fFebexMWD_Window } := by
  by_cases hv : c.valid sfp board ch
  · rw [SetMWDWindow_valid c sfp board ch v hv]
  · rw [SetMWDWindow_invalid c sfp board ch v hv]

theorem SetMWDWindow_other (c : MiniballCalibration) (sfp board ch : Nat) (v : Nat) (i j k : Nat)
    (h : ¬ (i = sfp ∧ j = board ∧ k = ch)) :
    (c.SetMWDWindow sfp board ch v).fFebexMWD_Window.read i j k = c.fFebexMWD_Window.read i j k := by
  by_cases hv : c.valid sfp board ch
  · rw [SetMWDWindow_valid c sfp board ch v hv]
    exact Table.read_write_other _ _ _ _ _ _ _ _ h
  · rw [SetMWDWindow_invalid c sfp board ch v hv]

theorem SetMWDWindow_sized (c : MiniballCalibration) (sfp board ch : Nat) (v : Nat)
    (hs : c.Sized) : (c.SetMWDWindow sfp board ch v).Sized := by
  by_cases hv : c.valid sfp board ch
  · rw [SetMWDWindow_valid c sfp board ch v hv]
    have hw := Table.write_sized c.fFebexMWD_Window _ _ _ sfp board ch v (hs.2.2.2.2.2.2.2.2.2.2.1)
    unfold MiniballCalibration.Sized at hs ⊢
    obtain ⟨h1, h2, h3, h4, h5, h6, h7, h8, h9, h10, h11, h12, h13, h14⟩ := hs
    refine ⟨?_, ?_, ?_, ?_, ?_, ?_, ?_, ?_, ?_, ?_, ?_, ?_, ?_, ?_⟩ <;> assumption
  · rw [SetMWDWindow_invalid c sfp board ch v hv]; exact hs

theorem GetMWDWindow_SetMWDWindow (c : MiniballCalibration) (sfp board ch : Nat) (v : Nat)
    (hs : c.Sized) (hv : c.valid sfp board ch) :
    (c.SetMWDWindow sfp board ch v).GetMWDWindow sfp board ch = v := by
  rw [SetMWDWindow_valid c sfp board ch v hv]
  have hv1 : MiniballCalibration.valid
      { c with fFebexMWD_Window := c.fFebexMWD_Window.write sfp board ch v } sfp board ch := hv
  unfold MiniballCalibration.GetMWDWindow
  rw [if_pos hv1]
  exact Table.read_write_same c.fFebexMWD_Window _ _ _ sfp board ch v (hs.2.2.2.2.2.2.2.2.2.2.1) hv.1 hv.2.1 hv.2.2

theorem SetCFDFraction_invalid (c : MiniballCalibration) (sfp board ch : Nat) (v : ℚ)
    (hv : ¬ c.valid sfp board ch) : c.SetCFDFraction sfp board ch v = c := by
  unfold MiniballCalibration.SetCFDFraction; rw [if_neg hv]

theorem SetCFDFraction_valid (c : MiniballCalibration) (sfp board ch : Nat) (v : ℚ)
    (hv : c.valid sfp board ch) :
    c.SetCFDFraction sfp board ch v = { c with fFebexCFD_Fraction := c.fFebexCFD_Fraction.write sfp board ch v } := by
  unfold MiniballCalibration.SetCFDFraction; rw [if_pos hv]

theorem SetCFDFraction_frame (c : MiniballCalibration) (sfp board ch : Nat) (v : ℚ) :
    c.SetCFDFraction sfp board ch v = { c with fFebexCFD_Fraction := (c.SetCFDFraction sfp board ch v).fFebexCFD_Fraction } := by
  by_cases hv : c.valid sfp board ch
  · rw [SetCFDFraction_valid c sfp board ch v hv]
  · rw [SetCFDFraction_invalid c sfp board ch v hv]

theorem SetCFDFraction_other (c : MiniballCalibration) (sfp board ch : Nat) (v : ℚ) (i j k : Nat)
    (h : ¬ (i = sfp ∧ j = board ∧ k = ch)) :
    (c.SetCFDFraction sfp board ch v).fFebexCFD_Fraction.read i j k = c.fFebexCFD_Fraction.read i j k := by
  by_cases hv : c.valid sfp board ch
  · rw [SetCFDFraction_valid c sfp board ch v hv]
    exact Table.read_write_other _ _ _ _ _ _ _ _ h
  · rw [SetCFDFraction_invalid c sfp board ch v hv]

theorem SetCFDFraction_sized (c : MiniballCalibration) (sfp board ch : Nat) (v : ℚ)
    (hs : c.Sized) : (c.SetCFDFraction sfp board ch v).Sized := by
  by_cases hv : c.valid sfp board ch
  · rw [SetCFDFraction_valid c sfp board ch v hv]
    have hw := Table.write_sized c.fFebexCFD_Fraction _ _ _ sfp board ch v (hs.2.2.2.2.2.2.2.2.2.2.2.2.2)
    unfold MiniballCalibration.Sized at hs ⊢
    obtain ⟨h1, h2, h3, h4, h5, h6, h7, h8, h9, h10, h11, h12, h13, h14⟩ := hs
    refine ⟨?_, ?_, ?_, ?_, ?_, ?_, ?_, ?_, ?_, ?_, ?_, ?_, ?_, ?_⟩ <;> assumption
  · rw [SetCFDFraction_invalid c sfp board ch v hv]; exact hs

theorem GetCFDFraction_SetCFDFraction (c : MiniballCalibration) (sfp board ch : Nat) (v : ℚ)
    (hs : c.Sized) (hv : c.valid sfp board ch) :
    (c.SetCFDFraction sfp board ch v).GetCFDFraction sfp board ch = v := by
  rw [SetCFDFraction_valid c sfp board ch v hv]
  have hv1 : MiniballCalibration.valid
      { c with fFebexCFD_Fraction := c.fFebexCFD_Fraction.write sfp board ch v } sfp board ch := hv
  unfold MiniballCalibration.GetCFDFraction
  rw [if_pos hv1]
  exact Table.read_write_same c.fFebexCFD_Fraction _ _ _ sfp board ch v (hs.2.2.2.2.2.2.2.2.2.2.2.2.2) hv.1 hv.2.1 hv.2.2

theorem SetCFDDelay_invalid (c : MiniballCalibration) (sfp board ch : Nat) (v : Nat)
    (hv : ¬ c.valid sfp board ch) : c.SetCFDDelay sfp board ch v = c := by
  unfold MiniballCalibration.SetCFDDelay; rw [if_neg hv]

theorem SetCFDDelay_valid (c : MiniballCalibration) (sfp board ch : Nat) (v : Nat)
    (hv : c.valid sfp board ch) :
    c.SetCFDDelay sfp board ch v = { c with fFebexCFD_Delay := c.fFebexCFD_Delay.write sfp board ch v } := by
  unfold MiniballCalibration.SetCFDDelay; rw [if_pos hv]

theorem SetCFDDelay_frame (c : MiniballCalibration) (sfp board ch : Nat) (v : Nat) :
    c.SetCFDDelay sfp board ch v = { c with fFebexCFD_Delay := (c.SetCFDDelay sfp board ch v).fFebexCFD_Delay } := by
  by_cases hv : c.valid sfp board ch
  · rw [SetCFDDelay_valid c sfp board ch v hv]
  · rw [SetCFDDelay_invalid c sfp board ch v hv]

theorem SetCFDDelay_other (c : MiniballCalibration) (sfp board ch : Nat) (v : Nat) (i j k : Nat)
    (h : ¬ (i = sfp ∧ j = board ∧ k = ch)) :
    (c.SetCFDDelay sfp board ch v).fFebexCFD_Delay.read i j k = c.fFebexCFD_Delay.read i j k := by
  by_cases hv : c.valid sfp board ch
  · rw [SetCFDDelay_valid c sfp board ch v hv]
    exact Table.read_write_other _ _ _ _ _ _ _ _ h
  · rw [SetCFDDelay_invalid c sfp board ch v hv]

theorem SetCFDDelay_sized (c : MiniballCalibration) (sfp board ch : Nat) (v : Nat)
    (hs : c.Sized) : (c.SetCFDDelay sfp board ch v).Sized := by
  by_cases hv : c.valid sfp board ch
  · rw [SetCFDDelay_valid c sfp board ch v hv]
    have hw := Table.write_sized c.fFebexCFD_Delay _ _ _ sfp board ch v (hs.2.2.2.2.2.2.2.2.2.2.2.1)
    unfold MiniballCalibration.Sized at hs ⊢
    obtain ⟨h1, h2, h3, h4, h5, h6, h7, h8, h9, h10, h11, h12, h13, h14⟩ := hs
    refine ⟨?_, ?_, ?_, ?_, ?_, ?_, ?_, ?_, ?_, ?_, ?_, ?_, ?_, ?_⟩ <;> assumption
  · rw [SetCFDDelay_invalid c sfp board ch v hv]; exact hs

theorem GetCFDDelay_SetCFDDelay (c : MiniballCalibration) (sfp board ch : Nat) (v : Nat)
    (hs : c.Sized) (hv : c.valid sfp board ch) :
    (c.SetCFDDelay sfp board ch v).GetCFDDelay sfp board ch = v := by
  rw [SetCFDDelay_valid c sfp board ch v hv]
  have hv1 : MiniballCalibration.valid
      { c with fFebexCFD_Delay := c.fFebexCFD_Delay.write sfp board ch v } sfp board ch := hv
  unfold MiniballCalibration.GetCFDDelay
  rw [if_pos hv1]
  exact Table.read_write_same c.fFebexCFD_Delay _ _ _ sfp board ch v (hs.2.2.2.2.2.2.2.2.2.2.2.1) hv.1 hv.2.1 hv.2.2

theorem SetCFDThreshold_invalid (c : MiniballCalibration) (sfp board ch : Nat) (v : Int)
    (hv : ¬ c.valid sfp board ch) : c.SetCFDThreshold sfp board ch v = c := by
  unfold MiniballCalibration.SetCFDThreshold; rw [if_neg hv]

theorem SetCFDThreshold_valid (c : MiniballCalibration) (sfp board ch : Nat) (v : Int)
    (hv : c.valid sfp board ch) :
    c.SetCFDThreshold sfp board ch v = { c with fFebexCFD_Threshold := c.fFebexCFD_Threshold.write sfp board ch v } := by
  unfold MiniballCalibration.SetCFDThreshold; rw [if_pos hv]

theorem SetCFDThreshold_frame (c : MiniballCalibration) (sfp board ch : Nat) (v : Int) :
    c.SetCFDThreshold sfp board ch v = { c with fFebexCFD_Threshold := (c.SetCFDThreshold sfp board ch v).fFebexCFD_Threshold } := by
  by_cases hv : c.valid sfp board ch
  · rw [SetCFDThreshold_valid c sfp board ch v hv]
  · rw [SetCFDThreshold_invalid c sfp board ch v hv]

theorem SetCFDThreshold_other (c : MiniballCalibration) (sfp board ch : Nat) (v : Int) (i j k : Nat)
    (h : ¬ (i = sfp ∧ j = board ∧ k = ch)) :
    (c.SetCFDThreshold sfp board ch v).fFebexCFD_Threshold.read i j k = c.fFebexCFD_Threshold.read i j k := by
  by_cases hv : c.valid sfp board ch
  · rw [SetCFDThreshold_valid c sfp board ch v hv]
    exact Table.read_write_other _ _ _ _ _ _ _ _ h
  · rw [SetCFDThreshold_invalid c sfp board ch v hv]

theorem SetCFDThreshold_sized (c : MiniballCalibration) (sfp board ch : Nat) (v : Int)
    (hs : c.Sized) : (c.SetCFDThreshold sfp board ch v).Sized := by
  by_cases hv : c.valid sfp board ch
  · rw [SetCFDThreshold_valid c sfp board ch v hv]
    have hw := Table.write_sized c.fFebexCFD_Threshold _ _ _ sfp board ch v (hs.2.2.2.2.2.2.2.2.2.2.2.2.1)
    unfold MiniballCalibration.Sized at hs ⊢
    obtain ⟨h1, h2, h3, h4, h5, h6, h7, h8, h9, h10, h11, h12, h13, h14⟩ := hs
    refine ⟨?_, ?_, ?_, ?_, ?_, ?_, ?_, ?_, ?_, ?_, ?_, ?_, ?_, ?_⟩ <;> assumption
  · rw [SetCFDThreshold_invalid c sfp board ch v hv]; exact hs

theorem GetCFDThreshold_SetCFDThreshold (c : MiniballCalibration) (sfp board ch : Nat) (v : Int)
    (hs : c.Sized) (hv : c.valid sfp board ch) :
    (c.SetCFDThreshold sfp board ch v).GetCFDThreshold sfp board ch = v := by
  rw [SetCFDThreshold_valid c sfp board ch v hv]
  have hv1 : MiniballCalibration.valid
      { c with fFebexCFD_Threshold := c.fFebexCFD_Threshold.write sfp board ch v } sfp board ch := hv
  unfold MiniballCalibration.GetCFDThreshold
  rw [if_pos hv1]
  exact Table.read_write_same c.fFebexCFD_Threshold _ _ _ sfp board ch v (hs.2.2.2.2.2.2.2.2.2.2.2.2.1) hv.1 hv.2.1 hv.2.2

/-- C5 fails as stated. The address (1,0,0) is out of range for the default store (one
SFP), and `FebexThreshold`, whose return type is `unsigned int`, returns 4294967295
there, not -1. -/
theorem FebexThreshold_sentinel_counterexample :
    ¬ defaultStore.valid 1 0 0 ∧ defaultStore.FebexThreshold 1 0 0 = 4294967295 ∧
    ((defaultStore.FebexThreshold 1 0 0 : Nat) : Int) ≠ -1 := by
  have h : defaultStore.FebexThreshold 1 0 0 = 4294967295 := by
    unfold MiniballCalibration.FebexThreshold
    rw [if_neg defaultStore_invalid, toUInt32_neg_one]
  refine ⟨defaultStore_invalid, h, ?_⟩
  rw [h]
  decide

/-- C5, amended. For every channel address that is out of range in any of its three
indices, every numeric accessor returns its sentinel and leaves the store unchanged:
`FebexEnergy` returns -1 (and the store it was given), `FebexThreshold` returns
4294967295 (the value of -1 as an unsigned 32-bit integer), and `FebexTime`,
`GetMWDDecay`, `GetMWDRise`, `GetMWDTop`, `GetMWDBaseline`, `GetMWDWindow`,
`GetCFDFraction`, `GetCFDDelay` and `GetCFDThreshold` return 0; for a valid address each
getter returns the stored table entry. -/
theorem accessors_sentinel_or_entry (c : MiniballCalibration) (sfp board ch raw : Nat) :
    (¬ c.valid sfp board ch →
      c.FebexEnergy sfp board ch raw = (-1, c) ∧
      c.FebexThreshold sfp board ch = 4294967295 ∧
      c.FebexTime sfp board ch = 0 ∧
      c.GetMWDDecay sfp board ch = 0 ∧
      c.GetMWDRise sfp board ch = 0 ∧
      c.GetMWDTop sfp board ch = 0 ∧
      c.GetMWDBaseline sfp board ch = 0 ∧
      c.GetMWDWindow sfp board ch = 0 ∧
      c.GetCFDFraction sfp board ch = 0 ∧
      c.GetCFDDelay sfp board ch = 0 ∧
      c.GetCFDThreshold sfp board ch = 0) ∧
    (c.valid sfp board ch →
      c.FebexThreshold sfp board ch = c.fFebexThreshold.read sfp board ch ∧
      c.FebexTime sfp board ch = c.fFebexTime.read sfp board ch ∧
      c.GetMWDDecay sfp board ch = c.fFebexMWD_Decay.read sfp board ch ∧
      c.GetMWDRise sfp board ch = c.fFebexMWD_Rise.read sfp board ch ∧
      c.GetMWDTop sfp board ch = c.fFebexMWD_Top.read sfp board ch ∧
      c.GetMWDBaseline sfp board ch = c.fFebexMWD_Baseline.read sfp board ch ∧
      c.GetMWDWindow sfp board ch = c.fFebexMWD_Window.read sfp board ch ∧
      c.GetCFDFraction sfp board ch = c.fFebexCFD_Fraction.read sfp board ch ∧
      c.GetCFDDelay sfp board ch = c.fFebexCFD_Delay.read sfp board ch ∧
      c.GetCFDThreshold sfp board ch = c.fFebexCFD_Threshold.read sfp board ch) := by
  refine ⟨fun hv => ?_, fun hv => ?_⟩
  · simp only [MiniballCalibration.FebexEnergy, MiniballCalibration.FebexThreshold,
      MiniballCalibration.FebexTime, MiniballCalibration.GetMWDDecay, MiniballCalibration.GetMWDRise, MiniballCalibration.GetMWDTop, MiniballCalibration.GetMWDBaseline, MiniballCalibration.GetMWDWindow, MiniballCalibration.GetCFDFraction, MiniballCalibration.GetCFDDelay, MiniballCalibration.GetCFDThreshold,
      if_neg hv, toUInt32_neg_one, and_self]
  · simp only [MiniballCalibration.FebexThreshold,
      MiniballCalibration.FebexTime, MiniballCalibration.GetMWDDecay, MiniballCalibration.GetMWDRise, MiniballCalibration.GetMWDTop, MiniballCalibration.GetMWDBaseline, MiniballCalibration.GetMWDWindow, MiniballCalibration.GetCFDFraction, MiniballCalibration.GetCFDDelay, MiniballCalibration.GetCFDThreshold,
      if_pos hv, and_self]

/-- C5 amended, at concrete inputs: the out-of-range address (1,0,0) and the valid address
(0,0,0) of the default store. -/
theorem accessors_sentinel_or_entry_witness :
    ¬ defaultStore.valid 1 0 0 ∧ defaultStore.valid 0 0 0 ∧
    defaultStore.FebexEnergy 1 0 0 7 = (-1, defaultStore) ∧
    defaultStore.FebexThreshold 1 0 0 = 4294967295 ∧
    defaultStore.GetMWDDecay 1 0 0 = 0 ∧
    defaultStore.FebexThreshold 0 0 0 = defaultStore.fFebexThreshold.read 0 0 0 :=
  ⟨defaultStore_invalid, defaultStore_valid,
    ((accessors_sentinel_or_entry defaultStore 1 0 0 7).1 defaultStore_invalid).1,
    ((accessors_sentinel_or_entry defaultStore 1 0 0 7).1 defaultStore_invalid).2.1,
    ((accessors_sentinel_or_entry defaultStore 1 0 0 7).1 defaultStore_invalid).2.2.2.1,
    ((accessors_sentinel_or_entry defaultStore 0 0 0 7).2 defaultStore_valid).1⟩

/-- For a valid address `FebexType` returns the stored type tag. -/
theorem FebexType_valid (c : MiniballCalibration) (sfp board ch : Nat)
    (hv : c.valid sfp board ch) :
    c.FebexType sfp board ch = Except.ok (c.fFebexType.read sfp board ch) := by
  unfold MiniballCalibration.FebexType; rw [if_pos hv]

/-- For an out-of-range address `FebexType` does not return: the construction of the
returned string from a null pointer throws. -/
theorem FebexType_invalid (c : MiniballCalibration) (sfp board ch : Nat)
    (hv : ¬ c.valid sfp board ch) :
    c.FebexType sfp board ch
      = Except.error "std::string constructed from a null pointer" := by
  unfold MiniballCalibration.FebexType; rw [if_neg hv]

/-- C6 (what the code does). At the out-of-range address (1,0,0) of the default store
`FebexType` does not return the empty string: `return 0;` constructs the `std::string`
from a null pointer, which throws instead of returning. -/
theorem FebexType_out_of_range_throws :
    ¬ defaultStore.valid 1 0 0 ∧
    defaultStore.FebexType 1 0 0
      = Except.error "std::string constructed from a null pointer" ∧
    defaultStore.FebexType 1 0 0 ≠ Except.ok "" := by
  have h := FebexType_invalid defaultStore 1 0 0 defaultStore_invalid
  refine ⟨defaultStore_invalid, h, ?_⟩
  rw [h]
  intro hc
  cases hc

/-- C7. Each setter (`SetMWDDecay`, `SetMWDRise`, `SetMWDTop`, `SetMWDBaseline`,
`SetMWDWindow`, `SetCFDFraction`, `SetCFDDelay`, `SetCFDThreshold`) changes at most the
addressed entry of its own parameter table: with an out-of-range address the whole store
is unchanged; in every case the matching getter reads every other channel as before, and
the store after the call is the store before it with only the setter's own table
replaced, so that every other parameter table (and the settings and the generator) is
exactly as before. -/
theorem setters_frame (c : MiniballCalibration) (sfp board ch : Nat) :
    (∀ decay : Nat,
      (¬ c.valid sfp board ch → c.SetMWDDecay sfp board ch decay = c) ∧
      (∀ i j k : Nat, ¬ (i = sfp ∧ j = board ∧ k = ch) →
        (c.SetMWDDecay sfp board ch decay).GetMWDDecay i j k = c.GetMWDDecay i j k) ∧
      c.SetMWDDecay sfp board ch decay
        = { c with fFebexMWD_Decay := (c.SetMWDDecay sfp board ch decay).fFebexMWD_Decay }) ∧
    (∀ rise : Nat,
      (¬ c.valid sfp board ch → c.SetMWDRise sfp board ch rise = c) ∧
      (∀ i j k : Nat, ¬ (i = sfp ∧ j = board ∧ k = ch) →
        (c.SetMWDRise sfp board ch rise).GetMWDRise i j k = c.GetMWDRise i j k) ∧
      c.SetMWDRise sfp board ch rise
        = { c with fFebexMWD_Rise := (c.SetMWDRise sfp board ch rise).fFebexMWD_Rise }) ∧
    (∀ top : Nat,
      (¬ c.valid sfp board ch → c.SetMWDTop sfp board ch top = c) ∧
      (∀ i j k : Nat, ¬ (i = sfp ∧ j = board ∧ k = ch) →
        (c.SetMWDTop sfp board ch top).GetMWDTop i j k = c.GetMWDTop i j k) ∧
      c.SetMWDTop sfp board ch top
        = { c with fFebexMWD_Top := (c.SetMWDTop sfp board ch top).fFebexMWD_Top }) ∧
    (∀ baseline : Nat,
      (¬ c.valid sfp board ch → c.SetMWDBaseline sfp board ch baseline = c) ∧
      (∀ i j k : Nat, ¬ (i = sfp ∧ j = board ∧ k = ch) →
        (c.SetMWDBaseline sfp board ch baseline).GetMWDBaseline i j k = c.GetMWDBaseline i j k) ∧
      c.SetMWDBaseline sfp board ch baseline
        = { c with fFebexMWD_Baseline := (c.SetMWDBaseline sfp board ch baseline).fFebexMWD_Baseline }) ∧
    (∀ window : Nat,
      (¬ c.valid sfp board ch → c.SetMWDWindow sfp board ch window = c) ∧
      (∀ i j k : Nat, ¬ (i = sfp ∧ j = board ∧ k = ch) →
        (c.SetMWDWindow sfp board ch window).GetMWDWindow i j k = c.GetMWDWindow i j k) ∧
      c.SetMWDWindow sfp board ch window
        = { c with fFebexMWD_Window := (c.SetMWDWindow sfp board ch window).fFebexMWD_Window }) ∧
    (∀ fraction : ℚ,
      (¬ c.valid sfp board ch → c.SetCFDFraction sfp board ch fraction = c) ∧
      (∀ i j k : Nat, ¬ (i = sfp ∧ j = board ∧ k = ch) →
        (c.SetCFDFraction sfp board ch fraction).GetCFDFraction i j k = c.GetCFDFraction i j k) ∧
      c.SetCFDFraction sfp board ch fraction
        = { c with fFebexCFD_Fraction := (c.SetCFDFraction sfp board ch fraction).fFebexCFD_Fraction }) ∧
    (∀ delay : Nat,
      (¬ c.valid sfp board ch → c.SetCFDDelay sfp board ch delay = c) ∧
      (∀ i j k : Nat, ¬ (i = sfp ∧ j = board ∧ k = ch) →
        (c.SetCFDDelay sfp board ch delay).GetCFDDelay i j k = c.GetCFDDelay i j k) ∧
      c.SetCFDDelay sfp board ch delay
        = { c with fFebexCFD_Delay := (c.SetCFDDelay sfp board ch delay).fFebexCFD_Delay }) ∧
    (∀ threshold : Int,
      (¬ c.valid sfp board ch → c.SetCFDThreshold sfp board ch threshold = c) ∧
      (∀ i j k : Nat, ¬ (i = sfp ∧ j = board ∧ k = ch) →
        (c.SetCFDThreshold sfp board ch threshold).GetCFDThreshold i j k = c.GetCFDThreshold i j k) ∧
      c.SetCFDThreshold sfp board ch threshold
        = { c with fFebexCFD_Threshold := (c.SetCFDThreshold sfp board ch threshold).fFebexCFD_Threshold }) := by
  refine ⟨?_, ?_, ?_, ?_, ?_, ?_, ?_, ?_⟩
  · intro v
    refine ⟨SetMWDDecay_invalid c sfp board ch v, fun i j k h => ?_, SetMWDDecay_frame c sfp board ch v⟩
    have hval : (c.SetMWDDecay sfp board ch v).valid i j k ↔ c.valid i j k := by
      rw [SetMWDDecay_frame c sfp board ch v]; exact Iff.rfl
    unfold MiniballCalibration.GetMWDDecay
    by_cases hv : c.valid i j k
    · rw [if_pos hv, if_pos (hval.2 hv)]
      exact SetMWDDecay_other c sfp board ch v i j k h
    · rw [if_neg hv, if_neg (fun h2 => hv (hval.1 h2))]
  · intro v
    refine ⟨SetMWDRise_invalid c sfp board ch v, fun i j k h => ?_, SetMWDRise_frame c sfp board ch v⟩
    have hval : (c.SetMWDRise sfp board ch v).valid i j k ↔ c.valid i j k := by
      rw [SetMWDRise_frame c sfp board ch v]; exact Iff.rfl
    unfold MiniballCalibration.GetMWDRise
    by_cases hv : c.valid i j k
    · rw [if_pos hv, if_pos (hval.2 hv)]
      exact SetMWDRise_other c sfp board ch v i j k h
    · rw [if_neg hv, if_neg (fun h2 => hv (hval.1 h2))]
  · intro v
    refine ⟨SetMWDTop_invalid c sfp board ch v, fun i j k h => ?_, SetMWDTop_frame c sfp board ch v⟩
    have hval : (c.SetMWDTop sfp board ch v).valid i j k ↔ c.valid i j k := by
      rw [SetMWDTop_frame c sfp board ch v]; exact Iff.rfl
    unfold MiniballCalibration.GetMWDTop
    by_cases hv : c.valid i j k
    · rw [if_pos hv, if_pos (hval.2 hv)]
      exact SetMWDTop_other c sfp board ch v i j k h
    · rw [if_neg hv, if_neg (fun h2 => hv (hval.1 h2))]
  · intro v
    refine ⟨SetMWDBaseline_invalid c sfp board ch v, fun i j k h => ?_, SetMWDBaseline_frame c sfp board ch v⟩
    have hval : (c.SetMWDBaseline sfp board ch v).valid i j k ↔ c.valid i j k := by
      rw [SetMWDBaseline_frame c sfp board ch v]; exact Iff.rfl
    unfold MiniballCalibration.GetMWDBaseline
    by_cases hv : c.valid i j k
    · rw [if_pos hv, if_pos (hval.2 hv)]
      exact SetMWDBaseline_other c sfp board ch v i j k h
    · rw [if_neg hv, if_neg (fun h2 => hv (hval.1 h2))]
  · intro v
    refine ⟨SetMWDWindow_invalid c sfp board ch v, fun i j k h => ?_, SetMWDWindow_frame c sfp board ch v⟩
    have hval : (c.SetMWDWindow sfp board ch v).valid i j k ↔ c.valid i j k := by
      rw [SetMWDWindow_frame c sfp board ch v]; exact Iff.rfl
    unfold MiniballCalibration.GetMWDWindow
    by_cases hv : c.valid i j k
    · rw [if_pos hv, if_pos (hval.2 hv)]
      exact SetMWDWindow_other c sfp board ch v i j k h
    · rw [if_neg hv, if_neg (fun h2 => hv (hval.1 h2))]
  · intro v
    refine ⟨SetCFDFraction_invalid c sfp board ch v, fun i j k h => ?_, SetCFDFraction_frame c sfp board ch v⟩
    have hval : (c.SetCFDFraction sfp board ch v).valid i j k ↔ c.valid i j k := by
      rw [SetCFDFraction_frame c sfp board ch v]; exact Iff.rfl
    unfold MiniballCalibration.GetCFDFraction
    by_cases hv : c.valid i j k
    · rw [if_pos hv, if_pos (hval.2 hv)]
      exact SetCFDFraction_other c sfp board ch v i j k h
    · rw [if_neg hv, if_neg (fun h2 => hv (hval.1 h2))]
  · intro v
    refine ⟨SetCFDDelay_invalid c sfp board ch v, fun i j k h => ?_, SetCFDDelay_frame c sfp board ch v⟩
    have hval : (c.SetCFDDelay sfp board ch v).valid i j k ↔ c.valid i j k := by
      rw [SetCFDDelay_frame c sfp board ch v]; exact Iff.rfl
    unfold MiniballCalibration.GetCFDDelay
    by_cases hv : c.valid i j k
    · rw [if_pos hv, if_pos (hval.2 hv)]
      exact SetCFDDelay_other c sfp board ch v i j k h
    · rw [if_neg hv, if_neg (fun h2 => hv (hval.1 h2))]
  · intro v
    refine ⟨SetCFDThreshold_invalid c sfp board ch v, fun i j k h => ?_, SetCFDThreshold_frame c sfp board ch v⟩
    have hval : (c.SetCFDThreshold sfp board ch v).valid i j k ↔ c.valid i j k := by
      rw [SetCFDThreshold_frame c sfp board ch v]; exact Iff.rfl
    unfold MiniballCalibration.GetCFDThreshold
    by_cases hv : c.valid i j k
    · rw [if_pos hv, if_pos (hval.2 hv)]
      exact SetCFDThreshold_other c sfp board ch v i j k h
    · rw [if_neg hv, if_neg (fun h2 => hv (hval.1 h2))]

/-- C7, at concrete inputs: `SetMWDDecay` at the out-of-range address (1,0,0) of the
default store, and `SetCFDThreshold` at (0,0,0) read back at the other channel (0,1,1). -/
theorem setters_frame_witness :
    ¬ defaultStore.valid 1 0 0 ∧ ¬ ((0 : Nat) = 0 ∧ (1 : Nat) = 0 ∧ (1 : Nat) = 0) ∧
    defaultStore.SetMWDDecay 1 0 0 77 = defaultStore ∧
    (defaultStore.SetCFDThreshold 0 0 0 (-50)).GetCFDThreshold 0 1 1
      = defaultStore.GetCFDThreshold 0 1 1 :=
  ⟨defaultStore_invalid, by decide,
    ((setters_frame defaultStore 1 0 0).1 77).1 defaultStore_invalid,
    ((setters_frame defaultStore 0 0 0).2.2.2.2.2.2.2 (-50)).2.1 0 1 1 (by decide)⟩

theorem defaultStore_sized : defaultStore.Sized :=
  ReadCalibration_sized emptyConfig sampleSettings halfRand

/-- C8. For every valid channel address of a store whose tables have the configured
dimensions (as `ReadCalibration` builds them and every setter keeps them) and all values
`v`, `w`: calling a setter and then the matching getter at the same address returns `v`,
for each of the eight pairs (Set/Get `MWDDecay`, `MWDRise`, `MWDTop`, `MWDBaseline`,
`MWDWindow`, `CFDFraction`, `CFDDelay`, `CFDThreshold`); a second set to the same address
overrides the first. -/
theorem set_then_get (c : MiniballCalibration) (sfp board ch : Nat) (hs : c.Sized)
    (hv : c.valid sfp board ch) :
    (∀ v w : Nat,
      (c.SetMWDDecay sfp board ch v).GetMWDDecay sfp board ch = v ∧
      ((c.SetMWDDecay sfp board ch v).SetMWDDecay sfp board ch w).GetMWDDecay sfp board ch = w) ∧
    (∀ v w : Nat,
      (c.SetMWDRise sfp board ch v).GetMWDRise sfp board ch = v ∧
      ((c.SetMWDRise sfp board ch v).SetMWDRise sfp board ch w).GetMWDRise sfp board ch = w) ∧
    (∀ v w : Nat,
      (c.SetMWDTop sfp board ch v).GetMWDTop sfp board ch = v ∧
      ((c.SetMWDTop sfp board ch v).SetMWDTop sfp board ch w).GetMWDTop sfp board ch = w) ∧
    (∀ v w : Nat,
      (c.SetMWDBaseline sfp board ch v).GetMWDBaseline sfp board ch = v ∧
      ((c.SetMWDBaseline sfp board ch v).SetMWDBaseline sfp board ch w).GetMWDBaseline sfp board ch = w) ∧
    (∀ v w : Nat,
      (c.SetMWDWindow sfp board ch v).GetMWDWindow sfp board ch = v ∧
      ((c.SetMWDWindow sfp board ch v).SetMWDWindow sfp board ch w).GetMWDWindow sfp board ch = w) ∧
    (∀ v w : ℚ,
      (c.SetCFDFraction sfp board ch v).GetCFDFraction sfp board ch = v ∧
      ((c.SetCFDFraction sfp board ch v).SetCFDFraction sfp board ch w).GetCFDFraction sfp board ch = w) ∧
    (∀ v w : Nat,
      (c.SetCFDDelay sfp board ch v).GetCFDDelay sfp board ch = v ∧
      ((c.SetCFDDelay sfp board ch v).SetCFDDelay sfp board ch w).GetCFDDelay sfp board ch = w) ∧
    (∀ v w : Int,
      (c.SetCFDThreshold sfp board ch v).GetCFDThreshold sfp board ch = v ∧
      ((c.SetCFDThreshold sfp board ch v).SetCFDThreshold sfp board ch w).GetCFDThreshold sfp board ch = w) := by
  refine ⟨?_, ?_, ?_, ?_, ?_, ?_, ?_, ?_⟩
  · intro v w
    have hv1 : (c.SetMWDDecay sfp board ch v).valid sfp board ch := by
      rw [SetMWDDecay_frame c sfp board ch v]; exact hv
    exact ⟨GetMWDDecay_SetMWDDecay c sfp board ch v hs hv,
      GetMWDDecay_SetMWDDecay _ sfp board ch w (SetMWDDecay_sized c sfp board ch v hs) hv1⟩
  · intro v w
    have hv1 : (c.SetMWDRise sfp board ch v).valid sfp board ch := by
      rw [SetMWDRise_frame c sfp board ch v]; exact hv
    exact ⟨GetMWDRise_SetMWDRise c sfp board ch v hs hv,
      GetMWDRise_SetMWDRise _ sfp board ch w (SetMWDRise_sized c sfp board ch v hs) hv1⟩
  · intro v w
    have hv1 : (c.SetMWDTop sfp board ch v).valid sfp board ch := by
      rw [SetMWDTop_frame c sfp board ch v]; exact hv
    exact ⟨GetMWDTop_SetMWDTop c sfp board ch v hs hv,
      GetMWDTop_SetMWDTop _ sfp board ch w (SetMWDTop_sized c sfp board ch v hs) hv1⟩
  · intro v w
    have hv1 : (c.SetMWDBaseline sfp board ch v).valid sfp board ch := by
      rw [SetMWDBaseline_frame c sfp board ch v]; exact hv
    exact ⟨GetMWDBaseline_SetMWDBaseline c sfp board ch v hs hv,
      GetMWDBaseline_SetMWDBaseline _ sfp board ch w (SetMWDBaseline_sized c sfp board ch v hs) hv1⟩
  · intro v w
    have hv1 : (c.SetMWDWindow sfp board ch v).valid sfp board ch := by
      rw [SetMWDWindow_frame c sfp board ch v]; exact hv
    exact ⟨GetMWDWindow_SetMWDWindow c sfp board ch v hs hv,
      GetMWDWindow_SetMWDWindow _ sfp board ch w (SetMWDWindow_sized c sfp board ch v hs) hv1⟩
  · intro v w
    have hv1 : (c.SetCFDFraction sfp board ch v).valid sfp board ch := by
      rw [SetCFDFraction_frame c sfp board ch v]; exact hv
    exact ⟨GetCFDFraction_SetCFDFraction c sfp board ch v hs hv,
      GetCFDFraction_SetCFDFraction _ sfp board ch w (SetCFDFraction_sized c sfp board ch v hs) hv1⟩
  · intro v w
    have hv1 : (c.SetCFDDelay sfp board ch v).valid sfp board ch := by
      rw [SetCFDDelay_frame c sfp board ch v]; exact hv
    exact ⟨GetCFDDelay_SetCFDDelay c sfp board ch v hs hv,
      GetCFDDelay_SetCFDDelay _ sfp board ch w (SetCFDDelay_sized c sfp board ch v hs) hv1⟩
  · intro v w
    have hv1 : (c.SetCFDThreshold sfp board ch v).valid sfp board ch := by
      rw [SetCFDThreshold_frame c sfp board ch v]; exact hv
    exact ⟨GetCFDThreshold_SetCFDThreshold c sfp board ch v hs hv,
      GetCFDThreshold_SetCFDThreshold _ sfp board ch w (SetCFDThreshold_sized c sfp board ch v hs) hv1⟩

/-- C8, at a concrete input: channel (0,0,0) of the default store. -/
theorem set_then_get_witness :
    defaultStore.Sized ∧ defaultStore.valid 0 0 0 ∧
    (defaultStore.SetMWDRise 0 0 0 120).GetMWDRise 0 0 0 = 120 ∧
    ((defaultStore.SetCFDThreshold 0 0 0 (-50)).SetCFDThreshold 0 0 0 300).GetCFDThreshold 0 0 0
      = 300 :=
  ⟨defaultStore_sized, defaultStore_valid,
    ((set_then_get defaultStore 0 0 0 defaultStore_sized defaultStore_valid).2.1 120 0).1,
    ((set_then_get defaultStore 0 0 0 defaultStore_sized defaultStore_valid).2.2.2.2.2.2.2
      (-50) 300).2⟩

/-! ## The pulse processor: termination of the loops -/

/-- The zero-crossing search never moves the index down. -/
theorem zeroCrossing_ge (m : FebexMWD) (o : Overread) (len : Nat) :
    ∀ fuel i : Nat, i ≤ FebexMWD.zeroCrossing m o len fuel i := by
  intro fuel
  induction fuel with
  | zero => intro i; exact Nat.le_refl i
  | succ f ih =>
    intro i
    unfold FebexMWD.zeroCrossing
    split
    · exact Nat.le_trans (Nat.le_succ i) (ih (i + 1))
    · exact Nat.le_refl i

/-- The zero-crossing search stops at the trace length at the latest. -/
theorem zeroCrossing_le (m : FebexMWD) (o : Overread) (len : Nat) :
    ∀ fuel i : Nat, i ≤ len → FebexMWD.zeroCrossing m o len fuel i ≤ len := by
  intro fuel
  induction fuel with
  | zero => intro i h; exact h
  | succ f ih =>
    intro i h
    unfold FebexMWD.zeroCrossing
    split
    · rename_i hc
      exact ih (i + 1) hc.2
    · exact h

/-- The bound on the iterations of the zero-crossing search is never what stops it:
any two bounds of at least `trace_length - i` give the same index. -/
theorem zeroCrossing_fuel (m : FebexMWD) (o : Overread) (len : Nat) :
    ∀ f1 f2 i : Nat, len - i ≤ f1 → len - i ≤ f2 →
      FebexMWD.zeroCrossing m o len f1 i = FebexMWD.zeroCrossing m o len f2 i := by
  intro f1
  induction f1 with
  | zero =>
    intro f2 i h1 _
    cases f2 with
    | zero => rfl
    | succ g =>
      unfold FebexMWD.zeroCrossing
      rw [if_neg]
      intro hc
      omega
  | succ f ih =>
    intro f2 i h1 h2
    cases f2 with
    | zero =>
      unfold FebexMWD.zeroCrossing
      rw [if_neg]
      intro hc
      omega
    | succ g =>
      rw [FebexMWD.zeroCrossing, FebexMWD.zeroCrossing]
      split
      · exact ih g (i + 1) (by omega) (by omega)
      · rfl

/-- The bound on the iterations of the trigger scan is never what stops it: any two
bounds of at least `trace_length - i` give the same lists, so the scan of `DoMWD` always
runs to the end of the trace (or to its `break`). -/
theorem scan_fuel (m : FebexMWD) (o : Overread) (len : Nat) :
    ∀ (f1 f2 i : Nat) (lists : List ℚ × List ℚ), len - i ≤ f1 → len - i ≤ f2 →
      FebexMWD.scan m o len f1 i lists = FebexMWD.scan m o len f2 i lists := by
  intro f1
  induction f1 with
  | zero =>
    intro f2 i lists h1 _
    cases f2 with
    | zero => rfl
    | succ g =>
      have hi : ¬ i < len := by omega
      simp only [FebexMWD.scan, if_neg hi]
  | succ f ih =>
    intro f2 i lists h1 h2
    cases f2 with
    | zero =>
      have hi : ¬ i < len := by omega
      simp only [FebexMWD.scan, if_neg hi]
    | succ g =>
      have hz := zeroCrossing_ge m o len (len - i) i
      simp only [FebexMWD.scan]
      split
      · split
        · split
          · exact ih g _ lists (by omega) (by omega)
          · split
            · exact ih g _ lists (by omega) (by omega)
            · split
              · rfl
              · exact ih g _ _ (by omega) (by omega)
        · exact ih g _ lists (by omega) (by omega)
      · rfl

/-! ## The pulse processor: what the filter loop leaves alone -/

theorem cfdStep_setup (m : FebexMWD) (i : Nat) : (FebexMWD.cfdStep m i).SameSetup m := by
  unfold FebexMWD.cfdStep FebexMWD.SameSetup
  split <;> simp

theorem mwdStep_setup (m : FebexMWD) (i : Nat) : (FebexMWD.mwdStep m i).SameSetup m := by
  unfold FebexMWD.mwdStep FebexMWD.SameSetup
  split <;> simp

theorem avgStep_setup (m : FebexMWD) (i : Nat) : (FebexMWD.avgStep m i).SameSetup m := by
  unfold FebexMWD.avgStep FebexMWD.SameSetup
  split <;> simp

theorem SameSetup_trans {a b c : FebexMWD} (h1 : a.SameSetup b) (h2 : b.SameSetup c) :
    a.SameSetup c := by
  unfold FebexMWD.SameSetup at *
  obtain ⟨a1, a2, a3, a4, a5, a6, a7, a8, a9, a10, a11⟩ := h1
  obtain ⟨b1, b2, b3, b4, b5, b6, b7, b8, b9, b10, b11⟩ := h2
  exact ⟨a1.trans b1, a2.trans b2, a3.trans b3, a4.trans b4, a5.trans b5, a6.trans b6,
    a7.trans b7, a8.trans b8, a9.trans b9, a10.trans b10, a11.trans b11⟩

theorem filterStep_setup (m : FebexMWD) (i : Nat) : (FebexMWD.filterStep m i).SameSetup m :=
  SameSetup_trans (avgStep_setup _ i) (SameSetup_trans (mwdStep_setup _ i) (cfdStep_setup m i))

theorem foldl_filterStep_setup (l : List Nat) :
    ∀ m : FebexMWD, (l.foldl FebexMWD.filterStep m).SameSetup m := by
  induction l with
  | nil => intro m; exact ⟨rfl, rfl, rfl, rfl, rfl, rfl, rfl, rfl, rfl, rfl, rfl⟩
  | cons x xs ih =>
    intro m
    rw [List.foldl_cons]
    exact SameSetup_trans (ih _) (filterStep_setup m x)

/-- The filter loop changes neither the parameters, nor the trace, nor the result lists. -/
theorem filter_setup (m : FebexMWD) : (FebexMWD.filter m).SameSetup m :=
  foldl_filterStep_setup _ m

theorem resizeAll_setup (m : FebexMWD) : (FebexMWD.resizeAll m).SameSetup m :=
  ⟨rfl, rfl, rfl, rfl, rfl, rfl, rfl, rfl, rfl, rfl, rfl⟩

/-! ## The pulse processor on an all-zero trace -/

theorem getD_of_all_zero {β : Type} [Zero β] (l : List β) (h : ∀ x ∈ l, x = 0) (i : Nat) :
    l.getD i 0 = 0 := by
  by_cases hi : i < l.length
  · rw [List.getD_eq_getElem?_getD, List.getElem?_eq_getElem hi]
    exact h _ (List.getElem_mem hi)
  · rw [List.getD_eq_getElem?_getD, List.getElem?_eq_none (Nat.le_of_not_lt hi)]
    rfl

theorem set_all_zero {β : Type} [Zero β] (l : List β) (h : ∀ x ∈ l, x = 0) (i : Nat) (v : β)
    (hv : v = 0) : ∀ x ∈ l.set i v, x = 0 := by
  intro x hx
  rcases List.mem_or_eq_of_mem_set hx with hx | hx
  · exact h x hx
  · rw [hx, hv]

theorem cfdStep_allZero (m : FebexMWD) (i : Nat) (h : m.AllZero) :
    (FebexMWD.cfdStep m i).AllZero := by
  obtain ⟨ht, hs, hc, hl⟩ := h
  unfold FebexMWD.cfdStep
  split
  · have e1 : (((m.trace.getD i 0 : Int) - (m.trace.getD (i - m.delay_time) 0 : Int) : Int) : ℚ)
        = 0 := by
      rw [getD_of_all_zero m.trace ht i, getD_of_all_zero m.trace ht (i - m.delay_time)]
      simp
    have hs2 := set_all_zero m.shaper hs i _ e1
    refine ⟨ht, hs2, ?_, ?_⟩
    · apply set_all_zero m.cfd hc
      rw [getD_of_all_zero _ hs2 i, getD_of_all_zero _ hs2 (i - m.delay_time)]
      simp
    · show (m.cfd.set i _).length = m.trace.length
      rw [List.length_set]
      exact hl
  · exact ⟨ht, hs, hc, hl⟩

theorem mwdStep_allZero (m : FebexMWD) (i : Nat) (h : m.AllZero) :
    (FebexMWD.mwdStep m i).AllZero := by
  unfold FebexMWD.mwdStep
  split
  · exact h
  · exact h

theorem avgStep_allZero (m : FebexMWD) (i : Nat) (h : m.AllZero) :
    (FebexMWD.avgStep m i).AllZero := by
  unfold FebexMWD.avgStep
  split
  · exact h
  · exact h

theorem foldl_filterStep_allZero (l : List Nat) :
    ∀ m : FebexMWD, m.AllZero → (l.foldl FebexMWD.filterStep m).AllZero := by
  induction l with
  | nil => intro m h; exact h
  | cons x xs ih =>
    intro m h
    rw [List.foldl_cons]
    exact ih _ (avgStep_allZero _ x (mwdStep_allZero _ x (cfdStep_allZero m x h)))

theorem resize_nil_all_zero (n : Nat) : ∀ x ∈ resize [] n 0, x = 0 := by
  intro x hx
  unfold resize at hx
  simp only [List.take_nil, List.nil_append, List.mem_replicate] at hx
  exact hx.2

theorem resize_length (v : List ℚ) (n : Nat) (x : ℚ) : (resize v n x).length = n := by
  unfold resize
  rw [List.length_append, List.length_take, List.length_replicate]
  omega

/-- A scan over a cfd buffer on which the trigger condition holds nowhere inside the
trace leaves the result lists as they are. -/
theorem scan_no_trigger (m : FebexMWD) (o : Overread) (len : Nat)
    (h : ∀ i, i < len → ¬ m.triggers o i) :
    ∀ (fuel i : Nat) (lists : List ℚ × List ℚ), FebexMWD.scan m o len fuel i lists = lists := by
  intro fuel
  induction fuel with
  | zero => intro i lists; rfl
  | succ f ih =>
    intro i lists
    by_cases hi : i < len
    · simp only [FebexMWD.scan, if_pos hi, if_neg (h i hi)]
      exact ih (i + 1) lists
    · simp only [FebexMWD.scan, if_neg hi]

/-- With an all-zero cfd buffer the trigger condition holds nowhere inside the trace,
whatever the threshold. -/
theorem allZero_no_trigger (m : FebexMWD) (o : Overread) (h : m.AllZero) :
    ∀ i, i < m.trace.length → ¬ m.triggers o i := by
  intro i hi
  obtain ⟨_, _, hc, hl⟩ := h
  have hi2 : i < m.cfd.length := by rw [hl]; exact hi
  have hz : m.cfdAt o i = 0 := by
    unfold FebexMWD.cfdAt
    rw [List.getD_eq_getElem?_getD, List.getElem?_eq_getElem hi2]
    exact hc _ (List.getElem_mem hi2)
  unfold FebexMWD.triggers
  rw [hz]
  rintro ⟨_, h1 | h1⟩
  · have h2 : (0 : ℚ) < (m.threshold : ℚ) := by exact_mod_cast h1.2
    exact absurd h1.1 (not_lt.mpr (le_of_lt h2))
  · have h2 : (m.threshold : ℚ) < 0 := by exact_mod_cast h1.2
    exact absurd h1.1 (not_lt.mpr (le_of_lt h2))

/-! ## Running the pulse processor from the store -/

/-- C9. For a valid channel address, `MiniballCalibration::DoMWD(address, trace)` yields
exactly the pulse records (cfd times and amplitudes) that `FebexMWD::DoMWD` yields on that
trace when configured with riseTime, decayTime, flatTop, baselineLength, window, cfdDelay,
threshold and fraction equal to what `GetMWDRise`, `GetMWDDecay`, `GetMWDTop`,
`GetMWDBaseline`, `GetMWDWindow`, `GetCFDDelay`, `GetCFDThreshold` and `GetCFDFraction`
return for that address; for an out-of-range address it yields no pulse records. -/
theorem DoMWD_uses_channel_parameters (c : MiniballCalibration) (o : Overread)
    (sfp board ch : Nat) (trace : List Nat) :
    (c.valid sfp board ch →
      (c.DoMWD o sfp board ch trace).cfd_list = (specDoMWD c o sfp board ch trace).cfd_list ∧
      (c.DoMWD o sfp board ch trace).energy_list
        = (specDoMWD c o sfp board ch trace).energy_list) ∧
    (¬ c.valid sfp board ch →
      (c.DoMWD o sfp board ch trace).cfd_list = [] ∧
      (c.DoMWD o sfp board ch trace).energy_list = []) := by
  refine ⟨fun hv => ?_, fun hv => ?_⟩
  · have h : c.DoMWD o sfp board ch trace = specDoMWD c o sfp board ch trace := by
      simp only [MiniballCalibration.DoMWD, specDoMWD, MiniballCalibration.GetMWDRise,
        MiniballCalibration.GetMWDDecay, MiniballCalibration.GetMWDTop,
        MiniballCalibration.GetMWDBaseline, MiniballCalibration.GetMWDWindow,
        MiniballCalibration.GetCFDDelay, MiniballCalibration.GetCFDThreshold,
        MiniballCalibration.GetCFDFraction, if_pos hv]
      rfl
    rw [h]
    exact ⟨rfl, rfl⟩
  · simp only [MiniballCalibration.DoMWD, if_neg hv]
    exact ⟨rfl, rfl⟩

/-- C9, at concrete inputs: the valid address (0,0,0) and the out-of-range address
(1,0,0) of the default store, on a trace of eight samples. -/
theorem DoMWD_uses_channel_parameters_witness :
    defaultStore.valid 0 0 0 ∧ ¬ defaultStore.valid 1 0 0 ∧
    (defaultStore.DoMWD zeroOverread 0 0 0 [5, 5, 5, 5, 5, 5, 9, 9]).energy_list
      = (specDoMWD defaultStore zeroOverread 0 0 0
          [5, 5, 5, 5, 5, 5, 9, 9]).energy_list ∧
    (defaultStore.DoMWD zeroOverread 1 0 0 [5, 5, 5, 5, 5, 5, 9, 9]).cfd_list = [] :=
  ⟨defaultStore_valid, defaultStore_invalid,
    ((DoMWD_uses_channel_parameters defaultStore zeroOverread 0 0 0
      [5, 5, 5, 5, 5, 5, 9, 9]).1 defaultStore_valid).2,
    ((DoMWD_uses_channel_parameters defaultStore zeroOverread 1 0 0
      [5, 5, 5, 5, 5, 5, 9, 9]).2 defaultStore_invalid).1⟩

/-- C10. For a trace of any length whose samples are all zero, and for every parameter
set (with a nonzero threshold, and with a zero one as well), `FebexMWD::DoMWD` run on a
freshly configured processor produces no pulse records: both the cfd-time list and the
amplitude list stay empty, whatever lies behind the end of the buffers. -/
theorem DoMWD_zero_trace (o : Overread) (n riseTime decayTime flatTop baselineLength window
    cfdDelay : Nat) (threshold : Int) (fraction : ℚ) :
    (FebexMWD.DoMWD o (FebexMWD.configured (List.replicate n 0) riseTime decayTime flatTop
      baselineLength window cfdDelay threshold fraction)).cfd_list = [] ∧
    (FebexMWD.DoMWD o (FebexMWD.configured (List.replicate n 0) riseTime decayTime flatTop
      baselineLength window cfdDelay threshold fraction)).energy_list = [] := by
  let m0 := FebexMWD.configured (List.replicate n 0) riseTime decayTime flatTop
      baselineLength window cfdDelay threshold fraction
  have hz0 : (FebexMWD.resizeAll m0).AllZero := by
    refine ⟨?_, ?_, ?_, ?_⟩
    · intro x hx
      exact (List.mem_replicate.mp hx).2
    · exact resize_nil_all_zero _
    · exact resize_nil_all_zero _
    · exact resize_length _ _ _
  have hz : (FebexMWD.filter (FebexMWD.resizeAll m0)).AllZero :=
    foldl_filterStep_allZero _ _ hz0
  have hs : (FebexMWD.filter (FebexMWD.resizeAll m0)).SameSetup m0 :=
    SameSetup_trans (filter_setup _) (resizeAll_setup m0)
  have hscan := scan_no_trigger (FebexMWD.filter (FebexMWD.resizeAll m0)) o
    (FebexMWD.filter (FebexMWD.resizeAll m0)).trace.length (allZero_no_trigger _ o hz)
    ((FebexMWD.filter (FebexMWD.resizeAll m0)).trace.length - FebexMWD.skip) FebexMWD.skip
    ((FebexMWD.filter (FebexMWD.resizeAll m0)).cfd_list,
      (FebexMWD.filter (FebexMWD.resizeAll m0)).energy_list)
  have hc : (FebexMWD.filter (FebexMWD.resizeAll m0)).cfd_list = [] := hs.2.2.2.2.2.2.2.2.2.2
  have he : (FebexMWD.filter (FebexMWD.resizeAll m0)).energy_list = [] :=
    hs.2.2.2.2.2.2.2.2.2.1
  show (FebexMWD.DoMWD o m0).cfd_list = [] ∧ (FebexMWD.DoMWD o m0).energy_list = []
  unfold FebexMWD.DoMWD
  rw [hc, he] at hscan
  simp only [hc, he, hscan, and_self]

/-- The scan does trigger where the cfd buffer passes the threshold: on the step of
height 10 at sample 8 the processor emits one pulse record, at crossing index 8, with the
amplitude `stage4[10] - stage4[6] = 10`. -/
theorem DoMWD_step_example :
    (FebexMWD.DoMWD zeroOverread stepMWD).cfd = [0, 0, 0, 0, 0, 0, 0, 0, 5, -10, 0, 0, 0, 0] ∧
    (FebexMWD.DoMWD zeroOverread stepMWD).cfd_list = [8] ∧
    (FebexMWD.DoMWD zeroOverread stepMWD).energy_list = [10] := by
  with_unfolding_all decide

/-! ## The filter loop in closed form -/

theorem filterStep_shaper (m : FebexMWD) (i : Nat) :
    (FebexMWD.filterStep m i).shaper =
      if i > m.delay_time + 5 then
        m.shaper.set i
          (((m.trace.getD i 0 : Int) - (m.trace.getD (i - m.delay_time) 0 : Int) : Int) : ℚ)
      else m.shaper := by
  simp only [FebexMWD.filterStep, FebexMWD.avgStep, FebexMWD.mwdStep, FebexMWD.cfdStep,
    FebexMWD.skip]
  split_ifs <;> rfl

theorem filterStep_cfd (m : FebexMWD) (i : Nat) :
    (FebexMWD.filterStep m i).cfd =
      if i > m.delay_time + 5 then
        m.cfd.set i (m.fraction * (FebexMWD.filterStep m i).shaper.getD i 0
          - (FebexMWD.filterStep m i).shaper.getD (i - m.delay_time) 0)
      else m.cfd := by
  simp only [FebexMWD.filterStep, FebexMWD.avgStep, FebexMWD.mwdStep, FebexMWD.cfdStep,
    FebexMWD.skip]
  split_ifs <;> rfl

theorem foldl_add_eq_sum {β : Type} (f : β → ℚ) (l : List β) :
    ∀ a : ℚ, l.foldl (fun acc j => acc + f j) a = a + (l.map f).sum := by
  induction l with
  | nil => intro a; simp
  | cons x xs ih =>
    intro a
    rw [List.foldl_cons, ih, List.map_cons, List.sum_cons]
    ring

theorem filterStep_stage1 (m : FebexMWD) (i : Nat) :
    (FebexMWD.filterStep m i).stage1 =
      if i ≥ m.rise_time + 5 then m.stage1.set i (m.sample i - m.sample (i - m.rise_time))
      else m.stage1 := by
  simp only [FebexMWD.filterStep, FebexMWD.avgStep, FebexMWD.mwdStep, FebexMWD.cfdStep,
    FebexMWD.skip, FebexMWD.sample]
  split_ifs <;> rfl

theorem filterStep_stage2 (m : FebexMWD) (i : Nat) :
    (FebexMWD.filterStep m i).stage2 =
      if i ≥ m.rise_time + 5 then
        m.stage2.set i
          (((List.range m.rise_time).map fun j => m.sample (i - j)).sum / (m.decay_time : ℚ))
      else m.stage2 := by
  have h : ∀ tr : List Nat, (List.range m.rise_time).foldl
      (fun acc j => acc + ((tr.getD (i - j) 0 : Int) : ℚ)) 0
      = ((List.range m.rise_time).map fun j => ((tr.getD (i - j) 0 : Int) : ℚ)).sum := by
    intro tr
    rw [foldl_add_eq_sum (fun j => ((tr.getD (i - j) 0 : Int) : ℚ))]
    ring
  simp only [FebexMWD.filterStep, FebexMWD.avgStep, FebexMWD.mwdStep, FebexMWD.cfdStep,
    FebexMWD.skip, FebexMWD.sample]
  split_ifs <;> first | rfl | (simp only [h])

theorem filterStep_stage3 (m : FebexMWD) (i : Nat) :
    (FebexMWD.filterStep m i).stage3 =
      if i ≥ m.rise_time + 5 then
        m.stage3.set i ((m.sample i - m.sample (i - m.rise_time))
          + ((List.range m.rise_time).map fun j => m.sample (i - j)).sum / (m.decay_time : ℚ))
      else m.stage3 := by
  have h : ∀ tr : List Nat, (List.range m.rise_time).foldl
      (fun acc j => acc + ((tr.getD (i - j) 0 : Int) : ℚ)) 0
      = ((List.range m.rise_time).map fun j => ((tr.getD (i - j) 0 : Int) : ℚ)).sum := by
    intro tr
    rw [foldl_add_eq_sum (fun j => ((tr.getD (i - j) 0 : Int) : ℚ))]
    ring
  simp only [FebexMWD.filterStep, FebexMWD.avgStep, FebexMWD.mwdStep, FebexMWD.cfdStep,
    FebexMWD.skip, FebexMWD.sample]
  split_ifs <;> first | rfl | (simp only [h])

theorem filterStep_stage4 (m : FebexMWD) (i : Nat) :
    (FebexMWD.filterStep m i).stage4 =
      if i ≥ m.window + 5 then
        m.stage4.set i ((m.stage4.getD i 0
          + ((List.range m.window).map
              fun j => (FebexMWD.filterStep m i).stage3.getD (i - j) 0).sum)
          / (m.window : ℚ))
      else m.stage4 := by
  have h : ∀ (s3 : List ℚ) (a : ℚ), (List.range m.window).foldl
      (fun acc j => acc + s3.getD (i - j) 0) a
      = a + ((List.range m.window).map fun j => s3.getD (i - j) 0).sum := by
    intro s3 a
    rw [foldl_add_eq_sum (fun j => s3.getD (i - j) 0)]
  simp only [FebexMWD.filterStep, FebexMWD.avgStep, FebexMWD.mwdStep, FebexMWD.cfdStep,
    FebexMWD.skip, FebexMWD.sample]
  split_ifs <;> first | rfl | (simp only [h])

theorem buffer_step (F : Nat → ℚ) (b : List ℚ) (n : Nat) (c : Prop) [Decidable c] (v : ℚ)
    (hlen : 5 + n < b.length) (hI : ∀ j, b.getD j 0 = if j < 5 + n then F j else 0)
    (hv : c → v = F (5 + n)) (hz : ¬ c → F (5 + n) = 0) :
    ∀ j, (if c then b.set (5 + n) v else b).getD j 0 = if j < 5 + (n + 1) then F j else 0 := by
  intro j
  by_cases hj : j = 5 + n
  · subst hj
    have h1 : 5 + n < 5 + (n + 1) := by omega
    rw [if_pos h1]
    by_cases hc : c
    · rw [if_pos hc, getD_set_self _ _ _ _ hlen, hv hc]
    · rw [if_neg hc, hI, if_neg (Nat.lt_irrefl _), hz hc]
  · have h2 : (if c then b.set (5 + n) v else b).getD j 0 = b.getD j 0 := by
      by_cases hc : c
      · rw [if_pos hc, getD_set_other _ _ _ _ _ (fun e => hj e.symm)]
      · rw [if_neg hc]
    rw [h2, hI]
    by_cases h3 : j < 5 + n
    · rw [if_pos h3, if_pos (by omega)]
    · rw [if_neg h3, if_neg (by omega)]

theorem buffer_step_length (b : List ℚ) (i : Nat) (c : Prop) [Decidable c] (v : ℚ) :
    (if c then b.set i v else b).length = b.length := by
  by_cases hc : c
  · rw [if_pos hc, List.length_set]
  · rw [if_neg hc]

theorem spec_eq_of_setup {a b : FebexMWD} (h : a.SameSetup b) :
    a.sample = b.sample ∧ a.specShaped = b.specShaped ∧ a.specCfd = b.specCfd ∧
    a.specStage1 = b.specStage1 ∧ a.specStage2 = b.specStage2 ∧
    a.specStage3 = b.specStage3 ∧ a.specStage4 = b.specStage4 := by
  obtain ⟨h1, h2, h3, _, _, h6, h7, _, h9, _, _⟩ := h
  have e0 : a.sample = b.sample := by funext i; simp only [FebexMWD.sample, h1]
  have e1 : a.specShaped = b.specShaped := by
    funext i; simp only [FebexMWD.specShaped, h1, h7]
  have e2 : a.specCfd = b.specCfd := by
    funext i; simp only [FebexMWD.specCfd, e1, h7, h9]
  have e3 : a.specStage1 = b.specStage1 := by
    funext i; simp only [FebexMWD.specStage1, e0, h2]
  have e4 : a.specStage2 = b.specStage2 := by
    funext i; simp only [FebexMWD.specStage2, e0, h2, h3]
  have e5 : a.specStage3 = b.specStage3 := by
    funext i; simp only [FebexMWD.specStage3, e3, e4]
  have e6 : a.specStage4 = b.specStage4 := by
    funext i; simp only [FebexMWD.specStage4, e5, h6]
  exact ⟨e0, e1, e2, e3, e4, e5, e6⟩

/-- One iteration of the filter loop extends the closed form by one index. -/
theorem filterStep_inv (m0 m : FebexMWD) (n : Nat) (h : FebexMWD.FilterInv m0 m n)
    (hn : 5 + n < m0.trace.length) :
    FebexMWD.FilterInv m0 (FebexMWD.filterStep m (5 + n)) (n + 1) := by
  obtain ⟨hs, ⟨l1, l2, l3, l4, l5, l6⟩, hI⟩ := h
  obtain ⟨e0, _, _, _, _, _, _⟩ := spec_eq_of_setup hs
  have hd : m.delay_time = m0.delay_time := hs.2.2.2.2.2.2.1
  have hr : m.rise_time = m0.rise_time := hs.2.1
  have hdec : m.decay_time = m0.decay_time := hs.2.2.1
  have hw : m.window = m0.window := hs.2.2.2.2.2.1
  have hf : m.fraction = m0.fraction := hs.2.2.2.2.2.2.2.2.1
  have htr : m.trace = m0.trace := hs.1
  -- shaper
  have ish : ∀ j, (FebexMWD.filterStep m (5 + n)).shaper.getD j 0
      = if j < 5 + (n + 1) then m0.specShaped j else 0 := by
    rw [filterStep_shaper]
    apply buffer_step m0.specShaped m.shaper n _ _ (by rw [l1]; exact hn) (fun j => (hI j).1)
    · intro hc
      rw [hd] at hc
      simp only [FebexMWD.specShaped, if_pos hc, htr, hd]
    · intro hc
      rw [hd] at hc
      simp only [FebexMWD.specShaped, if_neg hc]
  -- cfd
  have icf : ∀ j, (FebexMWD.filterStep m (5 + n)).cfd.getD j 0
      = if j < 5 + (n + 1) then m0.specCfd j else 0 := by
    rw [filterStep_cfd]
    apply buffer_step m0.specCfd m.cfd n _ _ (by rw [l2]; exact hn) (fun j => (hI j).2.1)
    · intro hc
      rw [hd] at hc
      rw [ish, ish, if_pos (by omega), if_pos (by omega)]
      simp only [FebexMWD.specCfd, if_pos hc, hf, hd]
    · intro hc
      rw [hd] at hc
      simp only [FebexMWD.specCfd, if_neg hc]
  -- stage 1
  have is1 : ∀ j, (FebexMWD.filterStep m (5 + n)).stage1.getD j 0
      = if j < 5 + (n + 1) then m0.specStage1 j else 0 := by
    rw [filterStep_stage1]
    apply buffer_step m0.specStage1 m.stage1 n _ _ (by rw [l3]; exact hn)
      (fun j => (hI j).2.2.1)
    · intro hc
      rw [hr] at hc
      simp only [FebexMWD.specStage1, if_pos hc, e0, hr]
    · intro hc
      rw [hr] at hc
      simp only [FebexMWD.specStage1, if_neg hc]
  -- stage 2
  have is2 : ∀ j, (FebexMWD.filterStep m (5 + n)).stage2.getD j 0
      = if j < 5 + (n + 1) then m0.specStage2 j else 0 := by
    rw [filterStep_stage2]
    apply buffer_step m0.specStage2 m.stage2 n _ _ (by rw [l4]; exact hn)
      (fun j => (hI j).2.2.2.1)
    · intro hc
      rw [hr] at hc
      simp only [FebexMWD.specStage2, if_pos hc, e0, hr, hdec]
    · intro hc
      rw [hr] at hc
      simp only [FebexMWD.specStage2, if_neg hc]
  -- stage 3
  have is3 : ∀ j, (FebexMWD.filterStep m (5 + n)).stage3.getD j 0
      = if j < 5 + (n + 1) then m0.specStage3 j else 0 := by
    rw [filterStep_stage3]
    apply buffer_step m0.specStage3 m.stage3 n _ _ (by rw [l5]; exact hn)
      (fun j => (hI j).2.2.2.2.1)
    · intro hc
      rw [hr] at hc
      simp only [FebexMWD.specStage3, FebexMWD.specStage1, FebexMWD.specStage2, if_pos hc, e0,
        hr, hdec]
    · intro hc
      rw [hr] at hc
      simp only [FebexMWD.specStage3, FebexMWD.specStage1, FebexMWD.specStage2, if_neg hc,
        add_zero]
  -- stage 4
  have is4 : ∀ j, (FebexMWD.filterStep m (5 + n)).stage4.getD j 0
      = if j < 5 + (n + 1) then m0.specStage4 j else 0 := by
    rw [filterStep_stage4]
    apply buffer_step m0.specStage4 m.stage4 n _ _ (by rw [l6]; exact hn)
      (fun j => (hI j).2.2.2.2.2)
    · intro hc
      rw [hw] at hc
      have h0 : m.stage4.getD (5 + n) 0 = 0 := by
        rw [(hI (5 + n)).2.2.2.2.2, if_neg (Nat.lt_irrefl _)]
      have hfun : (fun j => (FebexMWD.filterStep m (5 + n)).stage3.getD (5 + n - j) 0)
          = fun j => m0.specStage3 (5 + n - j) := by
        funext j
        rw [is3, if_pos (by omega)]
      rw [h0, hfun, zero_add]
      simp only [FebexMWD.specStage4, if_pos hc, hw]
    · intro hc
      rw [hw] at hc
      simp only [FebexMWD.specStage4, if_neg hc]
  refine ⟨SameSetup_trans (filterStep_setup m _) hs, ⟨?_, ?_, ?_, ?_, ?_, ?_⟩, ?_⟩
  · rw [filterStep_shaper, buffer_step_length, l1]
  · rw [filterStep_cfd, buffer_step_length, l2]
  · rw [filterStep_stage1, buffer_step_length, l3]
  · rw [filterStep_stage2, buffer_step_length, l4]
  · rw [filterStep_stage3, buffer_step_length, l5]
  · rw [filterStep_stage4, buffer_step_length, l6]
  · intro j
    exact ⟨ish j, icf j, is1 j, is2 j, is3 j, is4 j⟩

theorem spec_zero_below_skip (m : FebexMWD) (j : Nat) (hj : j < 5) :
    m.specShaped j = 0 ∧ m.specCfd j = 0 ∧ m.specStage1 j = 0 ∧ m.specStage2 j = 0 ∧
    m.specStage3 j = 0 ∧ m.specStage4 j = 0 := by
  have h1 : ¬ j > m.delay_time + 5 := by omega
  have h2 : ¬ j ≥ m.rise_time + 5 := by omega
  have h3 : ¬ j ≥ m.window + 5 := by omega
  simp only [FebexMWD.specShaped, FebexMWD.specCfd, FebexMWD.specStage1, FebexMWD.specStage2,
    FebexMWD.specStage3, FebexMWD.specStage4, if_neg h1, if_neg h2, if_neg h3, add_zero,
    and_self]

/-- After the six `resize` calls on a fresh processor the closed form holds for zero
iterations. -/
theorem resizeAll_inv (m : FebexMWD) (hf : m.Fresh) :
    FebexMWD.FilterInv m (FebexMWD.resizeAll m) 0 := by
  obtain ⟨f1, f2, f3, f4, f5, f6, _, _⟩ := hf
  have hz : ∀ j, (resize [] m.trace.length 0).getD j 0 = 0 :=
    fun j => getD_of_all_zero _ (resize_nil_all_zero _) j
  refine ⟨resizeAll_setup m, ?_, ?_⟩
  · simp only [FebexMWD.resizeAll, f1, f2, f3, f4, f5, f6, resize_length, and_self]
  · intro j
    simp only [FebexMWD.resizeAll, f1, f2, f3, f4, f5, f6, hz]
    by_cases hj : j < 5 + 0
    · obtain ⟨z1, z2, z3, z4, z5, z6⟩ := spec_zero_below_skip m j hj
      simp only [if_pos hj, z1, z2, z3, z4, z5, z6, and_self]
    · simp only [if_neg hj, and_self]

theorem foldl_filterStep_inv (m0 : FebexMWD) :
    ∀ (n : Nat) (m : FebexMWD), FebexMWD.FilterInv m0 m 0 →
      (5 + n ≤ m0.trace.length ∨ n = 0) →
      FebexMWD.FilterInv m0 ((List.range' 5 n).foldl FebexMWD.filterStep m) n := by
  intro n
  induction n with
  | zero => intro m h _; exact h
  | succ k ih =>
    intro m h hk
    have hk2 : 5 + (k + 1) ≤ m0.trace.length := by
      rcases hk with hk | hk
      · exact hk
      · omega
    rw [List.range'_1_concat, List.foldl_append, List.foldl_cons, List.foldl_nil]
    exact filterStep_inv m0 _ k (ih m h (Or.inl (by omega))) (by omega)

/-- The filter loop of `DoMWD` on a fresh processor, in closed form: it keeps the setup,
every buffer has the length of the trace, and inside the trace every buffer holds its
closed form. -/
theorem filter_closed_form (m : FebexMWD) (hf : m.Fresh) :
    (FebexMWD.filter (FebexMWD.resizeAll m)).SameSetup m ∧
    ((FebexMWD.filter (FebexMWD.resizeAll m)).shaper.length = m.trace.length ∧
     (FebexMWD.filter (FebexMWD.resizeAll m)).cfd.length = m.trace.length ∧
     (FebexMWD.filter (FebexMWD.resizeAll m)).stage1.length = m.trace.length ∧
     (FebexMWD.filter (FebexMWD.resizeAll m)).stage2.length = m.trace.length ∧
     (FebexMWD.filter (FebexMWD.resizeAll m)).stage3.length = m.trace.length ∧
     (FebexMWD.filter (FebexMWD.resizeAll m)).stage4.length = m.trace.length) ∧
    ∀ j : Nat, j < m.trace.length →
      (FebexMWD.filter (FebexMWD.resizeAll m)).shaper.getD j 0 = m.specShaped j ∧
      (FebexMWD.filter (FebexMWD.resizeAll m)).cfd.getD j 0 = m.specCfd j ∧
      (FebexMWD.filter (FebexMWD.resizeAll m)).stage1.getD j 0 = m.specStage1 j ∧
      (FebexMWD.filter (FebexMWD.resizeAll m)).stage2.getD j 0 = m.specStage2 j ∧
      (FebexMWD.filter (FebexMWD.resizeAll m)).stage3.getD j 0 = m.specStage3 j ∧
      (FebexMWD.filter (FebexMWD.resizeAll m)).stage4.getD j 0 = m.specStage4 j := by
  have hcond : 5 + (m.trace.length - 5) ≤ m.trace.length ∨ m.trace.length - 5 = 0 := by omega
  have h := foldl_filterStep_inv m (m.trace.length - 5) (FebexMWD.resizeAll m)
    (resizeAll_inv m hf) hcond
  have he : (List.range' 5 (m.trace.length - 5)).foldl FebexMWD.filterStep (FebexMWD.resizeAll m)
      = FebexMWD.filter (FebexMWD.resizeAll m) := rfl
  rw [he] at h
  obtain ⟨hs, hl, hI⟩ := h
  refine ⟨hs, hl, ?_⟩
  intro j hj
  obtain ⟨i1, i2, i3, i4, i5, i6⟩ := hI j
  by_cases h5 : j < 5 + (m.trace.length - 5)
  · rw [if_pos h5] at i1 i2 i3 i4 i5 i6
    exact ⟨i1, i2, i3, i4, i5, i6⟩
  · have hj5 : j < 5 := by omega
    obtain ⟨z1, z2, z3, z4, z5, z6⟩ := spec_zero_below_skip m j hj5
    rw [if_neg h5] at i1 i2 i3 i4 i5 i6
    rw [z1, z2, z3, z4, z5, z6]
    exact ⟨i1, i2, i3, i4, i5, i6⟩

theorem getElem?_of_getD (l : List ℚ) (i : Nat) (v : ℚ) (hi : i < l.length)
    (h : l.getD i 0 = v) : l[i]? = some v := by
  rw [List.getD_eq_getElem?_getD, List.getElem?_eq_getElem hi] at h
  rw [List.getElem?_eq_getElem hi]
  exact congrArg some h

theorem configured_fresh (trace : List Nat) (riseTime decayTime flatTop baselineLength window
    cfdDelay : Nat) (threshold : Int) (fraction : ℚ) :
    (FebexMWD.configured trace riseTime decayTime flatTop baselineLength window cfdDelay
      threshold fraction).Fresh :=
  ⟨rfl, rfl, rfl, rfl, rfl, rfl, rfl, rfl⟩

/-! ## The trigger scan and its pulses -/

/-- The scan appends, for every pulse in order, its crossing time to the first list and
its amplitude to the second. -/
theorem scan_eq_scanPulses (m : FebexMWD) (o : Overread) (len : Nat) :
    ∀ (fuel i : Nat) (lists : List ℚ × List ℚ),
      FebexMWD.scan m o len fuel i lists =
        (lists.1 ++ (FebexMWD.scanPulses m o len fuel i).map (fun p => m.cfdTime o p.crossing),
         lists.2 ++ (FebexMWD.scanPulses m o len fuel i).map
            (fun p => m.stage4At o p.readout - p.baseline)) := by
  intro fuel
  induction fuel with
  | zero => intro i lists; simp [FebexMWD.scan, FebexMWD.scanPulses]
  | succ f ih =>
    intro i lists
    simp only [FebexMWD.scan, FebexMWD.scanPulses]
    split
    · split
      · split
        · exact ih _ lists
        · split
          · exact ih _ lists
          · split
            · simp
            · rw [ih]
              simp
      · exact ih _ lists
    · simp

theorem scanPulses_fuel (m : FebexMWD) (o : Overread) (len : Nat) :
    ∀ (f1 f2 i : Nat), len - i ≤ f1 → len - i ≤ f2 →
      FebexMWD.scanPulses m o len f1 i = FebexMWD.scanPulses m o len f2 i := by
  intro f1
  induction f1 with
  | zero =>
    intro f2 i h1 _
    cases f2 with
    | zero => rfl
    | succ g =>
      have hi : ¬ i < len := by omega
      simp only [FebexMWD.scanPulses, if_neg hi]
  | succ f ih =>
    intro f2 i h1 h2
    cases f2 with
    | zero =>
      have hi : ¬ i < len := by omega
      simp only [FebexMWD.scanPulses, if_neg hi]
    | succ g =>
      have hz := zeroCrossing_ge m o len (len - i) i
      simp only [FebexMWD.scanPulses]
      split
      · split
        · split
          · exact ih g _ (by omega) (by omega)
          · split
            · exact ih g _ (by omega) (by omega)
            · split
              · rfl
              · rw [ih g _ (by omega) (by omega)]
        · exact ih g _ (by omega) (by omega)
      · rfl

/-- The result lists of `DoMWD` are the lists before the call followed by the crossing
times, respectively the amplitudes, of the emitted pulses. -/
theorem DoMWD_lists (o : Overread) (m : FebexMWD) :
    (FebexMWD.DoMWD o m).cfd_list = m.cfd_list ++ (FebexMWD.pulses o m).map
      (fun p => (FebexMWD.filter (FebexMWD.resizeAll m)).cfdTime o p.crossing) ∧
    (FebexMWD.DoMWD o m).energy_list = m.energy_list ++ (FebexMWD.pulses o m).map
      (fun p => (FebexMWD.filter (FebexMWD.resizeAll m)).stage4At o p.readout - p.baseline) := by
  have hs := SameSetup_trans (filter_setup (FebexMWD.resizeAll m)) (resizeAll_setup m)
  have hc : (FebexMWD.filter (FebexMWD.resizeAll m)).cfd_list = m.cfd_list :=
    hs.2.2.2.2.2.2.2.2.2.2
  have he : (FebexMWD.filter (FebexMWD.resizeAll m)).energy_list = m.energy_list :=
    hs.2.2.2.2.2.2.2.2.2.1
  unfold FebexMWD.DoMWD FebexMWD.pulses FebexMWD.pulsesFrom
  simp only [scan_eq_scanPulses, hc, he, and_self]

/-- The scan started at or behind the end of the trace emits nothing. -/
theorem pulsesFrom_end (m : FebexMWD) (o : Overread) (i : Nat) (hi : m.trace.length ≤ i) :
    m.pulsesFrom o i = [] := by
  unfold FebexMWD.pulsesFrom
  have h0 : m.trace.length - i = 0 := by omega
  rw [h0]
  rfl

/-- One iteration of the scan at an index without trigger. -/
theorem pulsesFrom_no_trigger (m : FebexMWD) (o : Overread) (i : Nat)
    (ht : ¬ m.triggers o i) : m.pulsesFrom o i = m.pulsesFrom o (i + 1) := by
  by_cases hi : i < m.trace.length
  · unfold FebexMWD.pulsesFrom
    obtain ⟨f, hf⟩ : ∃ f, m.trace.length - i = f + 1 := ⟨m.trace.length - i - 1, by omega⟩
    rw [hf]
    simp only [FebexMWD.scanPulses, if_pos hi, if_neg ht]
    exact scanPulses_fuel m o _ _ _ _ (by omega) (by omega)
  · rw [pulsesFrom_end m o i (by omega), pulsesFrom_end m o (i + 1) (by omega)]

/-- The scan passes over a stretch of indices without trigger. -/
theorem pulsesFrom_skip (m : FebexMWD) (o : Overread) :
    ∀ (n i : Nat), (∀ j, i ≤ j → j < i + n → ¬ m.triggers o j) →
      m.pulsesFrom o i = m.pulsesFrom o (i + n) := by
  intro n
  induction n with
  | zero => intro i _; rfl
  | succ k ih =>
    intro i h
    rw [pulsesFrom_no_trigger m o i (h i (Nat.le_refl i) (by omega))]
    rw [ih (i + 1) (fun j h1 h2 => h j (by omega) (by omega))]
    have e : i + 1 + k = i + (k + 1) := by omega
    rw [e]

/-- The scan emits nothing when no index from `i` on triggers. -/
theorem pulsesFrom_quiet (m : FebexMWD) (o : Overread) (i : Nat)
    (h : ∀ j, i ≤ j → j < m.trace.length → ¬ m.triggers o j) : m.pulsesFrom o i = [] := by
  rw [pulsesFrom_skip m o (m.trace.length - i) i (fun j h1 h2 => h j h1 (by omega))]
  exact pulsesFrom_end m o _ (by omega)

/-- The zero-crossing search stays where it is when its condition fails at once. -/
theorem zeroCrossing_stay (m : FebexMWD) (o : Overread) (len fuel i : Nat)
    (h : ¬ (m.cfdAt o i * m.cfdAt o (i - 1) > 0 ∧ i < len)) :
    FebexMWD.zeroCrossing m o len fuel i = i := by
  cases fuel with
  | zero => rfl
  | succ f => simp only [FebexMWD.zeroCrossing, if_neg h]

/-- One iteration of the scan at a triggering index whose crossing is accepted and has
enough trace left: a pulse is emitted and the scan resumes behind the dead time. -/
theorem pulsesFrom_emit (m : FebexMWD) (o : Overread) (i i1 : Nat)
    (hi : i < m.trace.length) (ht : m.triggers o i)
    (h1 : FebexMWD.zeroCrossing m o m.trace.length (m.trace.length - i) i = i1)
    (hn : ¬ (m.threshold < 0 ∧ m.cfdAt o (i1 - 1) > 0))
    (hp : ¬ (m.threshold > 0 ∧ m.cfdAt o (i1 - 1) < 0))
    (hl : ¬ m.trace.length - i1 < m.rise_time) :
    m.pulsesFrom o i =
      { trigger := i, crossing := i1, readout := i1 + (m.rise_time + m.delay_time),
        baseline := if i ≥ m.baseline_length then m.stage4At o (i - m.baseline_length)
          else m.stage4At o 0 }
      :: m.pulsesFrom o
          (i1 + (m.rise_time + m.delay_time) + (m.window + m.baseline_length) + 1) := by
  have hz := zeroCrossing_ge m o m.trace.length (m.trace.length - i) i
  rw [h1] at hz
  unfold FebexMWD.pulsesFrom
  obtain ⟨f, hf⟩ : ∃ f, m.trace.length - i = f + 1 := ⟨m.trace.length - i - 1, by omega⟩
  rw [hf]
  simp only [FebexMWD.scanPulses, if_pos hi, if_pos ht]
  rw [h1]
  simp only [if_neg hn, if_neg hp, if_neg hl]
  rw [scanPulses_fuel m o _ f
    (m.trace.length - (i1 + (m.rise_time + m.delay_time) + (m.window + m.baseline_length) + 1))
    _ (by omega) (by omega)]

/-- One iteration of the scan at a triggering index whose crossing is rejected for its
polarity: nothing is emitted and the scan resumes right behind the crossing. -/
theorem pulsesFrom_reject (m : FebexMWD) (o : Overread) (i i1 : Nat)
    (hi : i < m.trace.length) (ht : m.triggers o i)
    (h1 : FebexMWD.zeroCrossing m o m.trace.length (m.trace.length - i) i = i1)
    (hr : (m.threshold < 0 ∧ m.cfdAt o (i1 - 1) > 0) ∨
          (m.threshold > 0 ∧ m.cfdAt o (i1 - 1) < 0)) :
    m.pulsesFrom o i = m.pulsesFrom o (i1 + 1) := by
  have hz := zeroCrossing_ge m o m.trace.length (m.trace.length - i) i
  rw [h1] at hz
  unfold FebexMWD.pulsesFrom
  obtain ⟨f, hf⟩ : ∃ f, m.trace.length - i = f + 1 := ⟨m.trace.length - i - 1, by omega⟩
  rw [hf]
  simp only [FebexMWD.scanPulses, if_pos hi, if_pos ht]
  rw [h1]
  by_cases hn : m.threshold < 0 ∧ m.cfdAt o (i1 - 1) > 0
  · simp only [if_pos hn]
    exact scanPulses_fuel m o _ _ _ _ (by omega) (by omega)
  · have hp : m.threshold > 0 ∧ m.cfdAt o (i1 - 1) < 0 := by
      rcases hr with hr | hr
      · exact absurd hr hn
      · exact hr
    simp only [if_neg hn, if_pos hp]
    exact scanPulses_fuel m o _ _ _ _ (by omega) (by omega)

/-- One iteration of the scan at a triggering index with too little trace left behind the
crossing: the scan ends. -/
theorem pulsesFrom_break (m : FebexMWD) (o : Overread) (i i1 : Nat)
    (hi : i < m.trace.length) (ht : m.triggers o i)
    (h1 : FebexMWD.zeroCrossing m o m.trace.length (m.trace.length - i) i = i1)
    (hn : ¬ (m.threshold < 0 ∧ m.cfdAt o (i1 - 1) > 0))
    (hp : ¬ (m.threshold > 0 ∧ m.cfdAt o (i1 - 1) < 0))
    (hl : m.trace.length - i1 < m.rise_time) :
    m.pulsesFrom o i = [] := by
  unfold FebexMWD.pulsesFrom
  obtain ⟨f, hf⟩ : ∃ f, m.trace.length - i = f + 1 := ⟨m.trace.length - i - 1, by omega⟩
  rw [hf]
  simp only [FebexMWD.scanPulses, if_pos hi, if_pos ht]
  rw [h1]
  simp only [if_neg hn, if_neg hp, if_pos hl]

/-! ## Too short a trace -/

/-- On a trace with fewer than `rise_time + 5` samples the scan emits nothing, wherever
at or behind index 5 it is started. -/
theorem scanPulses_short (m : FebexMWD) (o : Overread) (len : Nat)
    (hlen : len < m.rise_time + 5) :
    ∀ (fuel i : Nat), 5 ≤ i → FebexMWD.scanPulses m o len fuel i = [] := by
  intro fuel
  induction fuel with
  | zero => intro i _; rfl
  | succ f ih =>
    intro i hi
    have hz := zeroCrossing_ge m o len (len - i) i
    simp only [FebexMWD.scanPulses]
    split
    · split
      · split
        · exact ih _ (by omega)
        · split
          · exact ih _ (by omega)
          · split
            · rfl
            · rename_i hl
              exact absurd (show len - FebexMWD.zeroCrossing m o len (len - i) i < m.rise_time by
                omega) hl
      · exact ih _ (by omega)
    · rfl

/-- C11. For every parameter set and every trace that is empty or has fewer than
`riseTime + 5` samples (5 being the fixed leading-sample guard), `FebexMWD::DoMWD` run on a
freshly configured processor produces zero pulse records, whatever lies behind the end of
the buffers. -/
theorem DoMWD_short_trace (o : Overread) (trace : List Nat) (riseTime decayTime flatTop
    baselineLength window cfdDelay : Nat) (threshold : Int) (fraction : ℚ)
    (hlen : trace.length < riseTime + 5) :
    (FebexMWD.DoMWD o (FebexMWD.configured trace riseTime decayTime flatTop baselineLength
      window cfdDelay threshold fraction)).cfd_list = [] ∧
    (FebexMWD.DoMWD o (FebexMWD.configured trace riseTime decayTime flatTop baselineLength
      window cfdDelay threshold fraction)).energy_list = [] := by
  have hs := SameSetup_trans
    (filter_setup (FebexMWD.resizeAll (FebexMWD.configured trace riseTime decayTime flatTop
      baselineLength window cfdDelay threshold fraction)))
    (resizeAll_setup (FebexMWD.configured trace riseTime decayTime flatTop
      baselineLength window cfdDelay threshold fraction))
  have hp : FebexMWD.pulses o (FebexMWD.configured trace riseTime decayTime flatTop
      baselineLength window cfdDelay threshold fraction) = [] := by
    unfold FebexMWD.pulses FebexMWD.pulsesFrom
    apply scanPulses_short
    · rw [hs.1, hs.2.1]
      exact hlen
    · exact Nat.le_refl 5
  obtain ⟨h1, h2⟩ := DoMWD_lists o (FebexMWD.configured trace riseTime decayTime flatTop
      baselineLength window cfdDelay threshold fraction)
  rw [h1, h2, hp]
  exact ⟨rfl, rfl⟩

/-- C11, at a concrete input: a trace of seven samples with a step, riseTime 3. -/
theorem DoMWD_short_trace_witness :
    [0, 0, 0, 0, 0, 0, 50].length < 3 + 5 ∧
    (FebexMWD.DoMWD zeroOverread
      (FebexMWD.configured [0, 0, 0, 0, 0, 0, 50] 3 1 0 1 1 1 1 (1 / 2))).energy_list = [] :=
  ⟨by decide,
    (DoMWD_short_trace zeroOverread [0, 0, 0, 0, 0, 0, 50] 3 1 0 1 1 1 1 (1 / 2)
      (by decide)).2⟩

/-! ## The buffers after `DoMWD` -/

theorem DoMWD_buffers (o : Overread) (m : FebexMWD) :
    (FebexMWD.DoMWD o m).shaper = (FebexMWD.filter (FebexMWD.resizeAll m)).shaper ∧
    (FebexMWD.DoMWD o m).cfd = (FebexMWD.filter (FebexMWD.resizeAll m)).cfd ∧
    (FebexMWD.DoMWD o m).stage1 = (FebexMWD.filter (FebexMWD.resizeAll m)).stage1 ∧
    (FebexMWD.DoMWD o m).stage2 = (FebexMWD.filter (FebexMWD.resizeAll m)).stage2 ∧
    (FebexMWD.DoMWD o m).stage3 = (FebexMWD.filter (FebexMWD.resizeAll m)).stage3 ∧
    (FebexMWD.DoMWD o m).stage4 = (FebexMWD.filter (FebexMWD.resizeAll m)).stage4 :=
  ⟨rfl, rfl, rfl, rfl, rfl, rfl⟩

/-- For a processor that is `InRange` the sums that `DoMWD` compares the loop index with
are below `2^32`: the 32-bit sums of the source are these sums. -/
theorem InRange_guards (m : FebexMWD) (h : m.InRange) :
    (m.delay_time + FebexMWD.skip) % 2 ^ 32 = m.delay_time + FebexMWD.skip ∧
    (m.rise_time + FebexMWD.skip) % 2 ^ 32 = m.rise_time + FebexMWD.skip ∧
    (m.window + FebexMWD.skip) % 2 ^ 32 = m.window + FebexMWD.skip ∧
    m.trace.length % 2 ^ 32 = m.trace.length := by
  unfold FebexMWD.InRange at h
  unfold FebexMWD.skip
  refine ⟨Nat.mod_eq_of_lt (by omega), Nat.mod_eq_of_lt (by omega),
    Nat.mod_eq_of_lt (by omega), Nat.mod_eq_of_lt (by omega)⟩

/-- C16 fails as stated. With riseTime 1 on the trace 1, 2, ..., 8 the index 1 satisfies
`riseTime <= 1 < trace length`, but `stage1[1]` is 0 and not `trace[1] - trace[0] = 1`:
the loop starts at index 5 and writes the stages from index `riseTime + 5` on only. -/
theorem stages_1_to_3_counterexample :
    countMWD.Fresh ∧ countMWD.rise_time ≤ 1 ∧ 1 < countMWD.trace.length ∧
    (FebexMWD.DoMWD zeroOverread countMWD).stage1[1]? = some 0 ∧
    countMWD.sample 1 - countMWD.sample (1 - countMWD.rise_time) = 1 ∧
    (FebexMWD.DoMWD zeroOverread countMWD).stage1[1]?
      ≠ some (countMWD.sample 1 - countMWD.sample (1 - countMWD.rise_time)) := by
  refine ⟨⟨rfl, rfl, rfl, rfl, rfl, rfl, rfl, rfl⟩, ?_, ?_, ?_, ?_, ?_⟩
  · with_unfolding_all decide
  · with_unfolding_all decide
  · with_unfolding_all decide
  · with_unfolding_all decide
  · with_unfolding_all decide

/-- C16, amended. After `FebexMWD::DoMWD` on a fresh instance with `decayTime > 0` and
all index sums below `2^32` (so that the guard `M + skip` of the source is
`riseTime + 5`), for every index `i` with `riseTime + 5 <= i < trace length`:
`stage1[i] = trace[i] - trace[i - riseTime]`,
`stage2[i] = (sum of trace[i - j] for j = 0 .. riseTime-1) / decayTime`, a quotient that
multiplied by `decayTime` gives the sum back, and `stage3[i] = stage1[i] + stage2[i]`; for
every `i < riseTime + 5` (inside the trace) all three are 0. -/
theorem DoMWD_stages_1_to_3 (o : Overread) (m : FebexMWD) (hf : m.Fresh) (hr : m.InRange)
    (hdec : 0 < m.decay_time) (i : Nat) (hi : i < m.trace.length) :
    (m.rise_time + 5) % 2 ^ 32 = m.rise_time + 5 ∧
    (m.rise_time + 5 ≤ i →
      (FebexMWD.DoMWD o m).stage1[i]? = some (m.sample i - m.sample (i - m.rise_time)) ∧
      (FebexMWD.DoMWD o m).stage2[i]? = some
        (((List.range m.rise_time).map fun j => m.sample (i - j)).sum / (m.decay_time : ℚ)) ∧
      ((List.range m.rise_time).map fun j => m.sample (i - j)).sum / (m.decay_time : ℚ)
          * (m.decay_time : ℚ)
        = ((List.range m.rise_time).map fun j => m.sample (i - j)).sum ∧
      (FebexMWD.DoMWD o m).stage3[i]? = some
        ((FebexMWD.DoMWD o m).stage1.getD i 0 + (FebexMWD.DoMWD o m).stage2.getD i 0)) ∧
    (i < m.rise_time + 5 →
      (FebexMWD.DoMWD o m).stage1[i]? = some 0 ∧ (FebexMWD.DoMWD o m).stage2[i]? = some 0 ∧
      (FebexMWD.DoMWD o m).stage3[i]? = some 0) := by
  obtain ⟨_, ⟨_, _, l3, l4, l5, _⟩, hI⟩ := filter_closed_form m hf
  obtain ⟨_, _, i3, i4, i5, _⟩ := hI i hi
  obtain ⟨_, _, b3, b4, b5, _⟩ := DoMWD_buffers o m
  rw [b3, b4, b5]
  have hdec' : (m.decay_time : ℚ) ≠ 0 := by
    exact_mod_cast (Nat.pos_iff_ne_zero.mp hdec)
  refine ⟨(InRange_guards m hr).2.1, fun h => ?_, fun h => ?_⟩
  · have h' : i ≥ m.rise_time + 5 := h
    refine ⟨getElem?_of_getD _ i _ (by rw [l3]; exact hi) ?_,
      getElem?_of_getD _ i _ (by rw [l4]; exact hi) ?_,
      div_mul_cancel₀ _ hdec',
      getElem?_of_getD _ i _ (by rw [l5]; exact hi) ?_⟩
    · rw [i3]; simp only [FebexMWD.specStage1, if_pos h']
    · rw [i4]; simp only [FebexMWD.specStage2, if_pos h']
    · rw [i5, i3, i4]; rfl
  · have h' : ¬ i ≥ m.rise_time + 5 := by omega
    refine ⟨getElem?_of_getD _ i _ (by rw [l3]; exact hi) ?_,
      getElem?_of_getD _ i _ (by rw [l4]; exact hi) ?_,
      getElem?_of_getD _ i _ (by rw [l5]; exact hi) ?_⟩
    · rw [i3]; simp only [FebexMWD.specStage1, if_neg h']
    · rw [i4]; simp only [FebexMWD.specStage2, if_neg h']
    · rw [i5]
      simp only [FebexMWD.specStage3, FebexMWD.specStage1, FebexMWD.specStage2, if_neg h',
        add_zero]

/-- C16 amended, at concrete inputs: indices 6 and 1 of the trace 1, 2, ..., 8 with
riseTime 1 and decayTime 1. -/
theorem DoMWD_stages_1_to_3_witness :
    countMWD.Fresh ∧ countMWD.InRange ∧ 0 < countMWD.decay_time ∧
    6 < countMWD.trace.length ∧ countMWD.rise_time + 5 ≤ 6 ∧
    1 < countMWD.rise_time + 5 ∧
    (FebexMWD.DoMWD zeroOverread countMWD).stage1[6]?
      = some (countMWD.sample 6 - countMWD.sample (6 - countMWD.rise_time)) ∧
    (FebexMWD.DoMWD zeroOverread countMWD).stage1[1]? = some 0 :=
  ⟨⟨rfl, rfl, rfl, rfl, rfl, rfl, rfl, rfl⟩, by decide, by decide, by decide, by decide,
    by decide,
    ((DoMWD_stages_1_to_3 zeroOverread countMWD ⟨rfl, rfl, rfl, rfl, rfl, rfl, rfl, rfl⟩
      (by decide) (by decide) 6 (by decide)).2.1 (by decide)).1,
    ((DoMWD_stages_1_to_3 zeroOverread countMWD ⟨rfl, rfl, rfl, rfl, rfl, rfl, rfl, rfl⟩
      (by decide) (by decide) 1 (by decide)).2.2 (by decide)).1⟩

/-- C17 fails as stated. With window 2 and riseTime 1 on the trace 1, 2, ..., 8 the index
6 satisfies `window <= 6 < trace length`; the mean of `stage3[5] = 0` and `stage3[6] = 8`
is 4, but `stage4[6]` is 0: stage 4 is written from index `window + 5` on only. -/
theorem stage4_counterexample :
    countMWD.Fresh ∧ countMWD.window ≤ 6 ∧ 6 < countMWD.trace.length ∧
    (FebexMWD.DoMWD zeroOverread countMWD).stage4[6]? = some 0 ∧
    ((FebexMWD.DoMWD zeroOverread countMWD).stage3.getD 5 0
      + (FebexMWD.DoMWD zeroOverread countMWD).stage3.getD 6 0) / 2 = 4 ∧
    (FebexMWD.DoMWD zeroOverread countMWD).stage4[6]? ≠ some
      (((List.range countMWD.window).map
          fun j => (FebexMWD.DoMWD zeroOverread countMWD).stage3.getD (6 - j) 0).sum
        / (countMWD.window : ℚ)) := by
  refine ⟨⟨rfl, rfl, rfl, rfl, rfl, rfl, rfl, rfl⟩, ?_, ?_, ?_, ?_, ?_⟩
  · with_unfolding_all decide
  · with_unfolding_all decide
  · with_unfolding_all decide
  · with_unfolding_all decide
  · with_unfolding_all decide

/-- C17, amended. After `FebexMWD::DoMWD` on a fresh instance with `window > 0`,
`decayTime > 0` and all index sums below `2^32` (so that the guard `L + skip` of the
source is `window + 5`), for every index `i` with `window + 5 <= i < trace length`,
`stage4[i]` equals the arithmetic mean of `stage3[i - window + 1 .. i]` (window consecutive
values of the computed stage3), a quotient that multiplied by `window` gives their sum
back; for every `i < window + 5` (inside the trace) `stage4[i]` is 0. -/
theorem DoMWD_stage4 (o : Overread) (m : FebexMWD) (hf : m.Fresh) (hr : m.InRange)
    (hw : 0 < m.window) (_hdec : 0 < m.decay_time) (i : Nat) (hi : i < m.trace.length) :
    (m.window + 5) % 2 ^ 32 = m.window + 5 ∧
    (m.window + 5 ≤ i →
      (FebexMWD.DoMWD o m).stage4[i]? = some
        (((List.range m.window).map fun j => (FebexMWD.DoMWD o m).stage3.getD (i - j) 0).sum
          / (m.window : ℚ)) ∧
      ((List.range m.window).map fun j => (FebexMWD.DoMWD o m).stage3.getD (i - j) 0).sum
          / (m.window : ℚ) * (m.window : ℚ)
        = ((List.range m.window).map
            fun j => (FebexMWD.DoMWD o m).stage3.getD (i - j) 0).sum) ∧
    (i < m.window + 5 → (FebexMWD.DoMWD o m).stage4[i]? = some 0) := by
  obtain ⟨_, ⟨_, _, _, _, _, l6⟩, hI⟩ := filter_closed_form m hf
  obtain ⟨_, _, _, _, _, i6⟩ := hI i hi
  obtain ⟨_, _, _, _, b5, b6⟩ := DoMWD_buffers o m
  rw [b5, b6]
  have hw' : (m.window : ℚ) ≠ 0 := by
    exact_mod_cast (Nat.pos_iff_ne_zero.mp hw)
  refine ⟨(InRange_guards m hr).2.2.1, fun h => ⟨?_, div_mul_cancel₀ _ hw'⟩, fun h => ?_⟩
  · have h' : i ≥ m.window + 5 := h
    apply getElem?_of_getD _ i _ (by rw [l6]; exact hi)
    rw [i6]
    simp only [FebexMWD.specStage4, if_pos h']
    have hfun : (fun j => m.specStage3 (i - j))
        = fun j => (FebexMWD.filter (FebexMWD.resizeAll m)).stage3.getD (i - j) 0 := by
      funext j
      exact ((hI (i - j) (by omega)).2.2.2.2.1).symm
    rw [hfun]
  · have h' : ¬ i ≥ m.window + 5 := by omega
    apply getElem?_of_getD _ i _ (by rw [l6]; exact hi)
    rw [i6]
    simp only [FebexMWD.specStage4, if_neg h']

/-- C17 amended, at concrete inputs: indices 7 and 6 of the trace 1, 2, ..., 8 with
window 2. -/
theorem DoMWD_stage4_witness :
    countMWD.Fresh ∧ countMWD.InRange ∧ 0 < countMWD.window ∧ 0 < countMWD.decay_time ∧
    7 < countMWD.trace.length ∧
    countMWD.window + 5 ≤ 7 ∧ 6 < countMWD.window + 5 ∧
    (FebexMWD.DoMWD zeroOverread countMWD).stage4[7]? = some
      (((List.range countMWD.window).map
          fun j => (FebexMWD.DoMWD zeroOverread countMWD).stage3.getD (7 - j) 0).sum
        / (countMWD.window : ℚ)) ∧
    (FebexMWD.DoMWD zeroOverread countMWD).stage4[6]? = some 0 :=
  ⟨⟨rfl, rfl, rfl, rfl, rfl, rfl, rfl, rfl⟩, by decide, by decide, by decide, by decide,
    by decide, by decide,
    ((DoMWD_stage4 zeroOverread countMWD ⟨rfl, rfl, rfl, rfl, rfl, rfl, rfl, rfl⟩
      (by decide) (by decide) (by decide) 7 (by decide)).2.1 (by decide)).1,
    ((DoMWD_stage4 zeroOverread countMWD ⟨rfl, rfl, rfl, rfl, rfl, rfl, rfl, rfl⟩
      (by decide) (by decide) (by decide) 6 (by decide)).2.2 (by decide))⟩

set_option maxRecDepth 100000 in
/-- C18 fails as stated. `reusedMWD` is a processor that has run before (on the trace
1, 2, ..., 8 with cfdDelay 1) and whose cfdDelay was then set to 2.  Index 7 satisfies
`7 <= cfdDelay + 5`, but after `DoMWD` `cfd[7]` is 1/2 and not 0: the filter loop does not
write there, and the buffer still holds the value of the earlier run. -/
theorem cfd_trace_counterexample :
    reusedMWD = (FebexMWD.DoMWD zeroOverread countMWD).SetDelayTime 2 ∧
    reusedMWD.delay_time = 2 ∧ 7 ≤ reusedMWD.delay_time + 5 ∧ 7 < reusedMWD.trace.length ∧
    (FebexMWD.DoMWD zeroOverread reusedMWD).cfd[7]? = some (1 / 2 : ℚ) ∧
    (FebexMWD.DoMWD zeroOverread reusedMWD).cfd[7]? ≠ some (0 : ℚ) := by
  refine ⟨rfl, rfl, ?_, ?_, ?_, ?_⟩ <;> with_unfolding_all decide

/-- C18, amended. After `FebexMWD::DoMWD` on a fresh instance with all index sums below
`2^32` (so that the guard `cfd_delay + skip` of the source is `cfdDelay + 5`), for every
index `i` inside the trace: the shaper buffer holds
`shaped[i] = trace[i] - trace[i - cfdDelay]` (a signed difference of the unsigned samples)
when `i > cfdDelay + 5` and 0 otherwise; when `cfdDelay + 5 < i`,
`cfd[i] = cfdFraction*shaped[i] - shaped[i - cfdDelay]`; and when `i <= cfdDelay + 5`,
`cfd[i] = 0`. -/
theorem DoMWD_cfd_trace (o : Overread) (m : FebexMWD) (hf : m.Fresh) (hr : m.InRange)
    (i : Nat) (hi : i < m.trace.length) :
    (m.delay_time + 5) % 2 ^ 32 = m.delay_time + 5 ∧
    (FebexMWD.DoMWD o m).shaper[i]? = some
      (if i > m.delay_time + 5 then
        (((m.trace.getD i 0 : Int) - (m.trace.getD (i - m.delay_time) 0 : Int) : Int) : ℚ)
       else 0) ∧
    (m.delay_time + 5 < i →
      (FebexMWD.DoMWD o m).cfd[i]? = some
        (m.fraction * (FebexMWD.DoMWD o m).shaper.getD i 0
          - (FebexMWD.DoMWD o m).shaper.getD (i - m.delay_time) 0)) ∧
    (i ≤ m.delay_time + 5 → (FebexMWD.DoMWD o m).cfd[i]? = some 0) := by
  obtain ⟨_, ⟨l1, l2, _, _, _, _⟩, hI⟩ := filter_closed_form m hf
  obtain ⟨i1, i2, _, _, _, _⟩ := hI i hi
  obtain ⟨b1, b2, _, _, _, _⟩ := DoMWD_buffers o m
  rw [b1, b2]
  refine ⟨(InRange_guards m hr).1, ?_, fun h => ?_, fun h => ?_⟩
  · apply getElem?_of_getD _ i _ (by rw [l1]; exact hi)
    rw [i1]
    rfl
  · have h' : i > m.delay_time + 5 := h
    apply getElem?_of_getD _ i _ (by rw [l2]; exact hi)
    rw [i2, i1, (hI (i - m.delay_time) (by omega)).1]
    simp only [FebexMWD.specCfd, if_pos h']
  · have h' : ¬ i > m.delay_time + 5 := by omega
    apply getElem?_of_getD _ i _ (by rw [l2]; exact hi)
    rw [i2]
    simp only [FebexMWD.specCfd, if_neg h']

/-- C18 amended, at concrete inputs: indices 7 and 6 of the trace 1, 2, ..., 8 with
cfdDelay 1. -/
theorem DoMWD_cfd_trace_witness :
    countMWD.Fresh ∧ countMWD.InRange ∧ 7 < countMWD.trace.length ∧
    countMWD.delay_time + 5 < 7 ∧ 6 ≤ countMWD.delay_time + 5 ∧
    (FebexMWD.DoMWD zeroOverread countMWD).cfd[7]? = some
      (countMWD.fraction * (FebexMWD.DoMWD zeroOverread countMWD).shaper.getD 7 0
        - (FebexMWD.DoMWD zeroOverread countMWD).shaper.getD (7 - countMWD.delay_time) 0) ∧
    (FebexMWD.DoMWD zeroOverread countMWD).cfd[6]? = some 0 :=
  ⟨⟨rfl, rfl, rfl, rfl, rfl, rfl, rfl, rfl⟩, by decide, by decide, by decide, by decide,
    ((DoMWD_cfd_trace zeroOverread countMWD ⟨rfl, rfl, rfl, rfl, rfl, rfl, rfl, rfl⟩
      (by decide) 7 (by decide)).2.2.1 (by decide)),
    ((DoMWD_cfd_trace zeroOverread countMWD ⟨rfl, rfl, rfl, rfl, rfl, rfl, rfl, rfl⟩
      (by decide) 6 (by decide)).2.2.2 (by decide))⟩

/-! ## Polarity -/

set_option maxRecDepth 100000 in
/-- C12 (what the code does). On the negative-going step `negStepMWD` (B = 20, A = 10,
k = 10; riseTime, decayTime and window 1, cfdDelay 2, fraction 1/2, threshold +1) the
cfd buffer has the lobe -5, -5 followed by the lobe 10, 10.  The trigger at index 12 is
rejected for its polarity (`cfd[11] < 0`), but the scan resumes at index 13, still inside
the positive lobe: there it triggers again, the zero-crossing search stops at 14 with
`cfd[13] > 0`, and a pulse record is emitted. -/
theorem DoMWD_negative_step_positive_threshold :
    negStepMWD.threshold > 0 ∧ negStepMWD.fraction > 0 ∧ negStepMWD.delay_time ≥ 1 ∧
    negStepMWD.rise_time > 0 ∧ negStepMWD.window > 0 ∧ negStepMWD.decay_time > 0 ∧
    (FebexMWD.DoMWD zeroOverread negStepMWD).cfd
      = [0, 0, 0, 0, 0, 0, 0, 0, 0, 0, -5, -5, 10, 10, 0, 0, 0, 0, 0, 0] ∧
    FebexMWD.pulses zeroOverread negStepMWD
      = [{ trigger := 13, crossing := 14, readout := 17, baseline := 10 }] ∧
    (FebexMWD.DoMWD zeroOverread negStepMWD).cfd_list.length = 1 ∧
    (FebexMWD.DoMWD zeroOverread negStepMWD).energy_list.length = 1 := by
  refine ⟨?_, ?_, ?_, ?_, ?_, ?_, ?_, ?_, ?_, ?_⟩ <;> with_unfolding_all decide

/-! ## Pile-up -/

set_option maxRecDepth 100000 in
/-- C14 fails as stated. `twoStepMWD` holds two steps of height 10 on a zero baseline at
samples 8 and 11 (3 apart, more than window + baselineLength = 1), each with
`cfdFraction*A = 5` above the threshold 1, the first behind index `cfdDelay + 5 = 6`, and
nine samples behind the second; yet `DoMWD` yields one pulse record only: after the record
at crossing index 8 the scan resumes at index 8 + riseTime + cfdDelay + window +
baselineLength + 1 = 13, behind the second step. -/
theorem pile_up_counterexample :
    twoStepMWD.threshold > 0 ∧
    (11 : Nat) - 8 > twoStepMWD.window + twoStepMWD.baseline_length ∧
    twoStepMWD.fraction * 10 > (twoStepMWD.threshold : ℚ) ∧
    8 > twoStepMWD.delay_time + 5 ∧ 11 + twoStepMWD.rise_time ≤ twoStepMWD.trace.length ∧
    FebexMWD.pulses zeroOverread twoStepMWD
      = [{ trigger := 8, crossing := 8, readout := 11, baseline := 20 }] ∧
    (FebexMWD.DoMWD zeroOverread twoStepMWD).cfd_list.length = 1 ∧
    (FebexMWD.DoMWD zeroOverread twoStepMWD).energy_list.length = 1 := by
  refine ⟨?_, ?_, ?_, ?_, ?_, ?_, ?_, ?_⟩ <;> with_unfolding_all decide

/-! ## The averaging window -/

set_option maxRecDepth 100000 in
/-- C15 fails as stated, in two ways.  On the noiseless step of height 100 at sample 14
(riseTime 2, decayTime 100, cfdDelay 1, threshold 1, fraction 1/2, 40 samples) the single
record has rawAmplitude 207/4 with window 4 and 207/8 with window 8: once the window
covers the whole rise (more than riseTime + cfdDelay + 1 samples) a larger window is
further from the step height 100.  And on the same step with decayTime 2 the record has
rawAmplitude 100 with window 2 and 400/3 with window 3: the average overshoots the step
height as soon as the window reaches the rise. -/
theorem window_counterexample :
    (stepWindowMWD 4).rise_time > 0 ∧ (stepWindowMWD 4).decay_time > 0 ∧
    (stepWindowMWD 4).threshold > 0 ∧
    (FebexMWD.DoMWD zeroOverread (stepWindowMWD 4)).energy_list = [207 / 4] ∧
    (FebexMWD.DoMWD zeroOverread (stepWindowMWD 8)).energy_list = [207 / 8] ∧
    ¬ (|(207 / 8 : ℚ) - 100| ≤ |(207 / 4 : ℚ) - 100|) ∧
    (stepOvershootMWD 2).rise_time > 0 ∧ (stepOvershootMWD 2).decay_time > 0 ∧
    (stepOvershootMWD 2).threshold > 0 ∧
    (FebexMWD.DoMWD zeroOverread (stepOvershootMWD 2)).energy_list = [100] ∧
    (FebexMWD.DoMWD zeroOverread (stepOvershootMWD 3)).energy_list = [400 / 3] ∧
    ¬ (|(400 / 3 : ℚ) - 100| ≤ |(100 : ℚ) - 100|) := by
  refine ⟨?_, ?_, ?_, ?_, ?_, ?_, ?_, ?_, ?_, ?_, ?_, ?_⟩ <;> with_unfolding_all decide

/-! ## The crossing time -/

set_option maxRecDepth 100000 in
/-- C19 fails as stated. On `rampMWD` one pulse record is emitted, at crossing index 10
with `cfd[10] = -8` and `cfd[9] = 2`, both nonzero.  The recorded cfdTime is 46/5 = 9.2,
whereas the weighted average in which index 9 carries the weight 1/|cfd[10]| and index 10
the weight 1/|cfd[9]| is 49/5 = 9.8. -/
theorem cfd_time_counterexample :
    FebexMWD.pulses zeroOverread rampMWD
      = [{ trigger := 9, crossing := 10, readout := 12, baseline := 4 }] ∧
    (FebexMWD.DoMWD zeroOverread rampMWD).cfd[10]? = some (-8 : ℚ) ∧
    (FebexMWD.DoMWD zeroOverread rampMWD).cfd[9]? = some (2 : ℚ) ∧
    (FebexMWD.DoMWD zeroOverread rampMWD).cfd_list = [46 / 5] ∧
    (((10 - 1 : Nat) : ℚ) / |(-8 : ℚ)| + ((10 : Nat) : ℚ) / |(2 : ℚ)|)
      / (1 / |(-8 : ℚ)| + 1 / |(2 : ℚ)|) = 49 / 5 ∧
    (46 / 5 : ℚ) ≠ 49 / 5 := by
  refine ⟨?_, ?_, ?_, ?_, ?_, ?_⟩ <;> with_unfolding_all decide

theorem getElem?_append_map {β : Type} (l : List ℚ) (ps : List β) (g : β → ℚ) (n : Nat)
    (p : β) (h : ps[n]? = some p) : (l ++ ps.map g)[l.length + n]? = some (g p) := by
  rw [List.getElem?_append_right (Nat.le_add_right _ _)]
  simp [h]

/-- C19, amended. For every pulse record emitted at crossing index `i` (the `n`-th pulse
of the run, whose time is the `n`-th entry that `DoMWD` appends to the cfd-time list)
with `cfd[i]` and `cfd[i-1]` both nonzero, the recorded cfdTime is the weighted average of
the indices `i` and `i-1` in which index `i` carries weight `1/|cfd[i]|` and index `i-1`
carries weight `1/|cfd[i-1]|`, i.e.
`cfdTime = (i/|cfd[i]| + (i-1)/|cfd[i-1]|) / (1/|cfd[i]| + 1/|cfd[i-1]|)`. -/
theorem DoMWD_cfd_time (o : Overread) (m : FebexMWD) (n : Nat) (p : Pulse)
    (hp : (FebexMWD.pulses o m)[n]? = some p)
    (_h1 : (FebexMWD.DoMWD o m).cfdAt o p.crossing ≠ 0)
    (_h2 : (FebexMWD.DoMWD o m).cfdAt o (p.crossing - 1) ≠ 0) :
    (FebexMWD.DoMWD o m).cfd_list[m.cfd_list.length + n]? = some
      (((p.crossing : ℚ) / |(FebexMWD.DoMWD o m).cfdAt o p.crossing|
          + ((p.crossing - 1 : Nat) : ℚ) / |(FebexMWD.DoMWD o m).cfdAt o (p.crossing - 1)|)
        / (1 / |(FebexMWD.DoMWD o m).cfdAt o p.crossing|
          + 1 / |(FebexMWD.DoMWD o m).cfdAt o (p.crossing - 1)|)) := by
  rw [(DoMWD_lists o m).1]
  exact getElem?_append_map m.cfd_list (FebexMWD.pulses o m)
    (fun q => (FebexMWD.filter (FebexMWD.resizeAll m)).cfdTime o q.crossing) n p hp

set_option maxRecDepth 100000 in
/-- C19 amended, at a concrete input: the record of `rampMWD`, at crossing index 10. -/
theorem DoMWD_cfd_time_witness :
    (FebexMWD.pulses zeroOverread rampMWD)[0]?
      = some { trigger := 9, crossing := 10, readout := 12, baseline := 4 } ∧
    (FebexMWD.DoMWD zeroOverread rampMWD).cfdAt zeroOverread 10 ≠ 0 ∧
    (FebexMWD.DoMWD zeroOverread rampMWD).cfdAt zeroOverread (10 - 1) ≠ 0 ∧
    (FebexMWD.DoMWD zeroOverread rampMWD).cfd_list[rampMWD.cfd_list.length + 0]? = some
      ((((10 : Nat) : ℚ) / |(FebexMWD.DoMWD zeroOverread rampMWD).cfdAt zeroOverread 10|
          + ((10 - 1 : Nat) : ℚ)
            / |(FebexMWD.DoMWD zeroOverread rampMWD).cfdAt zeroOverread (10 - 1)|)
        / (1 / |(FebexMWD.DoMWD zeroOverread rampMWD).cfdAt zeroOverread 10|
          + 1 / |(FebexMWD.DoMWD zeroOverread rampMWD).cfdAt zeroOverread (10 - 1)|)) :=
  ⟨by with_unfolding_all decide, by with_unfolding_all decide, by with_unfolding_all decide,
    DoMWD_cfd_time zeroOverread rampMWD 0
      { trigger := 9, crossing := 10, readout := 12, baseline := 4 }
      (by with_unfolding_all decide) (by with_unfolding_all decide)
      (by with_unfolding_all decide)⟩

/-! ## Reads outside the buffers -/

set_option maxRecDepth 100000 in
/-- C20 (what the code does). Both parts fail, with riseTime 1.
On `lateStepMWD` (ten samples) the record at crossing index 8 passes the length check
(`trace_length - 8 = 2` is not below riseTime) and its amplitude is read at index
8 + riseTime + cfdDelay = 10, which is the trace length: the recorded amplitude is whatever
lies behind the buffer.
On `growingMWD` (twelve samples) no index below 9 triggers, index 9 does, and the
zero-crossing search started there evaluates its condition at the indices 9, 10, 11 and
12: it reads `cfd[12]` of a buffer of twelve elements before it compares the index with the
trace length. -/
theorem scan_reads_outside_buffers :
    lateStepMWD.rise_time > 0 ∧
    FebexMWD.pulses zeroOverread lateStepMWD
      = [{ trigger := 8, crossing := 8, readout := 10, baseline := 0 }] ∧
    lateStepMWD.trace.length = 10 ∧
    (FebexMWD.DoMWD zeroOverread lateStepMWD).stage4.length = 10 ∧
    (FebexMWD.DoMWD zeroOverread lateStepMWD).energy_list = [0] ∧
    (FebexMWD.DoMWD sevenOverread lateStepMWD).energy_list = [7] ∧
    growingMWD.rise_time > 0 ∧
    growingMWD.trace.length = 12 ∧
    (FebexMWD.DoMWD zeroOverread growingMWD).cfd.length = 12 ∧
    (∀ i, i < 9 → ¬ (FebexMWD.DoMWD zeroOverread growingMWD).triggers zeroOverread i) ∧
    (FebexMWD.DoMWD zeroOverread growingMWD).triggers zeroOverread 9 ∧
    FebexMWD.zeroCrossingReads (FebexMWD.DoMWD zeroOverread growingMWD) zeroOverread 12
      (12 - 9) 9 = [9, 10, 11, 12] := by
  refine ⟨?_, ?_, ?_, ?_, ?_, ?_, ?_, ?_, ?_, ?_, ?_, ?_⟩ <;> with_unfolding_all decide

/-! ## The trigger scan seen through the closed form -/

theorem getD_default_irrelevant (l : List ℚ) (i : Nat) (a b : ℚ) (hi : i < l.length) :
    l.getD i a = l.getD i b := by
  rw [List.getD_eq_getElem?_getD, List.getD_eq_getElem?_getD, List.getElem?_eq_getElem hi]
  rfl

/-- What the trigger scan of `DoMWD` sees on a fresh processor: the setup of the
processor, and inside the trace the closed forms of `cfd` and `stage4`. -/
theorem scan_view (o : Overread) (m : FebexMWD) (hf : m.Fresh) :
    (FebexMWD.filter (FebexMWD.resizeAll m)).trace.length = m.trace.length ∧
    (FebexMWD.filter (FebexMWD.resizeAll m)).rise_time = m.rise_time ∧
    (FebexMWD.filter (FebexMWD.resizeAll m)).delay_time = m.delay_time ∧
    (FebexMWD.filter (FebexMWD.resizeAll m)).window = m.window ∧
    (FebexMWD.filter (FebexMWD.resizeAll m)).baseline_length = m.baseline_length ∧
    (FebexMWD.filter (FebexMWD.resizeAll m)).threshold = m.threshold ∧
    (∀ i, i < m.trace.length →
      (FebexMWD.filter (FebexMWD.resizeAll m)).cfdAt o i = m.specCfd i) ∧
    (∀ i, i < m.trace.length →
      (FebexMWD.filter (FebexMWD.resizeAll m)).stage4At o i = m.specStage4 i) := by
  obtain ⟨hs, ⟨_, l2, _, _, _, l6⟩, hI⟩ := filter_closed_form m hf
  obtain ⟨s1, s2, _, _, s5, s6, s7, s8, _, _, _⟩ := hs
  refine ⟨by rw [s1], s2, s7, s6, s5, s8, ?_, ?_⟩
  · intro i hi
    unfold FebexMWD.cfdAt
    rw [getD_default_irrelevant _ i _ 0 (by rw [l2]; exact hi)]
    exact (hI i hi).2.1
  · intro i hi
    unfold FebexMWD.stage4At
    rw [getD_default_irrelevant _ i _ 0 (by rw [l6]; exact hi)]
    exact (hI i hi).2.2.2.2.2

/-- A triggering index whose predecessor has `cfd = 0`: the zero-crossing search stays at
the index, no polarity test rejects it, and with `rise_time` samples left a pulse is
emitted. -/
theorem pulsesFrom_emit_at (m : FebexMWD) (o : Overread) (i : Nat)
    (hi : i < m.trace.length) (ht : m.triggers o i) (h0 : m.cfdAt o (i - 1) = 0)
    (hl : i + m.rise_time ≤ m.trace.length) :
    m.pulsesFrom o i =
      { trigger := i, crossing := i, readout := i + (m.rise_time + m.delay_time),
        baseline := if i ≥ m.baseline_length then m.stage4At o (i - m.baseline_length)
          else m.stage4At o 0 }
      :: m.pulsesFrom o
          (i + (m.rise_time + m.delay_time) + (m.window + m.baseline_length) + 1) := by
  have hz : FebexMWD.zeroCrossing m o m.trace.length (m.trace.length - i) i = i := by
    apply zeroCrossing_stay
    rw [h0, mul_zero]
    intro hc
    exact absurd hc.1 (lt_irrefl 0)
  apply pulsesFrom_emit m o i i hi ht hz
  · rw [h0]; intro hc; exact absurd hc.2 (lt_irrefl 0)
  · rw [h0]; intro hc; exact absurd hc.2 (lt_irrefl 0)
  · omega

/-! ## A negative-going step and a negative threshold -/

/-- The shaped signal of a trace made of two rising steps on a zero baseline (heights
`A1` at `k1` and `A2` at `k2`): `A1` on the `delay_time` samples from `k1`, `A2` on those
from `k2`.  With `A2 = 0` this is a single step. -/
theorem two_step_shaped (m : FebexMWD) (k1 k2 A1 A2 : Nat)
    (hstep : ∀ i, i < m.trace.length →
      m.trace.getD i 0 = (if k1 ≤ i then A1 else 0) + (if k2 ≤ i then A2 else 0))
    (hk1 : k1 > m.delay_time + 5) (hk12 : k1 ≤ k2) :
    ∀ j, j < m.trace.length →
      m.specShaped j = (((if k1 ≤ j ∧ j < k1 + m.delay_time then A1 else 0 : Nat) : ℚ)
        + ((if k2 ≤ j ∧ j < k2 + m.delay_time then A2 else 0 : Nat) : ℚ)) := by
  intro j hj
  unfold FebexMWD.specShaped
  by_cases h : j > m.delay_time + 5
  · rw [if_pos h, hstep j hj, hstep (j - m.delay_time) (by omega)]
    split_ifs <;> first | (exfalso; omega) | (push_cast; ring)
  · rw [if_neg h, if_neg (by omega), if_neg (by omega)]
    simp

theorem two_step_shaped_nonneg (m : FebexMWD) (k1 k2 A1 A2 : Nat)
    (hstep : ∀ i, i < m.trace.length →
      m.trace.getD i 0 = (if k1 ≤ i then A1 else 0) + (if k2 ≤ i then A2 else 0))
    (hk1 : k1 > m.delay_time + 5) (hk12 : k1 ≤ k2) :
    ∀ j, j < m.trace.length → 0 ≤ m.specShaped j := by
  intro j hj
  rw [two_step_shaped m k1 k2 A1 A2 hstep hk1 hk12 j hj]
  exact add_nonneg (Nat.cast_nonneg _) (Nat.cast_nonneg _)

/-- Where the shaped signal of a rising trace is 0, the cfd signal is not positive, and a
positive threshold does not trigger. -/
theorem rising_no_trigger (o : Overread) (m : FebexMWD) (hf : m.Fresh)
    (hnn : ∀ j, j < m.trace.length → 0 ≤ m.specShaped j) (ht : m.threshold > 0)
    (j : Nat) (hj : j < m.trace.length) (h0 : m.specShaped j = 0) :
    ¬ (FebexMWD.filter (FebexMWD.resizeAll m)).triggers o j := by
  obtain ⟨_, _, _, _, _, v6, vc, _⟩ := scan_view o m hf
  have ht' : (0 : ℚ) < ((m.threshold : Int) : ℚ) := by exact_mod_cast ht
  have hc : m.specCfd j ≤ 0 := by
    unfold FebexMWD.specCfd
    split
    · have := hnn (j - m.delay_time) (by omega)
      rw [h0]
      linarith
    · exact le_refl 0
  unfold FebexMWD.triggers
  rw [vc j hj, v6]
  rintro ⟨_, h | h⟩
  · linarith [h.1]
  · exact absurd ht (not_lt.mpr (le_of_lt h.2))

/-- A rising step whose cfd value exceeds the positive threshold, behind a stretch without
signal: the scan emits a pulse at the step. -/
theorem rising_emit (o : Overread) (m : FebexMWD) (hf : m.Fresh) (k : Nat) (a : ℚ)
    (hk : k > m.delay_time + 5) (hd : m.delay_time ≥ 1)
    (hklen : k < m.trace.length) (hlen : k + m.rise_time ≤ m.trace.length)
    (hshk : m.specShaped k = a) (hsh1 : m.specShaped (k - m.delay_time) = 0)
    (hsh2 : m.specShaped (k - 1) = 0) (hsh3 : m.specShaped (k - 1 - m.delay_time) = 0)
    (ht : m.threshold > 0) (hthr : m.fraction * a > (m.threshold : ℚ)) :
    (FebexMWD.filter (FebexMWD.resizeAll m)).pulsesFrom o k =
      { trigger := k, crossing := k, readout := k + (m.rise_time + m.delay_time),
        baseline := if k ≥ m.baseline_length then
            (FebexMWD.filter (FebexMWD.resizeAll m)).stage4At o (k - m.baseline_length)
          else (FebexMWD.filter (FebexMWD.resizeAll m)).stage4At o 0 }
      :: (FebexMWD.filter (FebexMWD.resizeAll m)).pulsesFrom o
          (k + (m.rise_time + m.delay_time) + (m.window + m.baseline_length) + 1) := by
  obtain ⟨v1, v2, v3, v4, v5, v6, vc, _⟩ := scan_view o m hf
  have cfdk : m.specCfd k = m.fraction * a := by
    unfold FebexMWD.specCfd
    rw [if_pos hk, hshk, hsh1]
    ring
  have cfdk1 : m.specCfd (k - 1) = 0 := by
    unfold FebexMWD.specCfd
    split
    · rw [hsh2, hsh3]; ring
    · rfl
  have trig : (FebexMWD.filter (FebexMWD.resizeAll m)).triggers o k := by
    unfold FebexMWD.triggers
    rw [vc k hklen, cfdk, v6, v3]
    exact ⟨by omega, Or.inl ⟨hthr, ht⟩⟩
  have h := pulsesFrom_emit_at _ o k (by rw [v1]; exact hklen) trig
    (by rw [vc (k - 1) (by omega)]; exact cfdk1) (by rw [v1, v2]; exact hlen)
  rw [v2, v3, v4, v5] at h
  exact h

theorem pulses_eq_pulsesFrom (o : Overread) (m : FebexMWD) :
    FebexMWD.pulses o m = (FebexMWD.filter (FebexMWD.resizeAll m)).pulsesFrom o 5 := rfl

/-- On two rising steps on a zero baseline that are further apart than the dead time of
the scan (`rise_time + delay_time + window + baseline_length`) and than twice the delay,
the scan of a fresh processor emits exactly two pulses, at the two steps. -/
theorem two_step_pulses (o : Overread) (m : FebexMWD) (hf : m.Fresh) (k1 k2 A1 A2 : Nat)
    (hstep : ∀ i, i < m.trace.length →
      m.trace.getD i 0 = (if k1 ≤ i then A1 else 0) + (if k2 ≤ i then A2 else 0))
    (hd : m.delay_time ≥ 1) (hk1 : k1 > m.delay_time + 5)
    (hsep : k2 - k1 > m.rise_time + m.delay_time + m.window + m.baseline_length)
    (hsep2 : k2 - k1 > 2 * m.delay_time)
    (ht : m.threshold > 0) (hA1 : m.fraction * (A1 : ℚ) > (m.threshold : ℚ))
    (hA2 : m.fraction * (A2 : ℚ) > (m.threshold : ℚ))
    (hk2 : k2 < m.trace.length) (hlen : k2 + m.rise_time ≤ m.trace.length) :
    ∃ b1 b2 : ℚ, FebexMWD.pulses o m =
      [{ trigger := k1, crossing := k1, readout := k1 + (m.rise_time + m.delay_time),
         baseline := b1 },
       { trigger := k2, crossing := k2, readout := k2 + (m.rise_time + m.delay_time),
         baseline := b2 }] := by
  obtain ⟨v1, _, _, _, _, _, _, _⟩ := scan_view o m hf
  have hk12 : k1 ≤ k2 := by omega
  have G := two_step_shaped m k1 k2 A1 A2 hstep hk1 hk12
  have N := two_step_shaped_nonneg m k1 k2 A1 A2 hstep hk1 hk12
  have Z : ∀ j, j < m.trace.length → ¬ (k1 ≤ j ∧ j < k1 + m.delay_time) →
      ¬ (k2 ≤ j ∧ j < k2 + m.delay_time) → m.specShaped j = 0 := by
    intro j hj h1 h2
    rw [G j hj, if_neg h1, if_neg h2]
    simp
  -- before the first step
  have q1 : ∀ j, 5 ≤ j → j < 5 + (k1 - 5) →
      ¬ (FebexMWD.filter (FebexMWD.resizeAll m)).triggers o j := fun j _ hj =>
    rising_no_trigger o m hf N ht j (by omega) (Z j (by omega) (by omega) (by omega))
  have s1 := pulsesFrom_skip _ o (k1 - 5) 5 q1
  have e1 : 5 + (k1 - 5) = k1 := by omega
  rw [e1] at s1
  -- the first step
  have p1 := rising_emit o m hf k1 (A1 : ℚ) hk1 hd (by omega) (by omega)
    (by rw [G k1 (by omega), if_pos (by omega), if_neg (by omega)]; simp)
    (Z _ (by omega) (by omega) (by omega)) (Z _ (by omega) (by omega) (by omega))
    (Z _ (by omega) (by omega) (by omega)) ht hA1
  -- between the steps
  have q2 : ∀ j, k1 + (m.rise_time + m.delay_time) + (m.window + m.baseline_length) + 1 ≤ j →
      j < k1 + (m.rise_time + m.delay_time) + (m.window + m.baseline_length) + 1
        + (k2 - (k1 + (m.rise_time + m.delay_time) + (m.window + m.baseline_length) + 1)) →
      ¬ (FebexMWD.filter (FebexMWD.resizeAll m)).triggers o j := fun j h1 h2 =>
    rising_no_trigger o m hf N ht j (by omega) (Z j (by omega) (by omega) (by omega))
  have s2 := pulsesFrom_skip _ o
    (k2 - (k1 + (m.rise_time + m.delay_time) + (m.window + m.baseline_length) + 1)) _ q2
  have e2 : k1 + (m.rise_time + m.delay_time) + (m.window + m.baseline_length) + 1
      + (k2 - (k1 + (m.rise_time + m.delay_time) + (m.window + m.baseline_length) + 1)) = k2 := by
    omega
  rw [e2] at s2
  -- the second step
  have p2 := rising_emit o m hf k2 (A2 : ℚ) (by omega) hd hk2 hlen
    (by rw [G k2 hk2, if_neg (by omega), if_pos (by omega)]; simp)
    (Z _ (by omega) (by omega) (by omega)) (Z _ (by omega) (by omega) (by omega))
    (Z _ (by omega) (by omega) (by omega)) ht hA2
  -- behind the second step
  have q3 := pulsesFrom_quiet (FebexMWD.filter (FebexMWD.resizeAll m)) o
    (k2 + (m.rise_time + m.delay_time) + (m.window + m.baseline_length) + 1)
    (fun j h1 h2 => rising_no_trigger o m hf N ht j (by rw [← v1]; exact h2)
      (Z j (by rw [← v1]; exact h2) (by omega) (by omega)))
  refine ⟨if k1 ≥ m.baseline_length then
      (FebexMWD.filter (FebexMWD.resizeAll m)).stage4At o (k1 - m.baseline_length)
    else (FebexMWD.filter (FebexMWD.resizeAll m)).stage4At o 0,
    if k2 ≥ m.baseline_length then
      (FebexMWD.filter (FebexMWD.resizeAll m)).stage4At o (k2 - m.baseline_length)
    else (FebexMWD.filter (FebexMWD.resizeAll m)).stage4At o 0, ?_⟩
  rw [pulses_eq_pulsesFrom, s1, p1, s2, p2, q3]

/-- C14, amended. For every trace made of two step pulses on a zero baseline injected at
indices `k1 < k2` with `cfdDelay >= 1`, `k2 - k1 > riseTime + cfdDelay + window +
baselineLength` (the dead time of the scan behind a record) and `k2 - k1 > 2*cfdDelay`
(the cfd signals of the two steps do not overlap), each large enough to exceed the
positive threshold on its own (`cfdFraction*A > threshold`), with `k1 > cfdDelay + 5`,
the second step inside the trace and at least `riseTime` samples from `k2` to its end,
`FebexMWD::DoMWD` run on a freshly configured processor yields exactly two pulse
records. -/
theorem DoMWD_pile_up (o : Overread) (trace : List Nat)
    (k1 k2 A1 A2 riseTime decayTime flatTop baselineLength window cfdDelay : Nat)
    (threshold : Int) (fraction : ℚ)
    (hstep : ∀ i, i < trace.length →
      trace.getD i 0 = (if k1 ≤ i then A1 else 0) + (if k2 ≤ i then A2 else 0))
    (hd : cfdDelay ≥ 1) (hk1 : k1 > cfdDelay + 5)
    (hsep : k2 - k1 > riseTime + cfdDelay + window + baselineLength)
    (hsep2 : k2 - k1 > 2 * cfdDelay)
    (ht : threshold > 0) (hA1 : fraction * (A1 : ℚ) > (threshold : ℚ))
    (hA2 : fraction * (A2 : ℚ) > (threshold : ℚ))
    (hk2 : k2 < trace.length) (hlen : k2 + riseTime ≤ trace.length) :
    (FebexMWD.DoMWD o (FebexMWD.configured trace riseTime decayTime flatTop
      baselineLength window cfdDelay threshold fraction)).cfd_list.length = 2 ∧
    (FebexMWD.DoMWD o (FebexMWD.configured trace riseTime decayTime flatTop
      baselineLength window cfdDelay threshold fraction)).energy_list.length = 2 := by
  obtain ⟨b1, b2, hp⟩ := two_step_pulses o
    (FebexMWD.configured trace riseTime decayTime flatTop baselineLength window cfdDelay
      threshold fraction) (configured_fresh _ _ _ _ _ _ _ _ _) k1 k2 A1 A2 hstep hd hk1 hsep
    hsep2 ht hA1 hA2 hk2 hlen
  obtain ⟨h1, h2⟩ := DoMWD_lists o (FebexMWD.configured trace riseTime decayTime flatTop
      baselineLength window cfdDelay threshold fraction)
  rw [h1, h2, hp]
  exact ⟨rfl, rfl⟩

set_option maxRecDepth 100000 in
/-- C14 amended, at a concrete input: two steps of height 10 at samples 8 and 14 of twenty
samples, riseTime 2, cfdDelay 1, window 1, baselineLength 0, threshold 1, fraction 1/2. -/
theorem DoMWD_pile_up_witness :
    (∀ i, i < twoStepApartMWD.trace.length →
      twoStepApartMWD.trace.getD i 0 = (if 8 ≤ i then 10 else 0) + (if 14 ≤ i then 10 else 0)) ∧
    (14 : Nat) - 8 > 2 + 1 + 1 + 0 ∧ (14 : Nat) - 8 > 2 * 1 ∧
    (1 / 2 : ℚ) * ((10 : Nat) : ℚ) > ((1 : Int) : ℚ) ∧
    (FebexMWD.DoMWD zeroOverread twoStepApartMWD).energy_list.length = 2 :=
  ⟨by decide, by decide, by decide, by norm_num,
    (DoMWD_pile_up zeroOverread
      [0, 0, 0, 0, 0, 0, 0, 0, 10, 10, 10, 10, 10, 10, 20, 20, 20, 20, 20, 20]
      8 14 10 10 2 1 0 0 1 1 1 (1 / 2) (by decide) (by decide) (by decide) (by decide)
      (by decide) (by decide) (by norm_num) (by norm_num) (by decide) (by decide)).2⟩

/-! ## One rising step and the averaging window -/

theorem sum_map_range_const (g : Nat → ℚ) (c : ℚ) :
    ∀ n : Nat, (∀ t, t < n → g t = c) → ((List.range n).map g).sum = (n : ℚ) * c := by
  intro n
  induction n with
  | zero => intro _; simp
  | succ k ih =>
    intro h
    rw [List.range_succ, List.map_append, List.sum_append, ih (fun t ht => h t (by omega)),
      List.map_cons, List.map_nil, List.sum_cons, List.sum_nil, h k (by omega)]
    push_cast
    ring

/-- On one rising step of height `A` at index `k` on a zero baseline, with a positive
threshold that `fraction * A` exceeds, the scan of a fresh processor emits exactly one
pulse, at the step. -/
theorem one_step_pulses (o : Overread) (m : FebexMWD) (hf : m.Fresh) (k A : Nat)
    (hstep : ∀ i, i < m.trace.length → m.trace.getD i 0 = if i < k then 0 else A)
    (hd : m.delay_time ≥ 1) (hk : k > m.delay_time + 5)
    (ht : m.threshold > 0) (hA : m.fraction * (A : ℚ) > (m.threshold : ℚ))
    (hk2 : k < m.trace.length) (hlen : k + m.rise_time ≤ m.trace.length) :
    FebexMWD.pulses o m =
      [{ trigger := k, crossing := k, readout := k + (m.rise_time + m.delay_time),
         baseline := if k ≥ m.baseline_length then
             (FebexMWD.filter (FebexMWD.resizeAll m)).stage4At o (k - m.baseline_length)
           else (FebexMWD.filter (FebexMWD.resizeAll m)).stage4At o 0 }] := by
  obtain ⟨v1, _, _, _, _, _, _, _⟩ := scan_view o m hf
  have hstep2 : ∀ i, i < m.trace.length →
      m.trace.getD i 0 = (if k ≤ i then A else 0) + (if k ≤ i then 0 else 0) := by
    intro i hi
    rw [hstep i hi]
    by_cases h : i < k
    · rw [if_pos h, if_neg (by omega), if_neg (by omega)]
    · rw [if_neg h, if_pos (by omega), if_pos (by omega)]
      exact (Nat.add_zero A).symm
  have G := two_step_shaped m k k A 0 hstep2 hk (Nat.le_refl k)
  have N := two_step_shaped_nonneg m k k A 0 hstep2 hk (Nat.le_refl k)
  have Z : ∀ j, j < m.trace.length → ¬ (k ≤ j ∧ j < k + m.delay_time) →
      m.specShaped j = 0 := by
    intro j hj h1
    rw [G j hj, if_neg h1]
    simp
  have q1 : ∀ j, 5 ≤ j → j < 5 + (k - 5) →
      ¬ (FebexMWD.filter (FebexMWD.resizeAll m)).triggers o j := fun j _ hj =>
    rising_no_trigger o m hf N ht j (by omega) (Z j (by omega) (by omega))
  have s1 := pulsesFrom_skip _ o (k - 5) 5 q1
  have e1 : 5 + (k - 5) = k := by omega
  rw [e1] at s1
  have p1 := rising_emit o m hf k (A : ℚ) hk hd hk2 hlen
    (by rw [G k hk2, if_pos (by omega)]; simp)
    (Z _ (by omega) (by omega)) (Z _ (by omega) (by omega)) (Z _ (by omega) (by omega)) ht hA
  have q3 := pulsesFrom_quiet (FebexMWD.filter (FebexMWD.resizeAll m)) o
    (k + (m.rise_time + m.delay_time) + (m.window + m.baseline_length) + 1)
    (fun j h1 h2 => rising_no_trigger o m hf N ht j (by rw [← v1]; exact h2)
      (Z j (by rw [← v1]; exact h2) (by omega)))
  rw [pulses_eq_pulsesFrom, s1, p1, q3]

/-- The stages 3 and 4 on one rising step of height `A` at index `k`: stage 3 is 0 before
the step and `rise_time * A / decay_time` from `rise_time` samples behind it on; stage 4
is 0 before the step. -/
theorem one_step_stages (m : FebexMWD) (k A : Nat)
    (hstep : ∀ i, i < m.trace.length → m.trace.getD i 0 = if i < k then 0 else A)
    (hk : k > 5) :
    (∀ j, j < k → j < m.trace.length → m.specStage3 j = 0) ∧
    (∀ j, k + m.rise_time ≤ j → j < m.trace.length →
      m.specStage3 j = (m.rise_time : ℚ) * (A : ℚ) / (m.decay_time : ℚ)) ∧
    (∀ j, j < k → j < m.trace.length → m.specStage4 j = 0) := by
  have hs : ∀ i, i < m.trace.length → m.sample i = if i < k then 0 else (A : ℚ) := by
    intro i hi
    unfold FebexMWD.sample
    rw [hstep i hi]
    split <;> simp
  have h3a : ∀ j, j < k → j < m.trace.length → m.specStage3 j = 0 := by
    intro j hj hl
    unfold FebexMWD.specStage3 FebexMWD.specStage1 FebexMWD.specStage2
    by_cases hge : j ≥ m.rise_time + 5
    · simp only [if_pos hge]
      rw [hs j hl, hs _ (show j - m.rise_time < m.trace.length by omega), if_pos hj,
        if_pos (by omega), sum_map_range_const _ 0 _ (fun t _ => by
          rw [hs _ (show j - t < m.trace.length by omega), if_pos (by omega)])]
      simp
    · simp only [if_neg hge, add_zero]
  refine ⟨h3a, ?_, ?_⟩
  · intro j hj hl
    unfold FebexMWD.specStage3 FebexMWD.specStage1 FebexMWD.specStage2
    have hge : j ≥ m.rise_time + 5 := by omega
    simp only [if_pos hge]
    rw [hs j hl,
      hs _ (show j - m.rise_time < m.trace.length by omega), if_neg (by omega),
      if_neg (by omega), sum_map_range_const _ (A : ℚ) _ (fun t ht => by
        rw [hs _ (show j - t < m.trace.length by omega), if_neg (by omega)])]
    ring
  · intro j hj hl
    unfold FebexMWD.specStage4
    split
    · rw [sum_map_range_const _ 0 _ (fun t _ => h3a (j - t) (by omega) (by omega))]
      simp
    · rfl

/-- Of two values below `A`, the larger one is not further from `A`. -/
theorem below_no_further (a1 a2 A : ℚ) (h12 : a1 ≤ a2) (h2 : a2 ≤ A) :
    |a2 - A| ≤ |a1 - A| := by
  rw [abs_of_nonpos (by linarith), abs_of_nonpos (by linarith)]
  linarith

theorem same_no_further (a1 a2 c A : ℚ) (h1 : a1 = c) (h2 : a2 = c) :
    |a2 - A| ≤ |a1 - A| := by
  rw [h1, h2]

theorem prefix_mean_step (x : Nat → ℚ) (A c : ℚ) (d N : Nat)
    (hc : ∀ j, j ≤ d → x j = c) (hv : ∀ j, d < j → j < N → A ≤ x j)
    (n : Nat) (hn : 1 ≤ n) (hN : n + 1 ≤ N)
    (hA : ((List.range (n + 1)).map x).sum / ((n + 1 : Nat) : ℚ) ≤ A) :
    ((List.range n).map x).sum / (n : ℚ)
      ≤ ((List.range (n + 1)).map x).sum / ((n + 1 : Nat) : ℚ) := by
  have hn0 : (0 : ℚ) < (n : ℚ) := by exact_mod_cast hn
  have hn1 : (0 : ℚ) < ((n + 1 : Nat) : ℚ) := by exact_mod_cast Nat.succ_pos n
  have hsum : ((List.range (n + 1)).map x).sum = ((List.range n).map x).sum + x n := by
    rw [List.range_succ, List.map_append, List.sum_append]
    simp
  rw [hsum] at hA ⊢
  by_cases hd : n ≤ d
  · rw [sum_map_range_const x c n (fun t ht => hc t (by omega)), hc n hd]
    rw [div_le_div_iff₀ hn0 hn1]
    push_cast
    nlinarith
  · have hx : A ≤ x n := hv n (by omega) (by omega)
    rw [div_le_iff₀ hn1] at hA
    rw [div_le_div_iff₀ hn0 hn1]
    push_cast at hA ⊢
    nlinarith

/-- The means of the first `L` terms of a sequence that starts with `d + 1` equal terms
and goes on with terms of at least `A`: as long as such a mean is at most `A`, the means
of fewer terms are not above it. -/
theorem prefix_mean_mono (x : Nat → ℚ) (A c : ℚ) (d N : Nat)
    (hc : ∀ j, j ≤ d → x j = c) (hv : ∀ j, d < j → j < N → A ≤ x j)
    (L1 : Nat) (h1 : 1 ≤ L1) :
    ∀ L2 : Nat, L1 ≤ L2 → L2 ≤ N → ((List.range L2).map x).sum / (L2 : ℚ) ≤ A →
      ((List.range L1).map x).sum / (L1 : ℚ) ≤ ((List.range L2).map x).sum / (L2 : ℚ) := by
  intro L2 h12
  induction L2, h12 using Nat.le_induction with
  | base => intro _ _; exact le_refl _
  | succ n hn ih =>
    intro hN hA
    have hstep := prefix_mean_step x A c d N hc hv n (by omega) hN hA
    exact le_trans (ih (by omega) (le_trans hstep hA)) hstep

theorem sum_map_range_le (g : Nat → ℚ) (c : ℚ) :
    ∀ n : Nat, (∀ t, t < n → g t ≤ c) → ((List.range n).map g).sum ≤ (n : ℚ) * c := by
  intro n
  induction n with
  | zero => intro _; simp
  | succ k ih =>
    intro h
    rw [List.range_succ, List.map_append, List.sum_append, List.map_cons, List.map_nil,
      List.sum_cons, List.sum_nil]
    have h1 := ih (fun t ht => h t (by omega))
    have h2 := h k (by omega)
    push_cast
    linarith

/-- The sum of the first `L` terms of a sequence that starts with `d + 1` terms `c` and
goes on with terms of at most `A + c`. -/
theorem prefix_sum_le (x : Nat → ℚ) (A c : ℚ) (d N : Nat)
    (hc : ∀ j, j ≤ d → x j = c) (hu : ∀ j, d < j → j < N → x j ≤ A + c) :
    ∀ L : Nat, L ≤ N →
      ((List.range L).map x).sum ≤ (L : ℚ) * c + ((L - (d + 1) : Nat) : ℚ) * A := by
  intro L
  induction L with
  | zero => intro _; simp
  | succ n ih =>
    intro hN
    rw [List.range_succ, List.map_append, List.sum_append, List.map_cons, List.map_nil,
      List.sum_cons, List.sum_nil]
    have h1 := ih (by omega)
    by_cases hd : n ≤ d
    · have e1 : n + 1 - (d + 1) = 0 := by omega
      have e2 : n - (d + 1) = 0 := by omega
      rw [e1]
      rw [e2] at h1
      rw [hc n hd]
      push_cast at h1 ⊢
      linarith
    · have e1 : n + 1 - (d + 1) = (n - (d + 1)) + 1 := by omega
      rw [e1]
      have h2 := hu n (by omega) (by omega)
      push_cast at h1 ⊢
      linarith

/-- The mean of the first `L` terms of such a sequence, with `c = M * A / T`, is at most
`A` when `M * (M + d + 1) <= (d + 1) * T`. -/
theorem prefix_mean_le (x : Nat → ℚ) (A d N M T : Nat)
    (hc : ∀ j, j ≤ d → x j = (M : ℚ) * (A : ℚ) / (T : ℚ))
    (hu : ∀ j, d < j → j < N → x j ≤ (A : ℚ) + (M : ℚ) * (A : ℚ) / (T : ℚ))
    (hT : 0 < T) (L : Nat) (h1 : 1 ≤ L) (hL : L ≤ N) (hLM : L ≤ M + d + 1)
    (hP : M * (M + d + 1) ≤ (d + 1) * T) :
    ((List.range L).map x).sum / (L : ℚ) ≤ (A : ℚ) := by
  have hsum := prefix_sum_le x (A : ℚ) _ d N hc hu L hL
  have hMT : M ≤ T := by
    have h : (d + 1) * M ≤ (d + 1) * T :=
      le_trans (by rw [Nat.mul_comm]; exact Nat.mul_le_mul_left M (by omega)) hP
    exact Nat.le_of_mul_le_mul_left h (by omega)
  have hLMT : L * M ≤ (d + 1) * T :=
    le_trans (by rw [Nat.mul_comm L M]; exact Nat.mul_le_mul_left M hLM) hP
  have hLpos : (0 : ℚ) < (L : ℚ) := by exact_mod_cast h1
  have hTpos : (0 : ℚ) < (T : ℚ) := by exact_mod_cast hT
  have hA0 : (0 : ℚ) ≤ (A : ℚ) := Nat.cast_nonneg A
  have hMTq : (M : ℚ) ≤ (T : ℚ) := by exact_mod_cast hMT
  have hLMTq : (L : ℚ) * (M : ℚ) ≤ ((d : ℚ) + 1) * (T : ℚ) := by exact_mod_cast hLMT
  have hcA : (M : ℚ) * (A : ℚ) / (T : ℚ) ≤ (A : ℚ) := by
    rw [div_le_iff₀ hTpos]
    exact mul_le_mul_of_nonneg_right hMTq hA0 |>.trans (le_of_eq (mul_comm _ _))
  have hLc : (L : ℚ) * ((M : ℚ) * (A : ℚ) / (T : ℚ)) ≤ ((d : ℚ) + 1) * (A : ℚ) := by
    rw [← mul_div_assoc, div_le_iff₀ hTpos]
    have := mul_le_mul_of_nonneg_right hLMTq hA0
    calc (L : ℚ) * ((M : ℚ) * (A : ℚ)) = (L : ℚ) * (M : ℚ) * (A : ℚ) := by ring
      _ ≤ ((d : ℚ) + 1) * (T : ℚ) * (A : ℚ) := this
      _ = ((d : ℚ) + 1) * (A : ℚ) * (T : ℚ) := by ring
  rw [div_le_iff₀ hLpos]
  by_cases hcase : L ≤ d + 1
  · have e : L - (d + 1) = 0 := by omega
    rw [e] at hsum
    have h2 := mul_le_mul_of_nonneg_left hcA (le_of_lt hLpos)
    push_cast at hsum
    linarith
  · have e : ((L - (d + 1) : Nat) : ℚ) = (L : ℚ) - ((d : ℚ) + 1) := by
      rw [Nat.cast_sub (by omega)]
      push_cast
      ring
    rw [e] at hsum
    linarith

/-- Stage 3 on the rise of one step of height `A` at index `k` (the `rise_time` samples
from `k` on): at least `A`, when the step lies behind the start-up of the filter and the
decay time is positive. -/
theorem one_step_stage3_rise (m : FebexMWD) (k A : Nat)
    (hstep : ∀ i, i < m.trace.length → m.trace.getD i 0 = if i < k then 0 else A)
    (hkM : k ≥ m.rise_time + 5) (hdec : 0 < m.decay_time) :
    ∀ j, k ≤ j → j < k + m.rise_time → j < m.trace.length → (A : ℚ) ≤ m.specStage3 j := by
  intro j hj1 hj2 hl
  have hs : ∀ i, i < m.trace.length → m.sample i = if i < k then 0 else (A : ℚ) := by
    intro i hi
    unfold FebexMWD.sample
    rw [hstep i hi]
    split <;> simp
  have hnn : ∀ i, 0 ≤ m.sample i := by
    intro i
    unfold FebexMWD.sample
    exact_mod_cast Int.natCast_nonneg _
  unfold FebexMWD.specStage3 FebexMWD.specStage1 FebexMWD.specStage2
  have hge : j ≥ m.rise_time + 5 := by omega
  simp only [if_pos hge]
  rw [hs j hl, hs _ (show j - m.rise_time < m.trace.length by omega), if_neg (by omega),
    if_pos (by omega)]
  have hsum : 0 ≤ ((List.range m.rise_time).map fun t => m.sample (j - t)).sum := by
    apply List.sum_nonneg
    intro y hy
    obtain ⟨t, _, rfl⟩ := List.mem_map.mp hy
    exact hnn _
  have hdec' : (0 : ℚ) < (m.decay_time : ℚ) := by exact_mod_cast hdec
  have := div_nonneg hsum (le_of_lt hdec')
  linarith

/-- Stage 3 on the rise of one step of height `A` at index `k`: at most
`A + rise_time * A / decay_time`. -/
theorem one_step_stage3_rise_le (m : FebexMWD) (k A : Nat)
    (hstep : ∀ i, i < m.trace.length → m.trace.getD i 0 = if i < k then 0 else A)
    (hkM : k ≥ m.rise_time + 5) (hdec : 0 < m.decay_time) :
    ∀ j, k ≤ j → j < k + m.rise_time → j < m.trace.length →
      m.specStage3 j ≤ (A : ℚ) + (m.rise_time : ℚ) * (A : ℚ) / (m.decay_time : ℚ) := by
  intro j hj1 hj2 hl
  have hs : ∀ i, i < m.trace.length → m.sample i = if i < k then 0 else (A : ℚ) := by
    intro i hi
    unfold FebexMWD.sample
    rw [hstep i hi]
    split <;> simp
  have hle : ∀ i, i < m.trace.length → m.sample i ≤ (A : ℚ) := by
    intro i hi
    rw [hs i hi]
    split
    · exact Nat.cast_nonneg A
    · exact le_refl _
  unfold FebexMWD.specStage3 FebexMWD.specStage1 FebexMWD.specStage2
  have hge : j ≥ m.rise_time + 5 := by omega
  simp only [if_pos hge]
  rw [hs j hl, hs _ (show j - m.rise_time < m.trace.length by omega), if_neg (by omega),
    if_pos (by omega)]
  have hsum := sum_map_range_le (fun t => m.sample (j - t)) (A : ℚ) m.rise_time
    (fun t _ => hle _ (by omega))
  have hdec' : (0 : ℚ) < (m.decay_time : ℚ) := by exact_mod_cast hdec
  have := div_le_div_of_nonneg_right hsum (le_of_lt hdec')
  linarith

/-- On one rising step of height `A`, with `baseline_length >= 1` and a window that does
not reach back below index 5 from the read-out index, the single record of a fresh
processor has as amplitude the mean of the `window` values of stage 3 up to the read-out
index `k + rise_time + delay_time`. -/
theorem one_step_energy_mean (o : Overread) (m : FebexMWD) (hf : m.Fresh) (k A : Nat)
    (hstep : ∀ i, i < m.trace.length → m.trace.getD i 0 = if i < k then 0 else A)
    (hd : m.delay_time ≥ 1) (hk : k > m.delay_time + 5)
    (ht : m.threshold > 0) (hA : m.fraction * (A : ℚ) > (m.threshold : ℚ))
    (hbl : m.baseline_length ≥ 1)
    (hL2 : m.window + 5 ≤ k + m.rise_time + m.delay_time)
    (hlen : k + m.rise_time + m.delay_time < m.trace.length) :
    (FebexMWD.DoMWD o m).energy_list
      = [((List.range m.window).map
          fun j => m.specStage3 (k + (m.rise_time + m.delay_time) - j)).sum
        / (m.window : ℚ)] := by
  obtain ⟨_, _, _, _, _, _, _, v8⟩ := scan_view o m hf
  obtain ⟨h3a, h3b, h4⟩ := one_step_stages m k A hstep (by omega)
  have hp := one_step_pulses o m hf k A hstep hd hk ht hA (by omega) (by omega)
  have hread : (FebexMWD.filter (FebexMWD.resizeAll m)).stage4At o
      (k + (m.rise_time + m.delay_time))
      = ((List.range m.window).map
          fun j => m.specStage3 (k + (m.rise_time + m.delay_time) - j)).sum
        / (m.window : ℚ) := by
    rw [v8 _ (by omega)]
    unfold FebexMWD.specStage4
    rw [if_pos (show k + (m.rise_time + m.delay_time) ≥ m.window + 5 by omega)]
  have hbase : (if k ≥ m.baseline_length then
        (FebexMWD.filter (FebexMWD.resizeAll m)).stage4At o (k - m.baseline_length)
      else (FebexMWD.filter (FebexMWD.resizeAll m)).stage4At o 0) = 0 := by
    split
    · rw [v8 _ (by omega)]
      exact h4 _ (by omega) (by omega)
    · rw [v8 _ (by omega)]
      exact h4 _ (by omega) (by omega)
  rw [(DoMWD_lists o m).2, hp, hf.2.2.2.2.2.2.1]
  simp only [List.map_cons, List.map_nil, List.nil_append, hread, hbase, sub_zero]

/-- C15, amended. For a noiseless step trace (samples 0 before index `k`, `A` from `k`
on) with `k > cfdDelay + 5` and `k >= riseTime + 5`, parameters with `decayTime > 0`,
`cfdDelay >= 1`, `baselineLength >= 1` and a positive threshold that `cfdFraction*A`
exceeds, all index sums below `2^32`, and any two windows
`1 <= L1 < L2 <= riseTime + cfdDelay + 1` with all other parameters equal and the read-out
index `k + riseTime + cfdDelay` inside the trace: with either window `DoMWD` emits exactly
one record, and the index at which the scan resumes is formed without wrap-around.  If
rawAmplitude(L2) does not exceed `A`, then rawAmplitude(L1) <= rawAmplitude(L2) and
`|rawAmplitude(L2) - A| <= |rawAmplitude(L1) - A|`; and rawAmplitude(L2) does not exceed
`A` whenever `riseTime * (riseTime + cfdDelay + 1) <= (cfdDelay + 1) * decayTime`.  For
`L2 <= cfdDelay + 1` both amplitudes are `riseTime*A/decayTime`, and the inequality holds
with equality. -/
theorem DoMWD_window_no_further (o : Overread) (trace : List Nat)
    (k A riseTime decayTime flatTop baselineLength cfdDelay L1 L2 : Nat)
    (threshold : Int) (fraction : ℚ)
    (hstep : ∀ i, i < trace.length → trace.getD i 0 = if i < k then 0 else A)
    (hdec : decayTime > 0) (hd : cfdDelay ≥ 1) (hk : k > cfdDelay + 5)
    (hkM : k ≥ riseTime + 5)
    (ht : threshold > 0) (hA : fraction * (A : ℚ) > (threshold : ℚ))
    (hbl : baselineLength ≥ 1) (hL1 : 1 ≤ L1) (h12 : L1 < L2)
    (hL2 : L2 ≤ riseTime + cfdDelay + 1)
    (hlen : k + riseTime + cfdDelay < trace.length)
    (hrange : trace.length + riseTime + cfdDelay + L2 + baselineLength + 5 < 2 ^ 32) :
    (k + (riseTime + cfdDelay) + (L2 + baselineLength) + 1) % 2 ^ 32
      = k + (riseTime + cfdDelay) + (L2 + baselineLength) + 1 ∧
    ∃ a1 a2 : ℚ,
      (FebexMWD.DoMWD o (FebexMWD.configured trace riseTime decayTime flatTop baselineLength
        L1 cfdDelay threshold fraction)).energy_list = [a1] ∧
      (FebexMWD.DoMWD o (FebexMWD.configured trace riseTime decayTime flatTop baselineLength
        L2 cfdDelay threshold fraction)).energy_list = [a2] ∧
      (a2 ≤ (A : ℚ) → a1 ≤ a2 ∧ |a2 - (A : ℚ)| ≤ |a1 - (A : ℚ)|) ∧
      (riseTime * (riseTime + cfdDelay + 1) ≤ (cfdDelay + 1) * decayTime → a2 ≤ (A : ℚ)) ∧
      (L2 ≤ cfdDelay + 1 →
        a1 = (riseTime : ℚ) * (A : ℚ) / (decayTime : ℚ) ∧
        a2 = (riseTime : ℚ) * (A : ℚ) / (decayTime : ℚ) ∧
        |a2 - (A : ℚ)| ≤ |a1 - (A : ℚ)|) := by
  refine ⟨Nat.mod_eq_of_lt (by omega), ?_⟩
  have e1 := one_step_energy_mean o (FebexMWD.configured trace riseTime decayTime flatTop
    baselineLength L1 cfdDelay threshold fraction) (configured_fresh _ _ _ _ _ _ _ _ _) k A
    hstep hd hk ht hA hbl (show L1 + 5 ≤ k + riseTime + cfdDelay by omega) hlen
  have e2 := one_step_energy_mean o (FebexMWD.configured trace riseTime decayTime flatTop
    baselineLength L2 cfdDelay threshold fraction) (configured_fresh _ _ _ _ _ _ _ _ _) k A
    hstep hd hk ht hA hbl (show L2 + 5 ≤ k + riseTime + cfdDelay by omega) hlen
  obtain ⟨_, h3b, _⟩ := one_step_stages (FebexMWD.configured trace riseTime decayTime
    flatTop baselineLength L2 cfdDelay threshold fraction) k A hstep (by omega)
  have hrise := one_step_stage3_rise (FebexMWD.configured trace riseTime decayTime
    flatTop baselineLength L2 cfdDelay threshold fraction) k A hstep hkM hdec
  have hc : ∀ j, j ≤ cfdDelay →
      (FebexMWD.configured trace riseTime decayTime flatTop baselineLength L2 cfdDelay
        threshold fraction).specStage3 (k + (riseTime + cfdDelay) - j)
      = (riseTime : ℚ) * (A : ℚ) / (decayTime : ℚ) := fun j hj =>
    h3b _ (show k + riseTime ≤ k + (riseTime + cfdDelay) - j by omega)
      (show k + (riseTime + cfdDelay) - j < trace.length by omega)
  have hv : ∀ j, cfdDelay < j → j < riseTime + cfdDelay + 1 → (A : ℚ) ≤
      (FebexMWD.configured trace riseTime decayTime flatTop baselineLength L2 cfdDelay
        threshold fraction).specStage3 (k + (riseTime + cfdDelay) - j) := fun j h1 h2 =>
    hrise _ (show k ≤ k + (riseTime + cfdDelay) - j by omega)
      (show k + (riseTime + cfdDelay) - j < k + riseTime by omega)
      (show k + (riseTime + cfdDelay) - j < trace.length by omega)
  have hrise2 := one_step_stage3_rise_le (FebexMWD.configured trace riseTime decayTime
    flatTop baselineLength L2 cfdDelay threshold fraction) k A hstep hkM hdec
  have hu : ∀ j, cfdDelay < j → j < riseTime + cfdDelay + 1 →
      (FebexMWD.configured trace riseTime decayTime flatTop baselineLength L2 cfdDelay
        threshold fraction).specStage3 (k + (riseTime + cfdDelay) - j)
      ≤ (A : ℚ) + (riseTime : ℚ) * (A : ℚ) / (decayTime : ℚ) := fun j h1 h2 =>
    hrise2 _ (show k ≤ k + (riseTime + cfdDelay) - j by omega)
      (show k + (riseTime + cfdDelay) - j < k + riseTime by omega)
      (show k + (riseTime + cfdDelay) - j < trace.length by omega)
  have hbound : riseTime * (riseTime + cfdDelay + 1) ≤ (cfdDelay + 1) * decayTime →
      ((List.range L2).map fun j =>
        (FebexMWD.configured trace riseTime decayTime flatTop baselineLength L2 cfdDelay
          threshold fraction).specStage3 (k + (riseTime + cfdDelay) - j)).sum / (L2 : ℚ)
      ≤ (A : ℚ) := fun hP =>
    prefix_mean_le _ A cfdDelay (riseTime + cfdDelay + 1) riseTime decayTime hc hu hdec L2
      (by omega) hL2 hL2 hP
  refine ⟨_, _, e1, e2, ?_, hbound, ?_⟩
  · intro ha2
    have hmono := prefix_mean_mono _ (A : ℚ) _ cfdDelay (riseTime + cfdDelay + 1) hc hv L1 hL1
      L2 (by omega) hL2 ha2
    have hmono' : ((List.range L1).map fun j =>
          (FebexMWD.configured trace riseTime decayTime flatTop baselineLength L1 cfdDelay
            threshold fraction).specStage3 (k + (riseTime + cfdDelay) - j)).sum / (L1 : ℚ)
        ≤ ((List.range L2).map fun j =>
          (FebexMWD.configured trace riseTime decayTime flatTop baselineLength L2 cfdDelay
            threshold fraction).specStage3 (k + (riseTime + cfdDelay) - j)).sum / (L2 : ℚ) :=
      hmono
    exact ⟨hmono', below_no_further _ _ _ hmono' ha2⟩
  · intro hL
    have hconst : ∀ L : Nat, 1 ≤ L → L ≤ cfdDelay + 1 →
        ((List.range L).map fun j =>
          (FebexMWD.configured trace riseTime decayTime flatTop baselineLength L2 cfdDelay
            threshold fraction).specStage3 (k + (riseTime + cfdDelay) - j)).sum / (L : ℚ)
        = (riseTime : ℚ) * (A : ℚ) / (decayTime : ℚ) := by
      intro L h1 h2
      have hw : ((L : Nat) : ℚ) ≠ 0 := by
        have : 0 < L := h1
        exact_mod_cast (Nat.pos_iff_ne_zero.mp this)
      rw [sum_map_range_const _ ((riseTime : ℚ) * (A : ℚ) / (decayTime : ℚ)) L
        (fun t ht => hc t (by omega))]
      exact mul_div_cancel_left₀ _ hw
    exact ⟨hconst L1 hL1 (by omega), hconst L2 (by omega) hL,
      same_no_further _ _ _ _ (hconst L1 hL1 (by omega)) (hconst L2 (by omega) hL)⟩

set_option maxRecDepth 100000 in
/-- C15 amended, at a concrete input: the step of height 100 at sample 14 of forty samples
with riseTime 2, decayTime 100, baselineLength 1, cfdDelay 1, threshold 1, fraction 1/2
and the windows 3 and 4: the amplitudes are 106/3 and 207/4. -/
theorem DoMWD_window_no_further_witness :
    (∀ i, i < stepTrace.length → stepTrace.getD i 0 = if i < 14 then 0 else 100) ∧
    (1 / 2 : ℚ) * ((100 : Nat) : ℚ) > ((1 : Int) : ℚ) ∧ 14 + 2 + 1 < stepTrace.length ∧
    stepTrace.length + 2 + 1 + 4 + 1 + 5 < 2 ^ 32 ∧
    (FebexMWD.DoMWD zeroOverread (stepWindowMWD 3)).energy_list = [106 / 3] ∧
    (FebexMWD.DoMWD zeroOverread (stepWindowMWD 4)).energy_list = [207 / 4] ∧
    ((14 + (2 + 1) + (4 + 1) + 1) % 2 ^ 32 = 14 + (2 + 1) + (4 + 1) + 1 ∧
    ∃ a1 a2 : ℚ,
      (FebexMWD.DoMWD zeroOverread (stepWindowMWD 3)).energy_list = [a1] ∧
      (FebexMWD.DoMWD zeroOverread (stepWindowMWD 4)).energy_list = [a2] ∧
      (a2 ≤ ((100 : Nat) : ℚ) → a1 ≤ a2 ∧ |a2 - ((100 : Nat) : ℚ)| ≤ |a1 - ((100 : Nat) : ℚ)|) ∧
      (2 * (2 + 1 + 1) ≤ (1 + 1) * 100 → a2 ≤ ((100 : Nat) : ℚ)) ∧
      (4 ≤ 1 + 1 →
        a1 = ((2 : Nat) : ℚ) * ((100 : Nat) : ℚ) / ((100 : Nat) : ℚ) ∧
        a2 = ((2 : Nat) : ℚ) * ((100 : Nat) : ℚ) / ((100 : Nat) : ℚ) ∧
        |a2 - ((100 : Nat) : ℚ)| ≤ |a1 - ((100 : Nat) : ℚ)|)) :=
  ⟨by decide, by norm_num, by decide, by decide, by with_unfolding_all decide,
    by with_unfolding_all decide,
    DoMWD_window_no_further zeroOverread stepTrace 14 100 2 100 0 1 1 3 4 1 (1 / 2)
      (by decide) (by decide) (by decide) (by decide) (by decide) (by decide) (by norm_num)
      (by decide) (by decide) (by decide) (by decide) (by decide) (by decide)⟩

/-! ## Where the scan resumes after a pulse -/

/-- Every pulse of the scan started at `i`: its trigger index is at or behind `i` and
inside the trace, its crossing index is where the zero-crossing search started at the
trigger index stopped, and its read-out index is `rise_time + delay_time` behind it. -/
theorem scanPulses_mem (m : FebexMWD) (o : Overread) (len : Nat) :
    ∀ (fuel i : Nat) (p : Pulse), p ∈ FebexMWD.scanPulses m o len fuel i →
      i ≤ p.trigger ∧ p.trigger < len ∧
      p.crossing = FebexMWD.zeroCrossing m o len (len - p.trigger) p.trigger ∧
      p.readout = p.crossing + (m.rise_time + m.delay_time) := by
  intro fuel
  induction fuel with
  | zero => intro i p hp; simp [FebexMWD.scanPulses] at hp
  | succ f ih =>
    intro i p hp
    have hz := zeroCrossing_ge m o len (len - i) i
    simp only [FebexMWD.scanPulses] at hp
    split at hp
    · rename_i hi
      split at hp
      · split at hp
        · obtain ⟨h1, h2⟩ := ih _ p hp
          exact ⟨by omega, h2⟩
        · split at hp
          · obtain ⟨h1, h2⟩ := ih _ p hp
            exact ⟨by omega, h2⟩
          · split at hp
            · simp at hp
            · rcases List.mem_cons.mp hp with hp | hp
              · subst hp
                exact ⟨Nat.le_refl i, hi, rfl, rfl⟩
              · obtain ⟨h1, h2⟩ := ih _ p hp
                exact ⟨by omega, h2⟩
      · obtain ⟨h1, h2⟩ := ih _ p hp
        exact ⟨by omega, h2⟩
    · simp at hp

theorem scanLog_fuel (m : FebexMWD) (o : Overread) (len : Nat) :
    ∀ (f1 f2 i : Nat), len - i ≤ f1 → len - i ≤ f2 →
      FebexMWD.scanLog m o len f1 i = FebexMWD.scanLog m o len f2 i := by
  intro f1
  induction f1 with
  | zero =>
    intro f2 i h1 _
    cases f2 with
    | zero => rfl
    | succ g =>
      have hi : ¬ i < len := by omega
      simp only [FebexMWD.scanLog, if_neg hi]
  | succ f ih =>
    intro f2 i h1 h2
    cases f2 with
    | zero =>
      have hi : ¬ i < len := by omega
      simp only [FebexMWD.scanLog, if_neg hi]
    | succ g =>
      have hz := zeroCrossing_ge m o len (len - i) i
      simp only [FebexMWD.scanLog]
      split
      · split
        · split
          · rw [ih g _ (by omega) (by omega)]
          · split
            · rw [ih g _ (by omega) (by omega)]
            · split
              · rfl
              · rw [ih g _ (by omega) (by omega)]
        · rw [ih g _ (by omega) (by omega)]
      · rfl

/-- The pulses of the scan are the records emitted by its iterations, in order. -/
theorem scanPulses_eq_scanLog (m : FebexMWD) (o : Overread) (len : Nat) :
    ∀ (fuel i : Nat), FebexMWD.scanPulses m o len fuel i
      = (FebexMWD.scanLog m o len fuel i).filterMap ScanStep.emitted := by
  intro fuel
  induction fuel with
  | zero => intro i; rfl
  | succ f ih =>
    intro i
    simp only [FebexMWD.scanPulses, FebexMWD.scanLog]
    split
    · split
      · split
        · rw [ih]; rfl
        · split
          · rw [ih]; rfl
          · split
            · rfl
            · rw [ih]; rfl
      · rw [ih]; rfl
    · rfl

/-- The pulses of `DoMWD` are the records emitted by the iterations of its scan. -/
theorem pulses_eq_log (o : Overread) (m : FebexMWD) :
    FebexMWD.pulses o m = (FebexMWD.log o m).filterMap ScanStep.emitted :=
  scanPulses_eq_scanLog _ o _ _ _

/-- The scan started at `i` examines no index below `i`. -/
theorem scanLog_ge (m : FebexMWD) (o : Overread) (len : Nat) :
    ∀ (fuel i : Nat) (s : ScanStep), s ∈ FebexMWD.scanLog m o len fuel i → i ≤ s.examined := by
  intro fuel
  induction fuel with
  | zero => intro i s hs; simp [FebexMWD.scanLog] at hs
  | succ f ih =>
    intro i s hs
    have hz := zeroCrossing_ge m o len (len - i) i
    simp only [FebexMWD.scanLog] at hs
    split at hs
    · split at hs
      · split at hs
        · rcases List.mem_cons.mp hs with h | h
          · subst h; exact Nat.le_refl i
          · have := ih _ s h; omega
        · split at hs
          · rcases List.mem_cons.mp hs with h | h
            · subst h; exact Nat.le_refl i
            · have := ih _ s h; omega
          · split at hs
            · rw [List.mem_singleton] at hs
              subst hs; exact Nat.le_refl i
            · rcases List.mem_cons.mp hs with h | h
              · subst h; exact Nat.le_refl i
              · have := ih _ s h; omega
      · rcases List.mem_cons.mp hs with h | h
        · subst h; exact Nat.le_refl i
        · have := ih _ s h; omega
    · simp at hs

/-- The scan started at an index inside the trace examines that index first. -/
theorem scanLog_head (m : FebexMWD) (o : Overread) (len fuel i : Nat) (hi : i < len) :
    ∃ s : ScanStep, (FebexMWD.scanLog m o len (fuel + 1) i)[0]? = some s ∧ s.examined = i := by
  simp only [FebexMWD.scanLog, if_pos hi]
  split
  · split
    · exact ⟨_, List.getElem?_cons_zero, rfl⟩
    · split
      · exact ⟨_, List.getElem?_cons_zero, rfl⟩
      · split
        · exact ⟨_, List.getElem?_cons_zero, rfl⟩
        · exact ⟨_, List.getElem?_cons_zero, rfl⟩
  · exact ⟨_, List.getElem?_cons_zero, rfl⟩

/-- The scan started at or behind the end of the trace examines nothing. -/
theorem scanLog_end (m : FebexMWD) (o : Overread) (len fuel i : Nat) (hi : len ≤ i) :
    FebexMWD.scanLog m o len fuel i = [] := by
  cases fuel with
  | zero => rfl
  | succ f =>
    have h : ¬ i < len := by omega
    simp only [FebexMWD.scanLog, if_neg h]

/-- After the iteration that emits a pulse, the scan goes on as a scan started one index
behind `readout + (window + baseline_length)`; the pulse was triggered at the examined
index. -/
theorem scanLog_resume (m : FebexMWD) (o : Overread) (len : Nat) :
    ∀ (fuel i n : Nat) (s : ScanStep) (p : Pulse), len - i ≤ fuel →
      (FebexMWD.scanLog m o len fuel i)[n]? = some s → s.emitted = some p →
      p.trigger = s.examined ∧
      (FebexMWD.scanLog m o len fuel i).drop (n + 1)
        = FebexMWD.scanLog m o len
            (len - (p.readout + (m.window + m.baseline_length) + 1))
            (p.readout + (m.window + m.baseline_length) + 1) := by
  intro fuel
  induction fuel with
  | zero => intro i n s p _ hs; simp [FebexMWD.scanLog] at hs
  | succ f ih =>
    intro i n s p hf hs he
    have hz := zeroCrossing_ge m o len (len - i) i
    simp only [FebexMWD.scanLog] at hs ⊢
    split at hs
    · rename_i hi
      simp only [if_pos hi]
      split at hs
      · rename_i ht
        simp only [if_pos ht]
        split at hs
        · rename_i h1
          simp only [if_pos h1]
          cases n with
          | zero =>
            simp only [List.getElem?_cons_zero, Option.some.injEq] at hs
            subst hs
            exact Option.noConfusion he
          | succ k =>
            rw [List.getElem?_cons_succ] at hs
            rw [List.drop_succ_cons]
            exact ih _ k s p (by omega) hs he
        · rename_i h1
          simp only [if_neg h1]
          split at hs
          · rename_i h2
            simp only [if_pos h2]
            cases n with
            | zero =>
              simp only [List.getElem?_cons_zero, Option.some.injEq] at hs
              subst hs
              exact Option.noConfusion he
            | succ k =>
              rw [List.getElem?_cons_succ] at hs
              rw [List.drop_succ_cons]
              exact ih _ k s p (by omega) hs he
          · rename_i h2
            simp only [if_neg h2]
            split at hs
            · cases n with
              | zero =>
                simp only [List.getElem?_cons_zero, Option.some.injEq] at hs
                subst hs
                exact Option.noConfusion he
              | succ k =>
                simp at hs
            · rename_i h3
              simp only [if_neg h3]
              cases n with
              | zero =>
                simp only [List.getElem?_cons_zero, Option.some.injEq] at hs
                subst hs
                simp only [Option.some.injEq] at he
                subst he
                refine ⟨rfl, ?_⟩
                rw [List.drop_succ_cons, List.drop_zero]
                exact scanLog_fuel m o len _ _ _ (by omega) (Nat.le_refl _)
              | succ k =>
                rw [List.getElem?_cons_succ] at hs
                rw [List.drop_succ_cons]
                exact ih _ k s p (by omega) hs he
      · rename_i ht
        simp only [if_neg ht]
        cases n with
        | zero =>
          simp only [List.getElem?_cons_zero, Option.some.injEq] at hs
          subst hs
          exact Option.noConfusion he
        | succ k =>
          rw [List.getElem?_cons_succ] at hs
          rw [List.drop_succ_cons]
          exact ih _ k s p (by omega) hs he
    · simp at hs

/-- C21, as the code has it.  On a processor whose index sums stay below `2^32`, when the
`n`-th iteration of the scan of `DoMWD` emits a pulse record with amplitude read-out
index `r` (it is the record triggered at the index that iteration examined), the index
`r + window + baselineLength + 1` is formed without wrap-around and every later
iteration examines an index of at least `r + window + baselineLength + 1`; when that
index lies inside the trace it is the very next index at which the threshold condition
is evaluated, and otherwise the scan is over.  In particular the index
`r + window + baselineLength` itself is never examined afterwards. -/
theorem DoMWD_resume (o : Overread) (m : FebexMWD) (hr : m.InRange) (n : Nat) (s : ScanStep)
    (p : Pulse) (hs : (FebexMWD.log o m)[n]? = some s) (he : s.emitted = some p) :
    p.trigger = s.examined ∧
    (p.readout + m.window + m.baseline_length + 1) % 2 ^ 32
      = p.readout + m.window + m.baseline_length + 1 ∧
    (∀ (k : Nat) (s2 : ScanStep), n < k → (FebexMWD.log o m)[k]? = some s2 →
      p.readout + m.window + m.baseline_length + 1 ≤ s2.examined) ∧
    (p.readout + m.window + m.baseline_length + 1 < m.trace.length →
      ∃ s2 : ScanStep, (FebexMWD.log o m)[n + 1]? = some s2 ∧
        s2.examined = p.readout + m.window + m.baseline_length + 1) ∧
    (m.trace.length ≤ p.readout + m.window + m.baseline_length + 1 →
      (FebexMWD.log o m).length = n + 1) := by
  have hsetup := SameSetup_trans (filter_setup (FebexMWD.resizeAll m)) (resizeAll_setup m)
  have hlen : (FebexMWD.filter (FebexMWD.resizeAll m)).trace.length = m.trace.length := by
    rw [hsetup.1]
  have hw : (FebexMWD.filter (FebexMWD.resizeAll m)).window = m.window := hsetup.2.2.2.2.2.1
  have hb : (FebexMWD.filter (FebexMWD.resizeAll m)).baseline_length = m.baseline_length :=
    hsetup.2.2.2.2.1
  have hM : (FebexMWD.filter (FebexMWD.resizeAll m)).rise_time = m.rise_time := hsetup.2.1
  have hD : (FebexMWD.filter (FebexMWD.resizeAll m)).delay_time = m.delay_time :=
    hsetup.2.2.2.2.2.2.1
  -- the read-out index is at most `rise_time + delay_time` behind the end of the trace
  have hmem : p ∈ FebexMWD.pulses o m := by
    rw [pulses_eq_log]
    exact List.mem_filterMap.mpr ⟨s, List.getElem?_mem hs, he⟩
  obtain ⟨_, htl, hcross, hread⟩ := scanPulses_mem _ o _ _ _ p hmem
  have hcl := zeroCrossing_le (FebexMWD.filter (FebexMWD.resizeAll m)) o
    (FebexMWD.filter (FebexMWD.resizeAll m)).trace.length
    ((FebexMWD.filter (FebexMWD.resizeAll m)).trace.length - p.trigger) p.trigger
    (Nat.le_of_lt htl)
  rw [← hcross, hlen] at hcl
  rw [hM, hD] at hread
  have hwrap : p.readout + m.window + m.baseline_length + 1 < 2 ^ 32 := by
    unfold FebexMWD.InRange at hr
    omega
  obtain ⟨ht, hdrop⟩ := scanLog_resume (FebexMWD.filter (FebexMWD.resizeAll m)) o _ _ _ n s p
    (Nat.le_refl _) hs he
  rw [hw, hb, hlen, ← Nat.add_assoc] at hdrop
  have hdrop2 : (FebexMWD.log o m).drop (n + 1)
      = FebexMWD.scanLog (FebexMWD.filter (FebexMWD.resizeAll m)) o m.trace.length
          (m.trace.length - (p.readout + m.window + m.baseline_length + 1))
          (p.readout + m.window + m.baseline_length + 1) := by
    rw [← hdrop]
    unfold FebexMWD.log FebexMWD.logFrom
    rw [hlen]
  have hn : n < (FebexMWD.log o m).length := by
    by_contra hcon
    rw [List.getElem?_eq_none (Nat.le_of_not_lt hcon)] at hs
    exact Option.noConfusion hs
  refine ⟨ht, Nat.mod_eq_of_lt hwrap, ?_, ?_, ?_⟩
  · intro k s2 hk hs2
    have h1 : ((FebexMWD.log o m).drop (n + 1))[k - (n + 1)]? = some s2 := by
      rw [List.getElem?_drop]
      have : n + 1 + (k - (n + 1)) = k := by omega
      rw [this]
      exact hs2
    rw [hdrop2] at h1
    exact scanLog_ge _ o _ _ _ s2 (List.getElem?_mem h1)
  · intro hin
    have h1 : (FebexMWD.log o m)[n + 1]? = ((FebexMWD.log o m).drop (n + 1))[0]? := by
      rw [List.getElem?_drop]
    rw [h1, hdrop2]
    have hfuel : m.trace.length - (p.readout + m.window + m.baseline_length + 1)
        = (m.trace.length - (p.readout + m.window + m.baseline_length + 1) - 1) + 1 := by
      omega
    rw [hfuel]
    exact scanLog_head _ o _ _ _ hin
  · intro hout
    have h1 : ((FebexMWD.log o m).drop (n + 1)).length = 0 := by
      rw [hdrop2, scanLog_end _ o _ _ _ hout]
      rfl
    rw [List.length_drop] at h1
    omega

set_option maxRecDepth 100000 in
/-- C21, at a concrete input: the iteration of `resumeMWD` at index 9 emits a record read
out at index 12; with window 1 and baseline length 1 every later iteration is at index 15
or behind it, and index 15 is the next one examined. -/
theorem DoMWD_resume_witness :
    resumeMWD.InRange ∧
    (FebexMWD.log zeroOverread resumeMWD)[4]?
      = some { examined := 9, emitted := some resumePulse } ∧
    (resumePulse.trigger = 9 ∧
    (resumePulse.readout + resumeMWD.window + resumeMWD.baseline_length + 1) % 2 ^ 32
      = resumePulse.readout + resumeMWD.window + resumeMWD.baseline_length + 1 ∧
    (∀ (k : Nat) (s2 : ScanStep), 4 < k → (FebexMWD.log zeroOverread resumeMWD)[k]? = some s2 →
      resumePulse.readout + resumeMWD.window + resumeMWD.baseline_length + 1 ≤ s2.examined) ∧
    (resumePulse.readout + resumeMWD.window + resumeMWD.baseline_length + 1
        < resumeMWD.trace.length →
      ∃ s2 : ScanStep, (FebexMWD.log zeroOverread resumeMWD)[4 + 1]? = some s2 ∧
        s2.examined = resumePulse.readout + resumeMWD.window + resumeMWD.baseline_length + 1) ∧
    (resumeMWD.trace.length
        ≤ resumePulse.readout + resumeMWD.window + resumeMWD.baseline_length + 1 →
      (FebexMWD.log zeroOverread resumeMWD).length = 4 + 1)) :=
  ⟨by decide, by with_unfolding_all decide,
    DoMWD_resume zeroOverread resumeMWD (by decide) 4
      { examined := 9, emitted := some resumePulse } resumePulse
      (by with_unfolding_all decide) rfl⟩

set_option maxRecDepth 100000 in
/-- C21 as stated fails: in the run of `resumeMWD` the iteration at index 9 emits the
record read out at `r = 12` (crossing index 10, between `cfd[9] = 2` and `cfd[10] = -8`),
and `r + window + baselineLength = 14` lies inside the 20-sample trace, where the
threshold condition would hold (`cfd[14] = 5 > 1`); but the indices examined are
5, 6, 7, 8, 9, 15, 16, ..., 19: the next one is 15, index 14 is never examined, and the
second step goes unrecorded. -/
theorem resume_counterexample :
    resumeMWD.InRange ∧
    (FebexMWD.log zeroOverread resumeMWD).map ScanStep.examined
      = [5, 6, 7, 8, 9, 15, 16, 17, 18, 19] ∧
    (FebexMWD.log zeroOverread resumeMWD)[4]?
      = some { examined := 9, emitted := some resumePulse } ∧
    resumePulse.readout + resumeMWD.window + resumeMWD.baseline_length = 14 ∧
    14 < resumeMWD.trace.length ∧
    (FebexMWD.filter (FebexMWD.resizeAll resumeMWD)).triggers zeroOverread 14 ∧
    (FebexMWD.DoMWD zeroOverread resumeMWD).cfd[14]? = some (5 : ℚ) ∧
    ¬ (∃ s2 : ScanStep, (FebexMWD.log zeroOverread resumeMWD)[4 + 1]? = some s2 ∧
        s2.examined = resumePulse.readout + resumeMWD.window + resumeMWD.baseline_length) ∧
    (∀ s2 ∈ FebexMWD.log zeroOverread resumeMWD, s2.examined ≠ 14) ∧
    FebexMWD.pulses zeroOverread resumeMWD = [resumePulse] ∧
    (FebexMWD.DoMWD zeroOverread resumeMWD).cfd[10]? = some (-8 : ℚ) ∧
    (FebexMWD.DoMWD zeroOverread resumeMWD).cfd[9]? = some (2 : ℚ) ∧
    (FebexMWD.DoMWD zeroOverread resumeMWD).energy_list = [6] := by
  have hlog : FebexMWD.log zeroOverread resumeMWD
      = [{ examined := 5, emitted := none }, { examined := 6, emitted := none },
         { examined := 7, emitted := none }, { examined := 8, emitted := none },
         { examined := 9, emitted := some resumePulse },
         { examined := 15, emitted := none }, { examined := 16, emitted := none },
         { examined := 17, emitted := none }, { examined := 18, emitted := none },
         { examined := 19, emitted := none }] := by with_unfolding_all decide
  refine ⟨by decide, ?_, ?_, ?_, ?_, ?_, ?_, ?_, ?_, ?_, ?_, ?_, ?_⟩
  · rw [hlog]; rfl
  · rw [hlog]; rfl
  · rfl
  · with_unfolding_all decide
  · with_unfolding_all decide
  · with_unfolding_all decide
  · rw [hlog]
    rintro ⟨s2, h1, h2⟩
    simp only [List.getElem?_cons_succ, List.getElem?_cons_zero, Option.some.injEq] at h1
    subst h1
    revert h2
    with_unfolding_all decide
  · rw [hlog]
    with_unfolding_all decide
  · with_unfolding_all decide
  · with_unfolding_all decide
  · with_unfolding_all decide
  · with_unfolding_all decide

/-! ## The flat-top parameter -/

theorem filterStep_flat_top (m : FebexMWD) (x i : Nat) :
    FebexMWD.filterStep { m with flat_top := x } i
      = { FebexMWD.filterStep m i with flat_top := x } := by
  simp only [FebexMWD.filterStep, FebexMWD.avgStep, FebexMWD.mwdStep, FebexMWD.cfdStep]
  split_ifs <;> rfl

theorem foldl_filterStep_flat_top (x : Nat) (l : List Nat) :
    ∀ m : FebexMWD, l.foldl FebexMWD.filterStep { m with flat_top := x }
      = { l.foldl FebexMWD.filterStep m with flat_top := x } := by
  induction l with
  | nil => intro m; rfl
  | cons a as ih =>
    intro m
    rw [List.foldl_cons, List.foldl_cons, filterStep_flat_top, ih]

theorem zeroCrossing_flat_top (m : FebexMWD) (x : Nat) (o : Overread) (len : Nat) :
    ∀ fuel i : Nat, FebexMWD.zeroCrossing { m with flat_top := x } o len fuel i
      = FebexMWD.zeroCrossing m o len fuel i := by
  intro fuel
  induction fuel with
  | zero => intro i; rfl
  | succ f ih =>
    intro i
    simp only [FebexMWD.zeroCrossing, FebexMWD.cfdAt, ih]

theorem scan_flat_top (m : FebexMWD) (x : Nat) (o : Overread) (len : Nat) :
    ∀ (fuel i : Nat) (lists : List ℚ × List ℚ),
      FebexMWD.scan { m with flat_top := x } o len fuel i lists
        = FebexMWD.scan m o len fuel i lists := by
  intro fuel
  induction fuel with
  | zero => intro i lists; rfl
  | succ f ih =>
    intro i lists
    simp only [FebexMWD.scan, FebexMWD.triggers, FebexMWD.cfdAt, FebexMWD.stage4At,
      FebexMWD.cfdTime, zeroCrossing_flat_top, ih]

/-- The run of `DoMWD` with another flat-top value is the same run, the stored flat-top
value apart. -/
theorem DoMWD_flat_top (o : Overread) (m : FebexMWD) (x : Nat) :
    FebexMWD.DoMWD o { m with flat_top := x } = { FebexMWD.DoMWD o m with flat_top := x } := by
  have hr : FebexMWD.resizeAll { m with flat_top := x }
      = { FebexMWD.resizeAll m with flat_top := x } := rfl
  have hf : FebexMWD.filter (FebexMWD.resizeAll { m with flat_top := x })
      = { FebexMWD.filter (FebexMWD.resizeAll m) with flat_top := x } := by
    rw [hr]
    exact foldl_filterStep_flat_top x _ _
  unfold FebexMWD.DoMWD
  simp only [hf, scan_flat_top]

/-- C22. The pulse records do not depend on flatTop: for every trace and every two
parameter sets that differ only in flatTop, `FebexMWD::DoMWD` run on freshly configured
processors produces identical cfd-time and amplitude lists (and identical filter buffers),
whatever lies behind the end of the buffers. -/
theorem DoMWD_ignores_flat_top (o : Overread) (trace : List Nat)
    (riseTime decayTime flatTop1 flatTop2 baselineLength window cfdDelay : Nat)
    (threshold : Int) (fraction : ℚ) :
    (FebexMWD.DoMWD o (FebexMWD.configured trace riseTime decayTime flatTop1 baselineLength
      window cfdDelay threshold fraction)).cfd_list =
    (FebexMWD.DoMWD o (FebexMWD.configured trace riseTime decayTime flatTop2 baselineLength
      window cfdDelay threshold fraction)).cfd_list ∧
    (FebexMWD.DoMWD o (FebexMWD.configured trace riseTime decayTime flatTop1 baselineLength
      window cfdDelay threshold fraction)).energy_list =
    (FebexMWD.DoMWD o (FebexMWD.configured trace riseTime decayTime flatTop2 baselineLength
      window cfdDelay threshold fraction)).energy_list ∧
    (FebexMWD.DoMWD o (FebexMWD.configured trace riseTime decayTime flatTop1 baselineLength
      window cfdDelay threshold fraction)).stage4 =
    (FebexMWD.DoMWD o (FebexMWD.configured trace riseTime decayTime flatTop2 baselineLength
      window cfdDelay threshold fraction)).stage4 ∧
    (FebexMWD.DoMWD o (FebexMWD.configured trace riseTime decayTime flatTop1 baselineLength
      window cfdDelay threshold fraction)).cfd =
    (FebexMWD.DoMWD o (FebexMWD.configured trace riseTime decayTime flatTop2 baselineLength
      window cfdDelay threshold fraction)).cfd := by
  have h : FebexMWD.configured trace riseTime decayTime flatTop1 baselineLength
      window cfdDelay threshold fraction
      = { FebexMWD.configured trace riseTime decayTime flatTop2 baselineLength
            window cfdDelay threshold fraction with flat_top := flatTop1 } := rfl
  rw [h, DoMWD_flat_top]
  exact ⟨rfl, rfl, rfl, rfl⟩

/-! ## The crossing time as a linear interpolation -/

/-- When the zero-crossing search returns, its condition fails at the index it returns. -/
theorem zeroCrossing_exit (m : FebexMWD) (o : Overread) (len : Nat) :
    ∀ fuel i : Nat, len - i ≤ fuel →
      ¬ (m.cfdAt o (FebexMWD.zeroCrossing m o len fuel i)
            * m.cfdAt o (FebexMWD.zeroCrossing m o len fuel i - 1) > 0 ∧
          FebexMWD.zeroCrossing m o len fuel i < len) := by
  intro fuel
  induction fuel with
  | zero =>
    intro i h hc
    have h2 : i < len := hc.2
    omega
  | succ f ih =>
    intro i h
    unfold FebexMWD.zeroCrossing
    split
    · exact ih (i + 1) (by omega)
    · assumption

theorem foldl_filterStep_cfd_length (l : List Nat) :
    ∀ m : FebexMWD, (l.foldl FebexMWD.filterStep m).cfd.length = m.cfd.length := by
  induction l with
  | nil => intro m; rfl
  | cons a as ih =>
    intro m
    rw [List.foldl_cons, ih, filterStep_cfd, buffer_step_length]

/-- After the filter loop the cfd buffer has the length of the trace (on any processor,
fresh or not). -/
theorem filter_cfd_length (m : FebexMWD) :
    (FebexMWD.filter (FebexMWD.resizeAll m)).cfd.length = m.trace.length := by
  unfold FebexMWD.filter
  rw [foldl_filterStep_cfd_length]
  exact resize_length _ _ _

/-- The crossing-time formula of the source for two positive magnitudes `a = |cfd[i]|`
and `b = |cfd[i-1]|`. -/
theorem cfd_time_formula (i a b : ℚ) (ha : 0 < a) (hb : 0 < b) :
    (i / a + (i - 1) / b) / (1 / a + 1 / b) = i - a / (a + b) := by
  have hab : a + b ≠ 0 := ne_of_gt (add_pos ha hb)
  have ha' : a ≠ 0 := ne_of_gt ha
  have hb' : b ≠ 0 := ne_of_gt hb
  field_simp
  ring

/-- C24. For every pulse record emitted at crossing index `i` (the `n`-th pulse of the
run, whose time is the `n`-th entry that `DoMWD` appends to the cfd-time list) with the
buffer elements `cfd[i]` and `cfd[i-1]` both nonzero: the two are of opposite sign, the
recorded cfdTime equals `i - |cfd[i]| / (|cfd[i]| + |cfd[i-1]|)`, it is the zero of the
straight line through `(i-1, cfd[i-1])` and `(i, cfd[i])`, it lies strictly between `i-1`
and `i`, and it is nearer to the index whose cfd magnitude is smaller. -/
theorem DoMWD_cfd_time_interpolates (o : Overread) (m : FebexMWD) (n : Nat) (p : Pulse)
    (ci cj : ℚ) (hp : (FebexMWD.pulses o m)[n]? = some p)
    (hi : (FebexMWD.DoMWD o m).cfd[p.crossing]? = some ci)
    (hj : (FebexMWD.DoMWD o m).cfd[p.crossing - 1]? = some cj)
    (hci : ci ≠ 0) (hcj : cj ≠ 0) :
    ci * cj < 0 ∧
    ∃ t : ℚ, (FebexMWD.DoMWD o m).cfd_list[m.cfd_list.length + n]? = some t ∧
      t = (p.crossing : ℚ) - |ci| / (|ci| + |cj|) ∧
      cj + (t - ((p.crossing : ℚ) - 1)) * (ci - cj) = 0 ∧
      (p.crossing : ℚ) - 1 < t ∧ t < (p.crossing : ℚ) ∧
      (|ci| < |cj| → (p.crossing : ℚ) - t < t - ((p.crossing : ℚ) - 1)) ∧
      (|cj| < |ci| → t - ((p.crossing : ℚ) - 1) < (p.crossing : ℚ) - t) := by
  have hmem : p ∈ FebexMWD.pulses o m := List.getElem?_mem hp
  obtain ⟨h5, _, hcross, _⟩ := scanPulses_mem _ o _ _ _ p hmem
  have hge := zeroCrossing_ge (FebexMWD.filter (FebexMWD.resizeAll m)) o
    (FebexMWD.filter (FebexMWD.resizeAll m)).trace.length
    ((FebexMWD.filter (FebexMWD.resizeAll m)).trace.length - p.trigger) p.trigger
  rw [← hcross] at hge
  have hc1 : 1 ≤ p.crossing := by
    have : FebexMWD.skip ≤ p.trigger := h5
    unfold FebexMWD.skip at this
    omega
  have hexit := zeroCrossing_exit (FebexMWD.filter (FebexMWD.resizeAll m)) o
    (FebexMWD.filter (FebexMWD.resizeAll m)).trace.length
    ((FebexMWD.filter (FebexMWD.resizeAll m)).trace.length - p.trigger) p.trigger
    (Nat.le_refl _)
  rw [← hcross] at hexit
  -- the two buffer elements are what the scan read
  have hbuf : (FebexMWD.DoMWD o m).cfd = (FebexMWD.filter (FebexMWD.resizeAll m)).cfd := rfl
  rw [hbuf] at hi hj
  have ei : (FebexMWD.filter (FebexMWD.resizeAll m)).cfdAt o p.crossing = ci := by
    unfold FebexMWD.cfdAt
    rw [List.getD_eq_getElem?_getD, hi]
    rfl
  have ej : (FebexMWD.filter (FebexMWD.resizeAll m)).cfdAt o (p.crossing - 1) = cj := by
    unfold FebexMWD.cfdAt
    rw [List.getD_eq_getElem?_getD, hj]
    rfl
  have hlt : p.crossing < (FebexMWD.filter (FebexMWD.resizeAll m)).trace.length := by
    have h1 : p.crossing < (FebexMWD.filter (FebexMWD.resizeAll m)).cfd.length := by
      by_contra hcon
      rw [List.getElem?_eq_none (Nat.le_of_not_lt hcon)] at hi
      exact Option.noConfusion hi
    rw [filter_cfd_length] at h1
    have hs := SameSetup_trans (filter_setup (FebexMWD.resizeAll m)) (resizeAll_setup m)
    rw [hs.1]
    exact h1
  rw [ei, ej] at hexit
  have hprod : ci * cj < 0 := by
    have hle : ci * cj ≤ 0 := by
      by_contra hcon
      exact hexit ⟨lt_of_not_le hcon, hlt⟩
    exact lt_of_le_of_ne hle (mul_ne_zero hci hcj)
  have ha : 0 < |ci| := abs_pos.mpr hci
  have hb : 0 < |cj| := abs_pos.mpr hcj
  have hab : 0 < |ci| + |cj| := add_pos ha hb
  have hcast : (((p.crossing - 1 : Nat) : ℚ)) = (p.crossing : ℚ) - 1 := by
    rw [Nat.cast_sub hc1]
    simp
  have htime : (FebexMWD.filter (FebexMWD.resizeAll m)).cfdTime o p.crossing
      = (p.crossing : ℚ) - |ci| / (|ci| + |cj|) := by
    unfold FebexMWD.cfdTime
    rw [ei, ej, hcast]
    exact cfd_time_formula _ _ _ ha hb
  have hfrac1 : |ci| / (|ci| + |cj|) < 1 := by
    rw [div_lt_one hab]
    linarith
  have hfrac0 : 0 < |ci| / (|ci| + |cj|) := div_pos ha hab
  have hsplit : |ci| / (|ci| + |cj|) + |cj| / (|ci| + |cj|) = 1 := by
    field_simp
  refine ⟨hprod, (p.crossing : ℚ) - |ci| / (|ci| + |cj|), ?_, rfl, ?_, ?_, ?_, ?_, ?_⟩
  · rw [(DoMWD_lists o m).1, ← htime]
    exact getElem?_append_map m.cfd_list (FebexMWD.pulses o m)
      (fun q => (FebexMWD.filter (FebexMWD.resizeAll m)).cfdTime o q.crossing) n p hp
  · have hline : (p.crossing : ℚ) - |ci| / (|ci| + |cj|) - ((p.crossing : ℚ) - 1)
        = |cj| / (|ci| + |cj|) := by linarith
    rw [hline]
    rcases lt_or_gt_of_ne hci with hneg | hpos
    · have hcjpos : 0 < cj := by
        by_contra hcon
        have : cj < 0 := lt_of_le_of_ne (not_lt.mp hcon) hcj
        nlinarith
      rw [abs_of_neg hneg, abs_of_pos hcjpos]
      have hne : -ci + cj ≠ 0 := by linarith
      field_simp
      ring
    · have hcjneg : cj < 0 := by
        by_contra hcon
        have : 0 < cj := lt_of_le_of_ne (not_lt.mp hcon) (Ne.symm hcj)
        nlinarith
      rw [abs_of_pos hpos, abs_of_neg hcjneg]
      have hne : ci + -cj ≠ 0 := by linarith
      field_simp
      ring
  · linarith
  · linarith
  · intro hlt2
    have : |ci| / (|ci| + |cj|) < |cj| / (|ci| + |cj|) := div_lt_div_of_pos_right hlt2 hab
    linarith
  · intro hlt2
    have : |cj| / (|ci| + |cj|) < |ci| / (|ci| + |cj|) := div_lt_div_of_pos_right hlt2 hab
    linarith

set_option maxRecDepth 100000 in
/-- C24, at a concrete input: the record of `rampMWD`, at crossing index 10 with
`cfd[10] = -8` and `cfd[9] = 2`; the recorded time is 10 - 8/10 = 46/5. -/
theorem DoMWD_cfd_time_interpolates_witness :
    (FebexMWD.pulses zeroOverread rampMWD)[0]?
      = some { trigger := 9, crossing := 10, readout := 12, baseline := 4 } ∧
    (FebexMWD.DoMWD zeroOverread rampMWD).cfd[10]? = some (-8 : ℚ) ∧
    (FebexMWD.DoMWD zeroOverread rampMWD).cfd[10 - 1]? = some (2 : ℚ) ∧
    (FebexMWD.DoMWD zeroOverread rampMWD).cfd_list = [46 / 5] ∧
    ((-8 : ℚ) * 2 < 0 ∧
    ∃ t : ℚ, (FebexMWD.DoMWD zeroOverread rampMWD).cfd_list[rampMWD.cfd_list.length + 0]?
        = some t ∧
      t = ((10 : Nat) : ℚ) - |(-8 : ℚ)| / (|(-8 : ℚ)| + |(2 : ℚ)|) ∧
      (2 : ℚ) + (t - (((10 : Nat) : ℚ) - 1)) * ((-8 : ℚ) - 2) = 0 ∧
      ((10 : Nat) : ℚ) - 1 < t ∧ t < ((10 : Nat) : ℚ) ∧
      (|(-8 : ℚ)| < |(2 : ℚ)| → ((10 : Nat) : ℚ) - t < t - (((10 : Nat) : ℚ) - 1)) ∧
      (|(2 : ℚ)| < |(-8 : ℚ)| → t - (((10 : Nat) : ℚ) - 1) < ((10 : Nat) : ℚ) - t)) :=
  ⟨by with_unfolding_all decide, by with_unfolding_all decide, by with_unfolding_all decide,
    by with_unfolding_all decide,
    DoMWD_cfd_time_interpolates zeroOverread rampMWD 0
      { trigger := 9, crossing := 10, readout := 12, baseline := 4 } (-8) 2
      (by with_unfolding_all decide) (by with_unfolding_all decide)
      (by with_unfolding_all decide) (by norm_num) (by norm_num)⟩

/-! ## Coincidence windows -/

/-- C23. For every setting of the coincidence windows, `GetParticleGammaTimeRatio`,
`GetGammaGammaTimeRatio` and `GetParticleParticleTimeRatio` each compute a numerator and a
denominator that are self-differences equal to zero, so the computation is the integer 0
divided by 0 (which yields no value), and its outcome is the same for any two settings of
the prompt and random windows. -/
theorem time_ratios_are_zero_over_zero (r : Reaction) :
    (r.pg_prompt 1 - r.pg_prompt 1 = 0 ∧ r.pg_random 1 - r.pg_random 1 = 0 ∧
      r.GetParticleGammaTimeRatio = toDouble (intDiv 0 0)) ∧
    (r.gg_prompt 1 - r.gg_prompt 1 = 0 ∧ r.gg_random 1 - r.gg_random 1 = 0 ∧
      r.GetGammaGammaTimeRatio = toDouble (intDiv 0 0)) ∧
    (r.pp_prompt 1 - r.pp_prompt 1 = 0 ∧ r.pp_random 1 - r.pp_random 1 = 0 ∧
      r.GetParticleParticleTimeRatio = toDouble (intDiv 0 0)) ∧
    toDouble (intDiv 0 0) = Except.error "integer division by zero" ∧
    ∀ r2 : Reaction,
      r.GetParticleGammaTimeRatio = r2.GetParticleGammaTimeRatio ∧
      r.GetGammaGammaTimeRatio = r2.GetGammaGammaTimeRatio ∧
      r.GetParticleParticleTimeRatio = r2.GetParticleParticleTimeRatio := by
  have h : ∀ x : Int, x - x = 0 := fun x => Int.sub_self x
  refine ⟨⟨h _, h _, ?_⟩, ⟨h _, h _, ?_⟩, ⟨h _, h _, ?_⟩, rfl, fun r2 => ⟨?_, ?_, ?_⟩⟩
  · simp only [Reaction.GetParticleGammaTimeRatio, h]
  · simp only [Reaction.GetGammaGammaTimeRatio, h]
  · simp only [Reaction.GetParticleParticleTimeRatio, h]
  · simp only [Reaction.GetParticleGammaTimeRatio, h]
  · simp only [Reaction.GetGammaGammaTimeRatio, h]
  · simp only [Reaction.GetParticleParticleTimeRatio, h]

/-- What `GetParticleParticlePromptTime` returns is what `GetParticleGammaPromptTime`
returns. -/
theorem GetParticleParticlePromptTime_eq (r : Reaction) (i : Nat) :
    r.GetParticleParticlePromptTime i = r.GetParticleGammaPromptTime i := rfl

/-- C25 (what the code does). On `sampleReaction` (particle-gamma prompt window
[-300, 300], particle-particle prompt window [-200, 200]) `GetParticleParticlePromptTime`
returns -300 and 300, the particle-gamma limits, and not the particle-particle limits
-200 and 200; `GetParticleGammaPromptTime`, `GetGammaGammaPromptTime` and
`GetParticleParticleRandomTime` return the limits of their own windows. -/
theorem GetParticleParticlePromptTime_returns_pg :
    sampleReaction.GetParticleParticlePromptTime 0 = -300 ∧
    sampleReaction.GetParticleParticlePromptTime 1 = 300 ∧
    ((sampleReaction.pp_prompt 0 : Int) : ℚ) = -200 ∧
    ((sampleReaction.pp_prompt 1 : Int) : ℚ) = 200 ∧
    sampleReaction.GetParticleParticlePromptTime 0 ≠ ((sampleReaction.pp_prompt 0 : Int) : ℚ) ∧
    sampleReaction.GetParticleParticlePromptTime 1 ≠ ((sampleReaction.pp_prompt 1 : Int) : ℚ) ∧
    sampleReaction.GetParticleGammaPromptTime 0 = ((sampleReaction.pg_prompt 0 : Int) : ℚ) ∧
    sampleReaction.GetGammaGammaPromptTime 0 = ((sampleReaction.gg_prompt 0 : Int) : ℚ) ∧
    sampleReaction.GetParticleParticleRandomTime 0 = ((sampleReaction.pp_random 0 : Int) : ℚ) ∧
    sampleReaction.GetParticleParticlePromptTime 2 = 0 := by
  refine ⟨?_, ?_, ?_, ?_, ?_, ?_, ?_, ?_, ?_, ?_⟩ <;> with_unfolding_all decide
